import Mathlib

/-!
# KMCMSStation: a station of 3x1D stereo sectors (na60fastsim)

Shallow embedding of `KMCMSStation.cxx`.  The C++ code computes in `float`/`double`;
the embedding computes in an arbitrary linearly ordered field `K` (exact arithmetic,
`x / 0 = 0`), so the statements below are about the idealised arithmetic of the
algorithm, with one exception: the conversion to `float` of the azimuth in
`getSectorID` (`float phi = TMath::ATan2(y,x)`), on which the angular sector of a point
near a sector border depends, is part of the embedding.  The ROOT library functions
`TMath::Cos`, `TMath::Sin`, ... and the conversion to `float` are a parameter
`T : TMath K` of every definition that calls them; statements about real trigonometry
instantiate `K := ℝ` with the real functions.  C++ `int` values are modelled by `Int`,
and the addition of labels is reduced to the range of a 32-bit `int` (`wrapInt32`).  An
out-of-range `std::vector` access (undefined behaviour) makes the embedded function
return `none`.
-/

set_option autoImplicit false
set_option linter.unusedSectionVars false

namespace NA60

/-! ## The mathematical library (`TMath`) -/

/-- The functions of ROOT's `TMath` used by the source (external library, taken as a
parameter).  `ATan2 y x` follows the argument order of `TMath::ATan2(y,x)`.  The last
field is the conversion `double → float` of the language, applied where the source stores
the azimuth in `float phi` (`getSectorID`); it is a parameter like the library functions
(`toFloat32` below is the rounding of IEEE single precision). -/
structure TMath (K : Type) where
  Cos : K → K
  Sin : K → K
  Tan : K → K
  ATan2 : K → K → K
  Sqrt : K → K
  Pi : K
  toFloat : K → K

/-- The oracle `T` is the real-number idealisation of `TMath`: cosine, sine, tangent,
`atan2(y,x)` as the argument of `x + i y` in `(-π, π]`, square root and `π`; of the
conversion to `float` it is only required that it is monotone and exact at `0` and at
`-4`, as a rounding to the nearest `float` is (and as the identity is). -/
def TMath.IsReal (T : TMath ℝ) : Prop :=
  T.Cos = Real.cos ∧ T.Sin = Real.sin ∧ T.Tan = Real.tan ∧
  (∀ y x : ℝ, T.ATan2 y x = Complex.arg ⟨x, y⟩) ∧ T.Sqrt = Real.sqrt ∧ T.Pi = Real.pi ∧
  Monotone T.toFloat ∧ T.toFloat 0 = 0 ∧ T.toFloat (-4) = -4

variable {K : Type} [LinearOrderedField K]

/-- Conversion `float → int` of C++ (`int id = phi/dPhi`): truncation towards zero. -/
def truncToInt [FloorRing K] (x : K) : Int := if 0 ≤ x then ⌊x⌋ else ⌈x⌉

/-- Modelled from the spec: the base class `Sector` of the header `KMCMSStation.h`
(SectorFrame of §3): centre azimuth `phi0`, angular half-width `dphiH`, inner and
outer radius. -/
structure Sector (K : Type) where
  phi0 : K
  dphiH : K
  rMin : K
  rMax : K

/-- Modelled from the spec: `Sector::isInside` of the header (§3, §4.2): a sector-local
point is a member of the wedge iff `rMin ≤ xl ≤ rMax` and `|yl| ≤ xl·tan δ`. -/
def Sector.isInside (T : TMath K) (s : Sector K) (xl yl : K) : Bool :=
  decide (s.rMin ≤ xl) && decide (xl ≤ s.rMax) && decide (|yl| ≤ xl * T.Tan s.dphiH)

/-- Modelled from the spec: the coordinates computed by `Sector::rotateToSector` of the
header (§4.2): rotation of the lab point by `-phi0`. -/
def Sector.rotate (T : TMath K) (s : Sector K) (x y : K) : K × K :=
  (x * T.Cos s.phi0 + y * T.Sin s.phi0, -x * T.Sin s.phi0 + y * T.Cos s.phi0)

/-- Modelled from the spec: `Sector::rotateToSector` of the header (§4.2, §4.3): the
rotated coordinates together with the `bool` it returns, the membership of the rotated
point (`getUVW` fails exactly when it is `false`). -/
def Sector.rotateToSector (T : TMath K) (s : Sector K) (x y : K) : Bool × K × K :=
  let p := s.rotate T x y
  (s.isInside T p.1 p.2, p.1, p.2)

/-- Modelled from the spec: `Sector::sector2Lab` of the header (§4.2): the inverse
rotation, by `+phi0`. -/
def Sector.sector2Lab (T : TMath K) (s : Sector K) (xl yl : K) : K × K :=
  (xl * T.Cos s.phi0 - yl * T.Sin s.phi0, xl * T.Sin s.phi0 + yl * T.Cos s.phi0)

/-- Modelled from the spec: `MeasPlane1D::Hit` of the header (§3): a channel and a label. -/
structure Hit (K : Type) where
  channel : K
  label : Int

/-- Modelled from the spec: the data members of `MeasPlane1D` (header; MeasurementPlane
of §3).  The member names are those used by `KMCMSStation.cxx`. -/
structure MeasPlane1D (K : Type) extends Sector K where
  pitch : K
  offset : K
  measAngle : K
  hits : List (Hit K)

/-- Modelled from the spec: `MeasPlane1D::get1DMeasurement` of the header (`channel` of
§4.1): `(x·cos θ + y·sin θ)/pitch − offset`. -/
def MeasPlane1D.get1DMeasurement (T : TMath K) (pl : MeasPlane1D K) (x y : K) : K :=
  (x * T.Cos pl.measAngle + y * T.Sin pl.measAngle) / pl.pitch - pl.offset

/-- Modelled from the spec: `MeasPlane1D::local2sector` of the header (`pointOnLine` of
§4.1): the point at parameter `t` of the line of constant channel `chan`. -/
def MeasPlane1D.local2sector (T : TMath K) (pl : MeasPlane1D K) (chan t : K) : K × K :=
  ((chan + pl.offset) * pl.pitch * T.Cos pl.measAngle - t * T.Sin pl.measAngle,
   (chan + pl.offset) * pl.pitch * T.Sin pl.measAngle + t * T.Cos pl.measAngle)

/-- Modelled from the spec: `MeasPlane1D::clear` of the header (§4.1): empties the hit
list. -/
def MeasPlane1D.clear (pl : MeasPlane1D K) : MeasPlane1D K :=
  { pl with hits := [] }

/-- The constructor `MeasPlane1D::MeasPlane1D`: the offset starts at `0` and is set to
the minimum of `get1DMeasurement` over the four corners of the wedge. -/
def MeasPlane1D.ctor (T : TMath K) (phiSector dphih rmin rmax phiMeas ptc : K) :
    MeasPlane1D K :=
  let p0 : MeasPlane1D K :=
    { phi0 := phiSector, dphiH := dphih, rMin := rmin, rMax := rmax,
      pitch := ptc, offset := 0, measAngle := phiMeas, hits := [] }
  let chan := p0.get1DMeasurement T p0.rMin (p0.rMin * T.Tan p0.dphiH)
  let chan := min chan (p0.get1DMeasurement T p0.rMin (-p0.rMin * T.Tan p0.dphiH))
  let chan := min chan (p0.get1DMeasurement T p0.rMax (p0.rMax * T.Tan p0.dphiH))
  let chan := min chan (p0.get1DMeasurement T p0.rMax (-p0.rMax * T.Tan p0.dphiH))
  { p0 with offset := chan }

/-- Modelled from the spec: the data members of `KMCMSSector` (header; StereoSector of
§3).  The member names are those used by `KMCMSStation.cxx`. -/
structure KMCMSSector (K : Type) extends Sector K where
  stripPlaneU : MeasPlane1D K
  stripPlaneV : MeasPlane1D K
  wirePlaneW : MeasPlane1D K
  cUV : K
  sUV : K
  cUW : K
  sUW : K
  cVW : K
  sVW : K
  sigR : K
  sigRPhi : K

/-- The constructor `KMCMSSector::KMCMSSector`. -/
def KMCMSSector.ctor (T : TMath K) (phiSector dphih rmin rmax phiUV pitchUV phiW pitchW
    _sigR _sigRPhi : K) : KMCMSSector K :=
  { phi0 := phiSector, dphiH := dphih, rMin := rmin, rMax := rmax,
    stripPlaneU := MeasPlane1D.ctor T phiSector dphih rmin rmax phiUV pitchUV,
    stripPlaneV := MeasPlane1D.ctor T phiSector dphih rmin rmax (-phiUV) pitchUV,
    wirePlaneW := MeasPlane1D.ctor T phiSector dphih rmin rmax phiW pitchW,
    cUV := T.Cos (2 * phiUV), sUV := T.Sin (2 * phiUV),
    cUW := T.Cos (phiUV - phiW), sUW := T.Sin (phiUV - phiW),
    cVW := T.Cos (-phiUV - phiW), sVW := T.Sin (-phiUV - phiW),
    sigR := _sigR, sigRPhi := _sigRPhi }

/-- Method `KMCMSSector::getUVW`: `none` stands for the return value `false` (the point is not
inside the sector, `U`, `V`, `W` are not written). -/
def KMCMSSector.getUVW (T : TMath K) (s : KMCMSSector K) (x y : K) : Option (K × K × K) :=
  let r := s.toSector.rotateToSector T x y
  if !r.1 then none
  else
    let xl := r.2.1
    let yl := r.2.2
    some (s.stripPlaneU.get1DMeasurement T xl yl,
          s.stripPlaneV.get1DMeasurement T xl yl,
          s.wirePlaneW.get1DMeasurement T xl yl)

/-- Method `KMCMSSector::clear`. -/
def KMCMSSector.clear (s : KMCMSSector K) : KMCMSSector K :=
  { s with
    stripPlaneU := s.stripPlaneU.clear,
    stripPlaneV := s.stripPlaneV.clear,
    wirePlaneW := s.wirePlaneW.clear }

/-! ## The base layer (truth sink) and the station -/

/-- Modelled from the spec: the Monte-Carlo truth cluster of the base layer (`fClMC`,
`GetMCCluster()`; truth sink of §6): position, label and the killed flag. -/
structure KMCClusterFwd (K : Type) where
  x : K
  y : K
  z : K
  id : Int
  killed : Bool

/-- Modelled from the spec: a background cluster registered with the truth sink
(`AddBgCluster(x,y,z,label)`, §6). -/
structure BgCluster (K : Type) where
  x : K
  y : K
  z : K
  id : Int

/-- Modelled from the spec: the part of the base class `KMCLayerFwd` used by the station
(external collaborator of §6): the `z` of the layer, the truth cluster and the
accumulated background clusters. -/
structure KMCLayerFwd (K : Type) where
  fZ : K
  fClMC : KMCClusterFwd K
  fClBg : List (BgCluster K)

/-- Modelled from the spec: `KMCLayerFwd::GetZ`. -/
def KMCLayerFwd.GetZ (l : KMCLayerFwd K) : K := l.fZ

/-- Modelled from the spec: `KMCLayerFwd::ResetBgClusters` ("reset background clusters
for new event", §6). -/
def KMCLayerFwd.ResetBgClusters (l : KMCLayerFwd K) : KMCLayerFwd K :=
  { l with fClBg := [] }

/-- Modelled from the spec: `KMCLayerFwd::AddBgCluster` ("add background cluster at
position+label", §6): the cluster is appended to the accumulated collection. -/
def KMCLayerFwd.AddBgCluster (l : KMCLayerFwd K) (x y z : K) (id : Int) : KMCLayerFwd K :=
  { l with fClBg := l.fClBg ++ [{ x := x, y := y, z := z, id := id }] }

/-- Modelled from the spec: `KMCLayerFwd::SortBGClusters` ("sort accumulated background
clusters", §6); the order is not part of the sources, the sorting function is a
parameter. -/
def KMCLayerFwd.SortBGClusters (sortBG : List (BgCluster K) → List (BgCluster K))
    (l : KMCLayerFwd K) : KMCLayerFwd K :=
  { l with fClBg := sortBG l.fClBg }

/-- Modelled from the spec: the data members of `KMCMSStation` (header; DetectionStation
of §3), on top of the base layer.  The member names are those used by
`KMCMSStation.cxx`. -/
structure KMCMSStation (K : Type) extends KMCLayerFwd K where
  dPhi : K
  nSectors : Int
  radii : List K
  nRadSegments : Int
  sectors : List (KMCMSSector K)
  signalU : K
  signalV : K
  signalW : K
  signalSectorID : Int

/-- The element `sectors[id]` of the station (`getSector(int)` of the header returns its
address); `none` when `id` is not an index of the vector. -/
def KMCMSStation.sectorAt (st : KMCMSStation K) (id : Int) : Option (KMCMSSector K) :=
  if 0 ≤ id then st.sectors[id.toNat]? else none

/-- Body of the inner loop of `KMCMSStation::init`: the sector of radial segment `ir` in
the angular sector of centre `phiSect`. -/
def initSegment (T : TMath K) (phiSect dPhi : K)
    (r _phiUV _pitchUV _phiW _pitchW _sigR _sigRPhi : List K) (ir : Nat) :
    Option (KMCMSSector K) :=
  match r[ir]?, r[ir + 1]?, _phiUV[ir]?, _pitchUV[ir]?, _phiW[ir]?, _pitchW[ir]?,
      _sigR[ir]?, _sigRPhi[ir]? with
  | some r0, some r1, some a, some b, some c, some d, some e, some f =>
      some (KMCMSSector.ctor T phiSect (0.5 * dPhi) r0 r1 a b c d e f)
  | _, _, _, _, _, _, _, _ => none

/-- Inner loop of `KMCMSStation::init` (`for ir`): the sectors of the `n` radial segments
`ir, ir+1, ...` of one angular sector, in the order they are appended. -/
def initRadial (T : TMath K) (phiSect dPhi : K)
    (r _phiUV _pitchUV _phiW _pitchW _sigR _sigRPhi : List K) : Nat → Nat →
    Option (List (KMCMSSector K))
  | 0, _ => some []
  | n + 1, ir =>
    match initSegment T phiSect dPhi r _phiUV _pitchUV _phiW _pitchW _sigR _sigRPhi ir with
    | none => none
    | some s =>
      match initRadial T phiSect dPhi r _phiUV _pitchUV _phiW _pitchW _sigR _sigRPhi n
          (ir + 1) with
      | none => none
      | some rest => some (s :: rest)

/-- Outer loop of `KMCMSStation::init` (`for ip`): the sectors of the `n` angular sectors
`ip, ip+1, ...`, in the order they are appended. -/
def initAngular (T : TMath K) (dPhi : K) (nRad : Nat)
    (r _phiUV _pitchUV _phiW _pitchW _sigR _sigRPhi : List K) : Nat → Nat →
    Option (List (KMCMSSector K))
  | 0, _ => some []
  | n + 1, ip =>
    match initRadial T (((ip : K) + 0.5) * dPhi) dPhi r _phiUV _pitchUV _phiW _pitchW
        _sigR _sigRPhi nRad 0 with
    | none => none
    | some ring =>
      match initAngular T dPhi nRad r _phiUV _pitchUV _phiW _pitchW _sigR _sigRPhi n
          (ip + 1) with
      | none => none
      | some rest => some (ring ++ rest)

/-- Method `KMCMSStation::init`. -/
def KMCMSStation.init (T : TMath K) (st : KMCMSStation K) (nsect : Int)
    (r _phiUV _pitchUV _phiW _pitchW _sigR _sigRPhi : List K) : Option (KMCMSStation K) :=
  let dPhi := T.Pi * 2 / (nsect : K)
  let nRadSegments : Int := (r.length : Int) - 1
  match initAngular T dPhi nRadSegments.toNat r _phiUV _pitchUV _phiW _pitchW _sigR
      _sigRPhi nsect.toNat 0 with
  | none => none
  | some new =>
    some { st with dPhi := dPhi, nSectors := nsect, radii := r,
                   nRadSegments := nRadSegments, sectors := st.sectors ++ new }

/-- The radial loop of `KMCMSStation::getSectorID` with `n` iterations left, at sector
index `id`. -/
def KMCMSStation.radialScan (st : KMCMSStation K) (xl : K) : Nat → Int → Option Int
  | 0, _ => some (-1)
  | n + 1, id =>
    match st.sectorAt id with
    | none => none
    | some s => if xl < s.rMax then some id else st.radialScan xl n (id + 1)

/-- The index of the angular sector of the lab point `(x,y)`: the value of `id` in
`KMCMSStation::getSectorID` before `id *= nRadSegments`.  The azimuth is the `float`
variable `phi` of the source: the value of `ATan2`, and of `phi + 2π`, is converted to
`float` when it is stored. -/
def KMCMSStation.angularIndex [FloorRing K] (T : TMath K) (st : KMCMSStation K) (x y : K) :
    Int :=
  let phi := T.toFloat (T.ATan2 y x)
  let phi := if phi < 0 then T.toFloat (phi + T.Pi * 2) else phi
  let id : Int := truncToInt (phi / st.dPhi)
  if id ≥ st.nSectors then st.nSectors - 1 else id

/-- Method `KMCMSStation::getSectorID`. -/
def KMCMSStation.getSectorID [FloorRing K] (T : TMath K) (st : KMCMSStation K) (x y : K) :
    Option Int :=
  let id := st.angularIndex T x y * st.nRadSegments
  match st.sectorAt id with
  | none => none
  | some s0 =>
    let xl := (s0.toSector.rotateToSector T x y).2.1
    if xl < s0.rMin then some (-1)
    else st.radialScan xl st.nRadSegments.toNat id

/-- The three `emplace_back` of a hit `(U,id)`, `(V,id)`, `(W,id)` on the planes of a
sector. -/
def KMCMSSector.pushHits (s : KMCMSSector K) (U V W : K) (id : Int) : KMCMSSector K :=
  { s with
    stripPlaneU := { s.stripPlaneU with hits := s.stripPlaneU.hits ++ [⟨U, id⟩] },
    stripPlaneV := { s.stripPlaneV with hits := s.stripPlaneV.hits ++ [⟨V, id⟩] },
    wirePlaneW := { s.wirePlaneW with hits := s.wirePlaneW.hits ++ [⟨W, id⟩] } }

/-- The three `pop_back` on the planes of a sector. -/
def KMCMSSector.popHits (s : KMCMSSector K) : KMCMSSector K :=
  { s with
    stripPlaneU := { s.stripPlaneU with hits := s.stripPlaneU.hits.dropLast },
    stripPlaneV := { s.stripPlaneV with hits := s.stripPlaneV.hits.dropLast },
    wirePlaneW := { s.wirePlaneW with hits := s.wirePlaneW.hits.dropLast } }

/-- Method `KMCMSStation::AddCluster`; `rx`, `ry` are the two samples drawn by
`gRandom->Rannor(rx,ry)`.  `getSector(x,y)` of the header is modelled from the spec
(§4.4: "locate the sector; if none, fail"): the sector of index `getSectorID(x,y)`, or
null when that is negative. -/
def KMCMSStation.AddCluster [FloorRing K] (T : TMath K) (st : KMCMSStation K) (x y z : K)
    (id : Int) (isBG : Bool) (rx ry : K) : Option (Bool × KMCMSStation K) :=
  let st : KMCMSStation K :=
    if !isBG then { st with fClMC := { st.fClMC with killed := true } } else st
  let st : KMCMSStation K := { st with signalSectorID := -1 }
  match st.getSectorID T x y with
  | none => none
  | some sid0 =>
    if sid0 < 0 then some (false, st)
    else
      match st.sectorAt sid0 with
      | none => none
      | some sect0 =>
        let r := T.Sqrt (x * x + y * y)
        let xerr := rx * sect0.sigRPhi
        let yerr := ry * sect0.sigR
        let phi := T.ATan2 y x
        let r := r + yerr
        let rphi := xerr
        let cs := T.Cos phi
        let sn := T.Sin phi
        let x := r * cs - rphi * sn
        let y := r * sn + rphi * cs
        match st.getSectorID T x y with
        | none => none
        | some sid =>
          let isect := if sid ≥ 0 then sid else sid0
          match st.sectorAt isect with
          | none => none
          | some sect =>
            match sect.getUVW T x y with
            | none => some (false, st)
            | some (U, V, W) =>
              if !isBG then
                some (true, { st with
                  signalU := U, signalV := V, signalW := W, signalSectorID := sid,
                  fClMC := { x := x, y := y, z := z, id := id, killed := false } })
              else
                some (true, { st with
                  sectors := st.sectors.set isect.toNat (sect.pushHits U V W id),
                  fClBg := st.fClBg ++ [{ x := x, y := y, z := z, id := id }] })

/-- The smeared point computed by `KMCMSStation::AddCluster` for the lab point `(x, y)`, the
sector `sect` of the point and the samples `rx`, `ry`. -/
def KMCMSSector.smear (T : TMath K) (sect : KMCMSSector K) (x y rx ry : K) : K × K :=
  let r := T.Sqrt (x * x + y * y)
  let xerr := rx * sect.sigRPhi
  let yerr := ry * sect.sigR
  let phi := T.ATan2 y x
  let r := r + yerr
  let rphi := xerr
  let cs := T.Cos phi
  let sn := T.Sin phi
  (r * cs - rphi * sn, r * sn + rphi * cs)

/-- The station after the first statements of `KMCMSStation::AddCluster`: the truth
cluster is killed for a signal hit and the signal record is invalidated. -/
def KMCMSStation.invalidated (st : KMCMSStation K) (isBG : Bool) : KMCMSStation K :=
  { (if !isBG then { st with fClMC := { st.fClMC with killed := true } } else st) with
    signalSectorID := -1 }

/-! ## Reconstruction (`PrepareForTracking`) -/

/-- The quantity `chi2` of `PrepareForTracking` for the differences `dx`, `dy` of the two
crossings. -/
def KMCMSSector.chi2 (sect : KMCMSSector K) (dx dy : K) : K :=
  (dx * dx / sect.sigR + dy * dy / sect.sigRPhi) / 2

/-- The value of a 32-bit `int` expression whose mathematical value is `n`: the
representative of `n` modulo `2^32` in `[-2^31, 2^31)`.  Signed overflow is undefined
behaviour in C++; it is modelled by the two's-complement wrap-around of the usual
targets. -/
def wrapInt32 (n : Int) : Int := (n + 2147483648) % 4294967296 - 2147483648

/-- The label `lbl` determined by `PrepareForTracking` from the labels of the U, V and W
hit; the sum `100000 + label` is computed in 32-bit `int`. -/
def resolveLabel (lu lv lw : Int) : Int :=
  if lu = lv ∧ lu = lw then lu else wrapInt32 (100000 + lu)

/-- Registration of a coincidence by `PrepareForTracking`: label `-1` moves the truth
cluster, any other label adds a background cluster at the `z` of the station. -/
def KMCLayerFwd.registerCoincidence (l : KMCLayerFwd K) (xlab ylab : K) (lbl : Int) :
    KMCLayerFwd K :=
  if lbl = -1 then { l with fClMC := { l.fClMC with x := xlab, y := ylab } }
  else l.AddBgCluster xlab ylab l.GetZ lbl

/-- The U-W crossing of `PrepareForTracking` for a U hit and a W hit of the sector, in
sector coordinates (`xsUW`, `ysUW`). -/
def KMCMSSector.crossUW (T : TMath K) (sect : KMCMSSector K) (hitU hitW : Hit K) : K × K :=
  let hu := (hitU.channel + sect.stripPlaneU.offset) * sect.stripPlaneU.pitch
  let hw := (hitW.channel + sect.wirePlaneW.offset) * sect.wirePlaneW.pitch
  let tuw := (hw - hu * sect.cUW) / sect.sUW
  sect.stripPlaneU.local2sector T hitU.channel tuw

/-- The V-W crossing of `PrepareForTracking` for a V hit and a W hit of the sector, in
sector coordinates (`xsVW`, `ysVW`). -/
def KMCMSSector.crossVW (T : TMath K) (sect : KMCMSSector K) (hitV hitW : Hit K) : K × K :=
  let hw := (hitW.channel + sect.wirePlaneW.offset) * sect.wirePlaneW.pitch
  let hv := (hitV.channel + sect.stripPlaneV.offset) * sect.stripPlaneV.pitch
  let tvw := (hw - hv * sect.cVW) / sect.sVW
  sect.stripPlaneV.local2sector T hitV.channel tvw

/-- Body of the `iv` loop of `PrepareForTracking`, for the U hit `hitU`, the W hit `hitW`
and their crossing `pUW` (already inside the sector). -/
def KMCMSSector.stepV (T : TMath K) (sect : KMCMSSector K) (hitU hitW : Hit K) (pUW : K × K)
    (l : KMCLayerFwd K) (hitV : Hit K) : KMCLayerFwd K :=
  let pVW := sect.crossVW T hitV hitW
  if !sect.toSector.isInside T pVW.1 pVW.2 then l
  else
    let dx := pUW.1 - pVW.1
    let dy := pUW.2 - pVW.2
    let chi2 := sect.chi2 dx dy
    if chi2 > 9 then l
    else
      let lab := sect.toSector.sector2Lab T (0.5 * (pUW.1 + pVW.1)) (0.5 * (pUW.2 + pVW.2))
      let lbl := resolveLabel hitU.label hitV.label hitW.label
      l.registerCoincidence lab.1 lab.2 lbl

/-- Body of the `iw` loop of `PrepareForTracking`. -/
def KMCMSSector.stepW (T : TMath K) (sect : KMCMSSector K) (hitU : Hit K)
    (l : KMCLayerFwd K) (hitW : Hit K) : KMCLayerFwd K :=
  let pUW := sect.crossUW T hitU hitW
  if !sect.toSector.isInside T pUW.1 pUW.2 then l
  else sect.stripPlaneV.hits.foldl (sect.stepV T hitU hitW pUW) l

/-- Body of the `iu` loop of `PrepareForTracking`. -/
def KMCMSSector.stepU (T : TMath K) (sect : KMCMSSector K) (l : KMCLayerFwd K)
    (hitU : Hit K) : KMCLayerFwd K :=
  sect.wirePlaneW.hits.foldl (sect.stepW T hitU) l

/-- Body of the `is` loop of `PrepareForTracking`: the scan of one sector. -/
def KMCMSSector.scan (T : TMath K) (l : KMCLayerFwd K) (sect : KMCMSSector K) :
    KMCLayerFwd K :=
  sect.stripPlaneU.hits.foldl (sect.stepU T) l

/-- The sectors of the station after the three `emplace_back` (`push = true`) or the three
`pop_back` (`push = false`) on the signal sector, when `signalSectorID >= 0`; `none` when
`signalSectorID` is not an index of `sectors`. -/
def KMCMSStation.signalHits (st : KMCMSStation K) (push : Bool) :
    Option (List (KMCMSSector K)) :=
  if st.signalSectorID ≥ 0 then
    match st.sectorAt st.signalSectorID with
    | none => none
    | some sect =>
      some (st.sectors.set st.signalSectorID.toNat
        (if push then sect.pushHits st.signalU st.signalV st.signalW (-1) else sect.popHits))
  else some st.sectors

/-- Method `KMCMSStation::PrepareForTracking`. -/
def KMCMSStation.PrepareForTracking (T : TMath K)
    (sortBG : List (BgCluster K) → List (BgCluster K)) (st : KMCMSStation K) :
    Option (KMCMSStation K) :=
  let st : KMCMSStation K := { st with toKMCLayerFwd := st.toKMCLayerFwd.ResetBgClusters }
  match st.signalHits true with
  | none => none
  | some secs =>
    let st : KMCMSStation K := { st with sectors := secs }
    let st : KMCMSStation K :=
      { st with toKMCLayerFwd := st.sectors.foldl (KMCMSSector.scan T) st.toKMCLayerFwd }
    match st.signalHits false with
    | none => none
    | some secs =>
      let st : KMCMSStation K := { st with sectors := secs }
      some { st with toKMCLayerFwd := st.toKMCLayerFwd.SortBGClusters sortBG }

/-! ## Example configurations -/

/-- A station before `init`: no sectors, no signal record, empty truth sink. -/
def emptyStation (K : Type) [LinearOrderedField K] : KMCMSStation K :=
  { fZ := 0, fClMC := { x := 0, y := 0, z := 0, id := 0, killed := false }, fClBg := [],
    dPhi := 0, nSectors := 0, radii := [], nRadSegments := 0, sectors := [],
    signalU := 0, signalV := 0, signalW := 0, signalSectorID := -1 }

/-- The sector that `init` builds for angular index `ip` when called with `nsect = 4`,
radii `[1/2, 5]`, stereo angles `phiUV` and `phiW = 0`, pitches `1` and resolutions
`sigR = sigRPhi = 3/5`. -/
def exampleSector (T : TMath K) (phiUV : K) (ip : Nat) : KMCMSSector K :=
  KMCMSSector.ctor T (((ip : K) + 0.5) * (T.Pi * 2 / 4)) (0.5 * (T.Pi * 2 / 4)) (1 / 2) 5
    phiUV 1 0 1 (3 / 5) (3 / 5)

/-- The station that `init` builds from `emptyStation` when called with `nsect = 4`,
radii `[1/2, 5]`, stereo angles `phiUV` and `phiW = 0`, pitches `1` and resolutions
`sigR = sigRPhi = 3/5` (see `exampleStation_init`). -/
def exampleStation (T : TMath K) (phiUV : K) : KMCMSStation K :=
  { emptyStation K with
    dPhi := T.Pi * 2 / 4, nSectors := 4, radii := [1 / 2, 5], nRadSegments := 1,
    sectors := [0, 1, 2, 3].map (exampleSector T phiUV) }

/-- The station with one more background hit `(U,id)`, `(V,id)`, `(W,id)` on the planes
of sector `i`: the effect of a successful background `AddCluster` on the hit lists. -/
def KMCMSStation.addHits (st : KMCMSStation K) (i : Nat) (U V W : K) (id : Int) :
    KMCMSStation K :=
  { st with sectors := st.sectors.modify (fun s => s.pushHits U V W id) i }

/-- The station `exampleStation T phiUV` with a signal record in sector 0 (for
`phiUV = arccos (3/5)` the channels `U = 17/5`, `V = 17/5`, `W = 7/2` of the sector-local
point `(4, 0)`). -/
def exampleSignalStation (T : TMath K) (phiUV : K) : KMCMSStation K :=
  { exampleStation T phiUV with
    signalU := 17 / 5, signalV := 17 / 5, signalW := 7 / 2, signalSectorID := 0 }

/-- The sizes of the U, V and W hit lists of a sector. -/
def KMCMSSector.hitSizes (s : KMCMSSector K) : Nat × Nat × Nat :=
  (s.stripPlaneU.hits.length, s.stripPlaneV.hits.length, s.wirePlaneW.hits.length)

/-! ## Theorems -/

/-! ### Helper lemmas -/

/-- A value in the range of a 32-bit `int` is not changed by the wrap-around. -/
theorem wrapInt32_of_range (n : Int) (h1 : -2147483648 ≤ n) (h2 : n ≤ 2147483647) :
    wrapInt32 n = n := by
  unfold wrapInt32
  omega

/-- The three `pop_back` undo the three `emplace_back`. -/
theorem KMCMSSector.popHits_pushHits (s : KMCMSSector K) (U V W : K) (id : Int) :
    (s.pushHits U V W id).popHits = s := by
  simp [KMCMSSector.pushHits, KMCMSSector.popHits]

/-- Writing back the element read at an index leaves a list unchanged. -/
theorem set_eq_self_of_getElem_some {α : Type} (l : List α) (i : Nat) (a : α)
    (h : l[i]? = some a) : l.set i a = l := by
  apply List.ext_getElem?
  intro j
  by_cases hij : i = j
  · subst hij
    rw [List.getElem?_set_self', h]; simp
  · rw [List.getElem?_set_ne hij]

/-- The call of `PrepareForTracking` returns and leaves the sectors (geometry and hit lists) as they
were, when `signalSectorID` is negative or an index of `sectors`. -/
theorem KMCMSStation.PrepareForTracking_sectors (T : TMath K)
    (sortBG : List (BgCluster K) → List (BgCluster K)) (st : KMCMSStation K)
    (h : st.signalSectorID < st.sectors.length) :
    ∃ st1, st.PrepareForTracking T sortBG = some st1 ∧ st1.sectors = st.sectors := by
  unfold KMCMSStation.PrepareForTracking KMCMSStation.signalHits
  by_cases h0 : st.signalSectorID ≥ 0
  · have hlt : st.signalSectorID.toNat < st.sectors.length := by omega
    simp only [h0, if_true, KMCMSStation.sectorAt, ge_iff_le]
    simp [List.getElem?_eq_getElem hlt, List.getElem?_set_self hlt,
      KMCMSSector.popHits_pushHits, List.set_set]
    exact set_eq_self_of_getElem_some _ _ _ (List.getElem?_eq_getElem hlt)
  · simp [h0]

/-- The body of the `iv` loop on an accepted combination: the coincidence is registered
at the lab image of the midpoint of the two crossings, with the resolved label. -/
theorem KMCMSSector.stepV_accepted (T : TMath K) (sect : KMCMSSector K)
    (hitU hitW hitV : Hit K) (pUW : K × K) (l : KMCLayerFwd K)
    (hin : sect.toSector.isInside T (sect.crossVW T hitV hitW).1
      (sect.crossVW T hitV hitW).2 = true)
    (hchi : sect.chi2 (pUW.1 - (sect.crossVW T hitV hitW).1)
      (pUW.2 - (sect.crossVW T hitV hitW).2) ≤ 9) :
    sect.stepV T hitU hitW pUW l hitV =
      l.registerCoincidence
        (sect.toSector.sector2Lab T (0.5 * (pUW.1 + (sect.crossVW T hitV hitW).1))
          (0.5 * (pUW.2 + (sect.crossVW T hitV hitW).2))).1
        (sect.toSector.sector2Lab T (0.5 * (pUW.1 + (sect.crossVW T hitV hitW).1))
          (0.5 * (pUW.2 + (sect.crossVW T hitV hitW).2))).2
        (resolveLabel hitU.label hitV.label hitW.label) := by
  simp [KMCMSSector.stepV, hin, not_lt.mpr hchi]

/-- With the parameter `(hA·cAB − hB)/sAB`, the opposite of the one computed by
`PrepareForTracking`, the point of `local2sector` lies on the line of channel `chA` of
plane `A` and on the line of channel `chB` of plane `B` (`cAB`, `sAB` the cosine and sine
of the difference of the two measurement angles). -/
theorem crossing_with_opposite_parameter (T : TMath K) (A B : MeasPlane1D K)
    (chA chB cAB sAB : K) (hA : A.pitch ≠ 0) (hB : B.pitch ≠ 0)
    (h1 : T.Cos A.measAngle ^ 2 + T.Sin A.measAngle ^ 2 = 1)
    (hc : cAB = T.Cos A.measAngle * T.Cos B.measAngle + T.Sin A.measAngle * T.Sin B.measAngle)
    (hs : sAB = T.Sin A.measAngle * T.Cos B.measAngle - T.Cos A.measAngle * T.Sin B.measAngle)
    (h0 : sAB ≠ 0) :
    A.get1DMeasurement T
        (A.local2sector T chA
          (((chA + A.offset) * A.pitch * cAB - (chB + B.offset) * B.pitch) / sAB)).1
        (A.local2sector T chA
          (((chA + A.offset) * A.pitch * cAB - (chB + B.offset) * B.pitch) / sAB)).2 = chA ∧
    B.get1DMeasurement T
        (A.local2sector T chA
          (((chA + A.offset) * A.pitch * cAB - (chB + B.offset) * B.pitch) / sAB)).1
        (A.local2sector T chA
          (((chA + A.offset) * A.pitch * cAB - (chB + B.offset) * B.pitch) / sAB)).2 = chB := by
  simp only [MeasPlane1D.get1DMeasurement, MeasPlane1D.local2sector]
  constructor
  · field_simp
    linear_combination (chA + A.offset) * A.pitch * sAB * h1
  · field_simp
    linear_combination (-(chA + A.offset) * A.pitch * sAB) * hc +
      ((chA + A.offset) * A.pitch * cAB - (chB + B.offset) * B.pitch) * hs

/-! ### The sector grid built by `init` -/

/-- When the body of the inner loop of `init` succeeds, all the vector accesses are in
range and the sector is the one built by the constructor from the read values. -/
theorem initSegment_some (T : TMath K) (phiSect dPhi : K)
    (r pa pb pc pd pe pf : List K) (ir : Nat) (s : KMCMSSector K)
    (h : initSegment T phiSect dPhi r pa pb pc pd pe pf ir = some s) :
    ∃ r0 r1 va vb vc vd ve vf, r[ir]? = some r0 ∧ r[ir + 1]? = some r1 ∧ pa[ir]? = some va ∧
      pb[ir]? = some vb ∧ pc[ir]? = some vc ∧ pd[ir]? = some vd ∧ pe[ir]? = some ve ∧
      pf[ir]? = some vf ∧
      s = KMCMSSector.ctor T phiSect (0.5 * dPhi) r0 r1 va vb vc vd ve vf := by
  unfold initSegment at h
  split at h
  · rename_i r0 r1 va vb vc vd ve vf h1 h2 h3 h4 h5 h6 h7 h8
    exact ⟨r0, r1, va, vb, vc, vd, ve, vf, h1, h2, h3, h4, h5, h6, h7, h8,
      (Option.some.inj h).symm⟩
  · exact absurd h (by simp)

/-- The sectors appended by the inner loop of `init`: one per radial segment, in order. -/
theorem initRadial_some (T : TMath K) (phiSect dPhi : K) (r pa pb pc pd pe pf : List K) :
    ∀ (n ir0 : Nat) (ring : List (KMCMSSector K)),
      initRadial T phiSect dPhi r pa pb pc pd pe pf n ir0 = some ring →
      ring.length = n ∧ ∀ j, j < n →
        ∃ s, ring[j]? = some s ∧ initSegment T phiSect dPhi r pa pb pc pd pe pf (ir0 + j) = some s := by
  intro n
  induction n with
  | zero =>
    intro ir0 ring h
    simp [initRadial] at h
    subst h
    simp
  | succ n ih =>
    intro ir0 ring h
    unfold initRadial at h
    split at h
    · exact absurd h (by simp)
    · rename_i s hs
      split at h
      · exact absurd h (by simp)
      · rename_i rest hrest
        have hring : ring = s :: rest := (Option.some.inj h).symm
        obtain ⟨hl, hj⟩ := ih (ir0 + 1) rest hrest
        subst hring
        refine ⟨by simp [hl], ?_⟩
        intro j hjn
        cases j with
        | zero => exact ⟨s, by simp, by simpa using hs⟩
        | succ j =>
          obtain ⟨s1, h1, h2⟩ := hj j (by omega)
          refine ⟨s1, by simpa using h1, ?_⟩
          have : ir0 + (j + 1) = ir0 + 1 + j := by omega
          rw [this]; exact h2

/-- The sectors appended by the outer loop of `init`: `nRad` per angular sector, the one
of angular index `ia` and radial segment `j` at position `ia * nRad + j`. -/
theorem initAngular_some (T : TMath K) (dPhi : K) (nRad : Nat) (r pa pb pc pd pe pf : List K) :
    ∀ (n ip0 : Nat) (secs : List (KMCMSSector K)),
      initAngular T dPhi nRad r pa pb pc pd pe pf n ip0 = some secs →
      secs.length = n * nRad ∧ ∀ ia j, ia < n → j < nRad →
        ∃ s, secs[ia * nRad + j]? = some s ∧
          initSegment T ((((ip0 + ia : Nat) : K) + 0.5) * dPhi) dPhi r pa pb pc pd pe pf j = some s := by
  intro n
  induction n with
  | zero =>
    intro ip0 secs h
    simp [initAngular] at h
    subst h
    simp
  | succ n ih =>
    intro ip0 secs h
    unfold initAngular at h
    split at h
    · exact absurd h (by simp)
    · rename_i ring hring
      split at h
      · exact absurd h (by simp)
      · rename_i rest hrest
        have hsecs : secs = ring ++ rest := (Option.some.inj h).symm
        obtain ⟨hl, hj⟩ := ih (ip0 + 1) rest hrest
        obtain ⟨hrl, hrj⟩ := initRadial_some T _ dPhi r pa pb pc pd pe pf nRad 0 ring hring
        subst hsecs
        refine ⟨by simp [hl, hrl]; ring, ?_⟩
        intro ia j hia hjn
        cases ia with
        | zero =>
          obtain ⟨s, h1, h2⟩ := hrj j hjn
          refine ⟨s, ?_, by simpa using h2⟩
          simp only [Nat.zero_mul, Nat.zero_add]
          rw [List.getElem?_append_left (by omega)]
          exact h1
        | succ ia =>
          obtain ⟨s, h1, h2⟩ := hj ia j (by omega) hjn
          refine ⟨s, ?_, ?_⟩
          · rw [List.getElem?_append_right (by rw [hrl]; nlinarith)]
            have : (ia + 1) * nRad + j - ring.length = ia * nRad + j := by
              rw [hrl]; have : (ia + 1) * nRad = ia * nRad + nRad := by ring
              omega
            rw [this]; exact h1
          · have : ip0 + (ia + 1) = ip0 + 1 + ia := by omega
            rw [this]; exact h2

/-- What `init` leaves in a station that had no sectors: the scalar members and the grid
of sectors, sector `ia * nRad + j` being the one built for angular index `ia` and radial
segment `j`. -/
theorem KMCMSStation.init_spec (T : TMath K) (st0 st : KMCMSStation K) (nsect : Int)
    (r pa pb pc pd pe pf : List K) (h0 : st0.sectors = [])
    (h : st0.init T nsect r pa pb pc pd pe pf = some st) :
    st.dPhi = T.Pi * 2 / (nsect : K) ∧ st.nSectors = nsect ∧ st.radii = r ∧
    st.nRadSegments = (r.length : Int) - 1 ∧
    st.toKMCLayerFwd = st0.toKMCLayerFwd ∧
    st.sectors.length = nsect.toNat * st.nRadSegments.toNat ∧
    ∀ ia j, ia < nsect.toNat → j < st.nRadSegments.toNat →
      ∃ s, st.sectors[ia * st.nRadSegments.toNat + j]? = some s ∧
        initSegment T (((ia : K) + 0.5) * st.dPhi) st.dPhi r pa pb pc pd pe pf j = some s := by
  unfold KMCMSStation.init at h
  simp only [] at h
  split at h
  · exact absurd h (by simp)
  · rename_i new hnew
    have hst := (Option.some.inj h).symm
    obtain ⟨hl, hj⟩ := initAngular_some T _ _ r pa pb pc pd pe pf _ 0 new hnew
    subst hst
    refine ⟨rfl, rfl, rfl, rfl, rfl, ?_, ?_⟩
    · simp only [h0, List.nil_append]
      exact hl
    · intro ia j hia hjn
      obtain ⟨s, h1, h2⟩ := hj ia j hia hjn
      simp only [h0, List.nil_append]
      exact ⟨s, h1, by simpa using h2⟩

/-- The radial loop of `getSectorID` ends with `-1` when the local radial coordinate is
not below the outer radius of any of the scanned sectors. -/
theorem KMCMSStation.radialScan_all_below (st : KMCMSStation K) (xl : K) :
    ∀ (n : Nat) (id0 : Int),
      (∀ j : Nat, j < n → ∃ s, st.sectorAt (id0 + j) = some s ∧ s.rMax ≤ xl) →
      st.radialScan xl n id0 = some (-1) := by
  intro n
  induction n with
  | zero => intro id0 _; rfl
  | succ n ih =>
    intro id0 h
    obtain ⟨s, hs, hle⟩ := h 0 (by omega)
    simp only [Nat.cast_zero, add_zero] at hs
    unfold KMCMSStation.radialScan
    rw [hs]
    simp only [not_lt.mpr hle, if_false]
    apply ih
    intro j hj
    obtain ⟨s1, hs1, hle1⟩ := h (j + 1) (by omega)
    refine ⟨s1, ?_, hle1⟩
    rw [← hs1]; congr 1; push_cast; ring

/-- The radial loop of `getSectorID` returns the first scanned sector whose outer radius
exceeds the local radial coordinate. -/
theorem KMCMSStation.radialScan_first (st : KMCMSStation K) (xl : K) :
    ∀ (n : Nat) (id0 : Int) (j : Nat), j < n →
      (∃ s, st.sectorAt (id0 + j) = some s ∧ xl < s.rMax) →
      (∀ i : Nat, i < j → ∃ s, st.sectorAt (id0 + i) = some s ∧ s.rMax ≤ xl) →
      st.radialScan xl n id0 = some (id0 + j) := by
  intro n
  induction n with
  | zero => intro id0 j hj; omega
  | succ n ih =>
    intro id0 j hj hs hlow
    cases j with
    | zero =>
      obtain ⟨s, hs, hlt⟩ := hs
      simp only [Nat.cast_zero, add_zero] at hs ⊢
      unfold KMCMSStation.radialScan
      rw [hs]
      simp [hlt]
    | succ j =>
      obtain ⟨s0, hs0, hle0⟩ := hlow 0 (by omega)
      simp only [Nat.cast_zero, add_zero] at hs0
      unfold KMCMSStation.radialScan
      rw [hs0]
      simp only [not_lt.mpr hle0, if_false]
      have := ih (id0 + 1) j (by omega)
        (by
          obtain ⟨s, hs, hlt⟩ := hs
          refine ⟨s, ?_, hlt⟩
          rw [← hs]; congr 1; push_cast; ring)
        (by
          intro i hi
          obtain ⟨s1, hs1, hle1⟩ := hlow (i + 1) (by omega)
          refine ⟨s1, ?_, hle1⟩
          rw [← hs1]; congr 1; push_cast; ring)
      rw [this]; congr 1; push_cast; ring

/-- The sector of angular index `ia` and radial segment `j` of a station built by `init`:
its index and its frame. -/
theorem KMCMSStation.grid_sector (T : TMath K) (st0 st : KMCMSStation K) (nsect : Int)
    (r pa pb pc pd pe pf : List K) (h0 : st0.sectors = [])
    (h : st0.init T nsect r pa pb pc pd pe pf = some st) (ia j : Nat)
    (hia : (ia : Int) < nsect) (hj : (j : Int) < st.nRadSegments) :
    ∃ s r0 r1, st.sectorAt ((ia : Int) * st.nRadSegments + j) = some s ∧
      r[j]? = some r0 ∧ r[j + 1]? = some r1 ∧
      s.phi0 = ((ia : K) + 0.5) * st.dPhi ∧ s.dphiH = 0.5 * st.dPhi ∧
      s.rMin = r0 ∧ s.rMax = r1 := by
  obtain ⟨_, _, _, _, _, _, hgrid⟩ := KMCMSStation.init_spec T st0 st nsect r pa pb pc pd pe pf h0 h
  obtain ⟨s, hs, hseg⟩ := hgrid ia j (by omega) (by omega)
  obtain ⟨r0, r1, va, vb, vc, vd, ve, vf, hr0, hr1, _, _, _, _, _, _, hctor⟩ :=
    initSegment_some T _ _ r pa pb pc pd pe pf j s hseg
  refine ⟨s, r0, r1, ?_, hr0, hr1, ?_, ?_, ?_, ?_⟩
  · unfold KMCMSStation.sectorAt
    have hn : (0 : Int) ≤ st.nRadSegments := by omega
    have hnn : (0 : Int) ≤ (ia : Int) * st.nRadSegments + j := by positivity
    rw [if_pos hnn]
    have : ((ia : Int) * st.nRadSegments + j).toNat = ia * st.nRadSegments.toNat + j := by
      have h1 : st.nRadSegments = (st.nRadSegments.toNat : Int) := (Int.toNat_of_nonneg hn).symm
      rw [h1]
      have : ((ia : Int) * (st.nRadSegments.toNat : Int) + (j : Int)) =
          ((ia * st.nRadSegments.toNat + j : Nat) : Int) := by push_cast; ring
      rw [this, Int.toNat_natCast, Int.toNat_natCast]
    rw [this]; exact hs
  · rw [hctor]; rfl
  · rw [hctor]; rfl
  · rw [hctor]; rfl
  · rw [hctor]; rfl

/-- The local radial coordinate used by `getSectorID` for a point of the angular sector
`ia` of a station built by `init`, and the value of the function in terms of the radial
scan. -/
theorem KMCMSStation.getSectorID_unfold [FloorRing K] (T : TMath K)
    (st0 st : KMCMSStation K) (nsect : Int) (r pa pb pc pd pe pf : List K)
    (h0 : st0.sectors = []) (h : st0.init T nsect r pa pb pc pd pe pf = some st) (x y : K)
    (ia : Nat) (hia : (ia : Int) < nsect) (hrad : 0 < st.nRadSegments)
    (hidx : st.angularIndex T x y = ia) :
    ∃ r0, r[0]? = some r0 ∧
      st.getSectorID T x y =
        if x * T.Cos (((ia : K) + 0.5) * st.dPhi) + y * T.Sin (((ia : K) + 0.5) * st.dPhi) < r0
        then some (-1)
        else st.radialScan
          (x * T.Cos (((ia : K) + 0.5) * st.dPhi) + y * T.Sin (((ia : K) + 0.5) * st.dPhi))
          st.nRadSegments.toNat ((ia : Int) * st.nRadSegments) := by
  obtain ⟨s, r0, r1, hs, hr0, _, hphi, _, hmin, _⟩ :=
    KMCMSStation.grid_sector T st0 st nsect r pa pb pc pd pe pf h0 h ia 0 hia (by simpa using hrad)
  refine ⟨r0, hr0, ?_⟩
  simp only [Nat.cast_zero, add_zero] at hs
  unfold KMCMSStation.getSectorID
  simp only [hidx, hs, Sector.rotateToSector, Sector.rotate, hphi, hmin]

/-- On a station built by `init`, `getSectorID` is `-1` for a point whose local radial
coordinate is at least the outer radius of every radial segment. -/
theorem KMCMSStation.getSectorID_grid_above [FloorRing K] (T : TMath K)
    (st0 st : KMCMSStation K) (nsect : Int) (r pa pb pc pd pe pf : List K)
    (h0 : st0.sectors = []) (h : st0.init T nsect r pa pb pc pd pe pf = some st) (x y : K)
    (ia : Nat) (hia : (ia : Int) < nsect) (hrad : 0 < st.nRadSegments)
    (hidx : st.angularIndex T x y = ia)
    (hxl : ∀ (i : Nat) (v : K), (i : Int) < st.nRadSegments → r[i + 1]? = some v →
      v ≤ x * T.Cos (((ia : K) + 0.5) * st.dPhi) + y * T.Sin (((ia : K) + 0.5) * st.dPhi)) :
    st.getSectorID T x y = some (-1) := by
  obtain ⟨r0, _, hget⟩ := KMCMSStation.getSectorID_unfold T st0 st nsect r pa pb pc pd pe pf
    h0 h x y ia hia hrad hidx
  rw [hget]
  split
  · rfl
  · apply KMCMSStation.radialScan_all_below
    intro j hj
    obtain ⟨s, q0, q1, hs, _, hq1, _, _, _, hmax⟩ :=
      KMCMSStation.grid_sector T st0 st nsect r pa pb pc pd pe pf h0 h ia j hia (by omega)
    exact ⟨s, hs, by rw [hmax]; exact hxl j q1 (by omega) hq1⟩

/-- On a station built by `init`, `getSectorID` is `ia * nRadSegments + j` for a point of
the angular sector `ia` whose local radial coordinate is at least the inner radius and
the outer radii of the segments below `j`, and below the outer radius of segment `j`. -/
theorem KMCMSStation.getSectorID_grid_first [FloorRing K] (T : TMath K)
    (st0 st : KMCMSStation K) (nsect : Int) (r pa pb pc pd pe pf : List K)
    (h0 : st0.sectors = []) (h : st0.init T nsect r pa pb pc pd pe pf = some st) (x y : K)
    (ia : Nat) (hia : (ia : Int) < nsect) (hidx : st.angularIndex T x y = ia)
    (j : Nat) (hj : (j : Int) < st.nRadSegments)
    (hlow : ∀ (i : Nat) (v : K), i ≤ j → r[i]? = some v →
      v ≤ x * T.Cos (((ia : K) + 0.5) * st.dPhi) + y * T.Sin (((ia : K) + 0.5) * st.dPhi))
    (hup : ∀ v : K, r[j + 1]? = some v →
      x * T.Cos (((ia : K) + 0.5) * st.dPhi) + y * T.Sin (((ia : K) + 0.5) * st.dPhi) < v) :
    st.getSectorID T x y = some ((ia : Int) * st.nRadSegments + j) := by
  obtain ⟨r0, hr0, hget⟩ := KMCMSStation.getSectorID_unfold T st0 st nsect r pa pb pc pd pe pf
    h0 h x y ia hia (by omega) hidx
  rw [hget, if_neg (not_lt.mpr (hlow 0 r0 (by omega) hr0))]
  apply KMCMSStation.radialScan_first _ _ _ _ j (by omega)
  · obtain ⟨s, q0, q1, hs, _, hq1, _, _, _, hmax⟩ :=
      KMCMSStation.grid_sector T st0 st nsect r pa pb pc pd pe pf h0 h ia j hia hj
    exact ⟨s, hs, by rw [hmax]; exact hup q1 hq1⟩
  · intro i hi
    obtain ⟨s, q0, q1, hs, _, hq1, _, _, _, hmax⟩ :=
      KMCMSStation.grid_sector T st0 st nsect r pa pb pc pd pe pf h0 h ia i hia (by omega)
    exact ⟨s, hs, by rw [hmax]; exact hlow (i + 1) q1 (by omega) hq1⟩

/-! ### The angular sector of a point (real trigonometry) -/

/-- The argument of `x + i y` brought to `[0, 2π)` (the `phi` of `getSectorID`) is `θ`
when `(x, y) = ρ (cos θ, sin θ)` with `ρ > 0` and `0 < θ < 2π`. -/
theorem normalised_arg_eq (x y ρ θ : ℝ) (hρ : 0 < ρ) (h0 : 0 < θ) (h2 : θ < 2 * Real.pi)
    (hx : x = ρ * Real.cos θ) (hy : y = ρ * Real.sin θ) :
    (if Complex.arg ⟨x, y⟩ < 0 then Complex.arg ⟨x, y⟩ + Real.pi * 2 else Complex.arg ⟨x, y⟩)
      = θ := by
  by_cases hθ : θ ≤ Real.pi
  · have hz : (⟨x, y⟩ : ℂ) = (ρ : ℂ) * (Complex.cos (θ : ℂ) + Complex.sin (θ : ℂ) * Complex.I) := by
      apply Complex.ext
      · simp [hx, Complex.cos_ofReal_re, Complex.sin_ofReal_im, Complex.cos_ofReal_im,
          Complex.sin_ofReal_re]
      · simp [hy, Complex.cos_ofReal_re, Complex.sin_ofReal_im, Complex.cos_ofReal_im,
          Complex.sin_ofReal_re]
    have harg : Complex.arg ⟨x, y⟩ = θ := by
      rw [hz]
      exact Complex.arg_mul_cos_add_sin_mul_I hρ ⟨by linarith [Real.pi_pos], hθ⟩
    rw [harg, if_neg (by linarith)]
  · have hθ' : Real.pi < θ := lt_of_not_ge hθ
    have hz : (⟨x, y⟩ : ℂ) = (ρ : ℂ) * (Complex.cos ((θ - 2 * Real.pi : ℝ) : ℂ) +
        Complex.sin ((θ - 2 * Real.pi : ℝ) : ℂ) * Complex.I) := by
      apply Complex.ext
      · simp [hx, Complex.cos_ofReal_re, Complex.sin_ofReal_im, Complex.cos_ofReal_im,
          Complex.sin_ofReal_re, -Complex.ofReal_sub]
      · simp [hy, Complex.cos_ofReal_re, Complex.sin_ofReal_im, Complex.cos_ofReal_im,
          Complex.sin_ofReal_re, -Complex.ofReal_sub]
    have harg : Complex.arg ⟨x, y⟩ = θ - 2 * Real.pi := by
      rw [hz]
      exact Complex.arg_mul_cos_add_sin_mul_I hρ ⟨by linarith, by linarith⟩
    rw [harg, if_pos (by linarith)]
    ring

/-- Polar form of a point strictly inside the wedge `|yl| < xl·tan δ`, `0 < δ < π/2`. -/
theorem wedge_polar (xl yl δ : ℝ) (hδ0 : 0 < δ) (hδ1 : δ < Real.pi / 2)
    (h : |yl| < xl * Real.tan δ) :
    ∃ ρ β : ℝ, 0 < ρ ∧ -δ < β ∧ β < δ ∧ xl = ρ * Real.cos β ∧ yl = ρ * Real.sin β := by
  have htan : 0 < Real.tan δ := Real.tan_pos_of_pos_of_lt_pi_div_two hδ0 hδ1
  have hxl : 0 < xl := by
    by_contra hneg
    have : xl * Real.tan δ ≤ 0 := mul_nonpos_of_nonpos_of_nonneg (not_lt.mp hneg) htan.le
    linarith [abs_nonneg yl]
  have hw : (⟨xl, yl⟩ : ℂ) ≠ 0 := by
    intro h0
    have := congrArg Complex.re h0
    simp at this
    linarith
  have hρ : 0 < Complex.abs ⟨xl, yl⟩ := Complex.abs.pos hw
  have hβ : |Complex.arg ⟨xl, yl⟩| < Real.pi / 2 :=
    Complex.abs_arg_lt_pi_div_two_iff.mpr (Or.inl hxl)
  have htβ : Real.tan (Complex.arg ⟨xl, yl⟩) = yl / xl := Complex.tan_arg _
  obtain ⟨hβ1, hβ2⟩ := abs_lt.mp hβ
  obtain ⟨hy1, hy2⟩ := abs_lt.mp h
  refine ⟨Complex.abs ⟨xl, yl⟩, Complex.arg ⟨xl, yl⟩, hρ, ?_, ?_, ?_, ?_⟩
  · by_contra hc
    have hle : Complex.arg ⟨xl, yl⟩ ≤ -δ := not_lt.mp hc
    have h1 : Real.tan (Complex.arg ⟨xl, yl⟩) ≤ Real.tan (-δ) := by
      rcases eq_or_lt_of_le hle with he | hl
      · rw [he]
      · exact (Real.tan_lt_tan_of_lt_of_lt_pi_div_two hβ1 (by linarith) hl).le
    rw [Real.tan_neg, htβ, div_le_iff₀ hxl] at h1
    linarith
  · by_contra hc
    have hle : δ ≤ Complex.arg ⟨xl, yl⟩ := not_lt.mp hc
    have h1 : Real.tan δ ≤ Real.tan (Complex.arg ⟨xl, yl⟩) := by
      rcases eq_or_lt_of_le hle with he | hl
      · rw [he]
      · exact (Real.tan_lt_tan_of_lt_of_lt_pi_div_two (by linarith) hβ2 hl).le
    rw [htβ, le_div_iff₀ hxl] at h1
    linarith
  · simp
  · simp

/-- The angular index computed by `getSectorID` for a lab point whose coordinates in the
frame of the angular sector `ia` are strictly inside the wedge `|yl| < xl·tan(dPhi/2)`,
when the conversion to `float` changes no value. -/
theorem KMCMSStation.angularIndex_of_wedge (T : TMath ℝ) (hT : T.IsReal)
    (hF : ∀ v : ℝ, T.toFloat v = v) (st : KMCMSStation ℝ) (n ia : Nat) (hia : ia < n) (hd : st.dPhi = T.Pi * 2 / (n : ℝ))
    (hN : st.nSectors = n) (x y : ℝ)
    (hy : |(-x * T.Sin (((ia : ℝ) + 0.5) * st.dPhi) + y * T.Cos (((ia : ℝ) + 0.5) * st.dPhi))| <
      (x * T.Cos (((ia : ℝ) + 0.5) * st.dPhi) + y * T.Sin (((ia : ℝ) + 0.5) * st.dPhi)) *
        T.Tan (st.dPhi / 2)) :
    st.angularIndex T x y = ia := by
  obtain ⟨hcos, hsin, htan, hatan, _, hpi, _⟩ := hT
  rw [hcos, hsin, htan] at hy
  rw [hpi] at hd
  have hn0 : (0 : ℝ) < n := by exact_mod_cast (by omega : 0 < n)
  have hpi0 := Real.pi_pos
  by_cases h1 : n = 1
  · subst h1
    have : st.dPhi / 2 = Real.pi := by rw [hd]; simp
    rw [this, Real.tan_pi, mul_zero] at hy
    exact absurd hy (not_lt.mpr (abs_nonneg _))
  by_cases h2 : n = 2
  · subst h2
    have : st.dPhi / 2 = Real.pi / 2 := by rw [hd]; norm_num
    rw [this, Real.tan_pi_div_two, mul_zero] at hy
    exact absurd hy (not_lt.mpr (abs_nonneg _))
  have hn3 : (3 : ℝ) ≤ n := by exact_mod_cast (by omega : 3 ≤ n)
  have hδ : st.dPhi / 2 = Real.pi / n := by rw [hd]; field_simp; ring
  have hδ0 : 0 < st.dPhi / 2 := by rw [hδ]; positivity
  have hδ1 : st.dPhi / 2 < Real.pi / 2 := by
    rw [hδ]; exact div_lt_div_of_pos_left hpi0 (by norm_num) (by linarith)
  obtain ⟨ρ, β, hρ, hβ1, hβ2, hxl, hyl⟩ := wedge_polar _ _ _ hδ0 hδ1 hy
  have hc1 := Real.cos_sq_add_sin_sq (((ia : ℝ) + 0.5) * st.dPhi)
  have hx : x = ρ * Real.cos (β + ((ia : ℝ) + 0.5) * st.dPhi) := by
    rw [Real.cos_add]
    have : x = (x * Real.cos (((ia : ℝ) + 0.5) * st.dPhi) +
        y * Real.sin (((ia : ℝ) + 0.5) * st.dPhi)) * Real.cos (((ia : ℝ) + 0.5) * st.dPhi) -
        (-x * Real.sin (((ia : ℝ) + 0.5) * st.dPhi) +
        y * Real.cos (((ia : ℝ) + 0.5) * st.dPhi)) * Real.sin (((ia : ℝ) + 0.5) * st.dPhi) := by
      linear_combination (-x) * hc1
    rw [hxl, hyl] at this
    linear_combination this
  have hyy : y = ρ * Real.sin (β + ((ia : ℝ) + 0.5) * st.dPhi) := by
    rw [Real.sin_add]
    have : y = (x * Real.cos (((ia : ℝ) + 0.5) * st.dPhi) +
        y * Real.sin (((ia : ℝ) + 0.5) * st.dPhi)) * Real.sin (((ia : ℝ) + 0.5) * st.dPhi) +
        (-x * Real.sin (((ia : ℝ) + 0.5) * st.dPhi) +
        y * Real.cos (((ia : ℝ) + 0.5) * st.dPhi)) * Real.cos (((ia : ℝ) + 0.5) * st.dPhi) := by
      linear_combination (-y) * hc1
    rw [hxl, hyl] at this
    linear_combination this
  have hdpos : 0 < st.dPhi := by linarith
  have hlo : (ia : ℝ) * st.dPhi < β + ((ia : ℝ) + 0.5) * st.dPhi := by
    norm_num at hβ1 ⊢; nlinarith
  have hhi : β + ((ia : ℝ) + 0.5) * st.dPhi < ((ia : ℝ) + 1) * st.dPhi := by
    norm_num at hβ2 ⊢; nlinarith
  have hian : (ia : ℝ) + 1 ≤ n := by exact_mod_cast (by omega : ia + 1 ≤ n)
  have hnd : (n : ℝ) * st.dPhi = 2 * Real.pi := by rw [hd]; field_simp; ring
  have hia0 : (0 : ℝ) ≤ ia := Nat.cast_nonneg ia
  have hθ0 : 0 < β + ((ia : ℝ) + 0.5) * st.dPhi := by
    have := mul_nonneg hia0 hdpos.le
    linarith
  have hθ2 : β + ((ia : ℝ) + 0.5) * st.dPhi < 2 * Real.pi := by
    have := mul_le_mul_of_nonneg_right hian hdpos.le
    linarith
  have hphi := normalised_arg_eq x y ρ _ hρ hθ0 hθ2 hx hyy
  unfold KMCMSStation.angularIndex
  simp only [hF, hatan, hpi, hphi, hN]
  have hq0 : (ia : ℝ) < (β + ((ia : ℝ) + 0.5) * st.dPhi) / st.dPhi := by
    rw [lt_div_iff₀ hdpos]; exact hlo
  have hq1 : (β + ((ia : ℝ) + 0.5) * st.dPhi) / st.dPhi < (ia : ℝ) + 1 := by
    rw [div_lt_iff₀ hdpos]; exact hhi
  have htr : truncToInt ((β + ((ia : ℝ) + 0.5) * st.dPhi) / st.dPhi) = (ia : Int) := by
    unfold truncToInt
    rw [if_pos (by linarith)]
    rw [Int.floor_eq_iff]
    exact ⟨by exact_mod_cast hq0.le, by exact_mod_cast hq1⟩
  rw [htr, if_neg (by omega)]

/-- In an ascending list the entry at a lower index is at most the entry at a higher
index. -/
theorem sorted_le_of_getElem_some (r : List K) (h : r.Sorted (· ≤ ·)) (i j : Nat) (hij : i ≤ j)
    (vi vj : K) (hi : r[i]? = some vi) (hj : r[j]? = some vj) : vi ≤ vj := by
  rcases Nat.eq_or_lt_of_le hij with he | hlt
  · subst he
    rw [hi] at hj
    exact (Option.some.inj hj).le
  · obtain ⟨hil, hiv⟩ := List.getElem?_eq_some.mp hi
    obtain ⟨hjl, hjv⟩ := List.getElem?_eq_some.mp hj
    have := (List.pairwise_iff_getElem.mp h) i j hil hjl hlt
    rw [hiv, hjv] at this
    exact this

/-- With the real `atan2` and a monotone conversion to `float` that is exact at `0` and
`-4`, the angular index computed by `getSectorID` is an index of an angular sector. -/
theorem KMCMSStation.angularIndex_range (T : TMath ℝ) (hT : T.IsReal) (st : KMCMSStation ℝ)
    (n : Nat) (hn : 1 ≤ n) (hd : st.dPhi = T.Pi * 2 / (n : ℝ)) (hN : st.nSectors = n)
    (x y : ℝ) : 0 ≤ st.angularIndex T x y ∧ st.angularIndex T x y < n := by
  obtain ⟨_, _, _, hatan, _, hpi, hmono, hF0, hF4⟩ := hT
  rw [hpi] at hd
  have hn0 : (0 : ℝ) < n := by exact_mod_cast (by omega : 0 < n)
  have hpi3 := Real.pi_gt_three
  have hpi4 := Real.pi_lt_four
  have hdpos : 0 < st.dPhi := by rw [hd]; positivity
  have h1 := Complex.neg_pi_lt_arg (⟨x, y⟩ : ℂ)
  have hphi : ∃ φ : ℝ, 0 ≤ φ ∧
      (if T.toFloat (Complex.arg ⟨x, y⟩) < 0
        then T.toFloat (T.toFloat (Complex.arg ⟨x, y⟩) + Real.pi * 2)
        else T.toFloat (Complex.arg ⟨x, y⟩)) = φ := by
    by_cases hneg : T.toFloat (Complex.arg ⟨x, y⟩) < 0
    · have h4 : -4 ≤ T.toFloat (Complex.arg ⟨x, y⟩) := by
        rw [← hF4]
        exact hmono (by linarith)
      have h0 : 0 ≤ T.toFloat (T.toFloat (Complex.arg ⟨x, y⟩) + Real.pi * 2) := by
        rw [← hF0]
        exact hmono (by linarith)
      exact ⟨_, h0, if_pos hneg⟩
    · exact ⟨_, not_lt.mp hneg, if_neg hneg⟩
  obtain ⟨φ, hφ0, hφ⟩ := hphi
  unfold KMCMSStation.angularIndex
  simp only [hatan, hpi, hφ, hN]
  have hq0 : 0 ≤ φ / st.dPhi := div_nonneg hφ0 hdpos.le
  have htr : truncToInt (φ / st.dPhi) = ⌊φ / st.dPhi⌋ := by
    unfold truncToInt
    rw [if_pos hq0]
  have hf0 : 0 ≤ ⌊φ / st.dPhi⌋ := Int.floor_nonneg.mpr hq0
  rw [htr]
  split <;> omega

/-- The radial loop of `getSectorID` depends only on the sectors of the station. -/
theorem KMCMSStation.radialScan_congr (st1 st2 : KMCMSStation K)
    (hS : st1.sectors = st2.sectors) (xl : K) :
    ∀ (n : Nat) (id : Int), st1.radialScan xl n id = st2.radialScan xl n id := by
  intro n
  induction n with
  | zero => intro id; rfl
  | succ n ih =>
    intro id
    unfold KMCMSStation.radialScan
    simp only [KMCMSStation.sectorAt, hS, ih]

/-- The result of `getSectorID` depends only on the grid of the station. -/
theorem KMCMSStation.getSectorID_congr [FloorRing K] (T : TMath K) (st1 st2 : KMCMSStation K)
    (hd : st1.dPhi = st2.dPhi) (hN : st1.nSectors = st2.nSectors)
    (hR : st1.nRadSegments = st2.nRadSegments) (hS : st1.sectors = st2.sectors) (x y : K) :
    st1.getSectorID T x y = st2.getSectorID T x y := by
  unfold KMCMSStation.getSectorID KMCMSStation.angularIndex
  simp only [KMCMSStation.sectorAt, hd, hN, hR, hS,
    KMCMSStation.radialScan_congr st1 st2 hS]

/-- The call of `AddCluster` returns `false` when `getSectorID` of the point is negative. -/
theorem KMCMSStation.AddCluster_outside [FloorRing K] (T : TMath K) (st : KMCMSStation K)
    (x y z : K) (id : Int) (isBG : Bool) (rx ry : K) (sid : Int)
    (h : st.getSectorID T x y = some sid) (hneg : sid < 0) :
    ∃ st1, st.AddCluster T x y z id isBG rx ry = some (false, st1) := by
  unfold KMCMSStation.AddCluster
  cases isBG
  · simp only [Bool.not_false, if_true]
    rw [KMCMSStation.getSectorID_congr T _ st ?_ ?_ ?_ ?_ x y, h]
    · simp only [hneg, if_true]
      exact ⟨_, rfl⟩
    all_goals rfl
  · simp only [Bool.not_true, Bool.false_eq_true, if_false]
    rw [KMCMSStation.getSectorID_congr T _ st ?_ ?_ ?_ ?_ x y, h]
    · simp only [hneg, if_true]
      exact ⟨_, rfl⟩
    all_goals rfl

/-- A background `AddCluster` returns `true` when the point has a sector and the smeared
point projects in the sector used for the projection. -/
theorem KMCMSStation.AddCluster_bg_inside [FloorRing K] (T : TMath K) (st : KMCMSStation K)
    (x y z : K) (id : Int) (rx ry : K) (sid0 sid : Int) (sect0 sect : KMCMSSector K)
    (uvw : K × K × K)
    (h1 : st.getSectorID T x y = some sid0) (h1n : ¬ sid0 < 0)
    (h2 : st.sectorAt sid0 = some sect0)
    (h3 : st.getSectorID T
      ((T.Sqrt (x * x + y * y) + ry * sect0.sigR) * T.Cos (T.ATan2 y x) -
        rx * sect0.sigRPhi * T.Sin (T.ATan2 y x))
      ((T.Sqrt (x * x + y * y) + ry * sect0.sigR) * T.Sin (T.ATan2 y x) +
        rx * sect0.sigRPhi * T.Cos (T.ATan2 y x)) = some sid)
    (h4 : st.sectorAt (if sid ≥ 0 then sid else sid0) = some sect)
    (h5 : sect.getUVW T
      ((T.Sqrt (x * x + y * y) + ry * sect0.sigR) * T.Cos (T.ATan2 y x) -
        rx * sect0.sigRPhi * T.Sin (T.ATan2 y x))
      ((T.Sqrt (x * x + y * y) + ry * sect0.sigR) * T.Sin (T.ATan2 y x) +
        rx * sect0.sigRPhi * T.Cos (T.ATan2 y x)) = some uvw) :
    ∃ st1, st.AddCluster T x y z id true rx ry = some (true, st1) := by
  unfold KMCMSStation.AddCluster
  simp only [Bool.not_true, Bool.false_eq_true, if_false]
  rw [KMCMSStation.getSectorID_congr T _ st ?_ ?_ ?_ ?_ x y, h1]
  · simp only [h1n, if_false]
    have h2' : KMCMSStation.sectorAt { st with signalSectorID := -1 } sid0 = some sect0 := h2
    rw [h2']
    simp only []
    rw [KMCMSStation.getSectorID_congr T _ st ?_ ?_ ?_ ?_ _ _, h3]
    · simp only []
      have h4' : KMCMSStation.sectorAt { st with signalSectorID := -1 }
          (if sid ≥ 0 then sid else sid0) = some sect := h4
      rw [h4']
      simp only [h5]
      exact ⟨_, rfl⟩
    all_goals rfl
  all_goals rfl

/-- Without smearing (`rx = ry = 0`) and with the real functions, the smeared point of
`AddCluster` is the point itself. -/
theorem unsmeared_point (x y σ τ : ℝ) :
    (Real.sqrt (x * x + y * y) + 0 * σ) * Real.cos (Complex.arg ⟨x, y⟩) -
        0 * τ * Real.sin (Complex.arg ⟨x, y⟩) = x ∧
    (Real.sqrt (x * x + y * y) + 0 * σ) * Real.sin (Complex.arg ⟨x, y⟩) +
        0 * τ * Real.cos (Complex.arg ⟨x, y⟩) = y := by
  have habs : Complex.abs ⟨x, y⟩ = Real.sqrt (x * x + y * y) := by
    rw [Complex.abs_apply, Complex.normSq_mk]
  have hc := Complex.abs_mul_cos_arg (⟨x, y⟩ : ℂ)
  have hs := Complex.abs_mul_sin_arg (⟨x, y⟩ : ℂ)
  rw [habs] at hc hs
  simp only [zero_mul, add_zero, sub_zero]
  exact ⟨hc, hs⟩

/-! ### The calls of `AddCluster` and `init`, the wedge -/

/-- The result of `getSectorID` is not changed by the first statements of `AddCluster`. -/
theorem KMCMSStation.getSectorID_invalidated [FloorRing K] (T : TMath K) (st : KMCMSStation K)
    (isBG : Bool) (x y : K) :
    (st.invalidated isBG).getSectorID T x y = st.getSectorID T x y := by
  apply KMCMSStation.getSectorID_congr <;> cases isBG <;> rfl

/-- The sectors are not changed by the first statements of `AddCluster`. -/
theorem KMCMSStation.sectorAt_invalidated (st : KMCMSStation K) (isBG : Bool) (i : Int) :
    (st.invalidated isBG).sectorAt i = st.sectorAt i := by
  cases isBG <;> rfl

/-- The results of `AddCluster`: it returns `false` and has only invalidated the signal
record (and killed the truth cluster of a signal hit), or it returns `true` after the
projection of the smeared point by the sector `sect`: the sector of the smeared point when
there is one, else the sector `sect0` of the point. -/
theorem KMCMSStation.AddCluster_result [FloorRing K] (T : TMath K) (st : KMCMSStation K)
    (x y z : K) (id : Int) (isBG : Bool) (rx ry : K) (res : Bool) (st1 : KMCMSStation K)
    (h : st.AddCluster T x y z id isBG rx ry = some (res, st1)) :
    (res = false ∧ st1 = st.invalidated isBG) ∨
    ∃ (sid0 sid : Int) (sect0 sect : KMCMSSector K) (U V W : K),
      st.getSectorID T x y = some sid0 ∧ 0 ≤ sid0 ∧ st.sectorAt sid0 = some sect0 ∧
      st.getSectorID T (sect0.smear T x y rx ry).1 (sect0.smear T x y rx ry).2 = some sid ∧
      st.sectorAt (if sid ≥ 0 then sid else sid0) = some sect ∧
      sect.getUVW T (sect0.smear T x y rx ry).1 (sect0.smear T x y rx ry).2 = some (U, V, W) ∧
      res = true ∧
      st1 = (if !isBG then
          { st.invalidated isBG with
            signalU := U, signalV := V, signalW := W, signalSectorID := sid,
            fClMC := { x := (sect0.smear T x y rx ry).1, y := (sect0.smear T x y rx ry).2,
                       z := z, id := id, killed := false } }
        else
          { st.invalidated isBG with
            sectors := st.sectors.set (if sid ≥ 0 then sid else sid0).toNat
              (sect.pushHits U V W id),
            fClBg := st.fClBg ++ [{ x := (sect0.smear T x y rx ry).1,
                                    y := (sect0.smear T x y rx ry).2, z := z, id := id }] }) := by
  have hg := KMCMSStation.getSectorID_invalidated T st isBG
  have hs := KMCMSStation.sectorAt_invalidated st isBG
  unfold KMCMSStation.AddCluster at h
  simp only [] at h
  split at h
  · exact absurd h (by simp)
  · rename_i sid0 h1
    change (st.invalidated isBG).getSectorID T x y = some sid0 at h1
    rw [hg] at h1
    split at h
    · left
      simp only [Option.some.injEq, Prod.mk.injEq] at h
      exact ⟨h.1.symm, h.2.symm⟩
    · rename_i hneg
      split at h
      · exact absurd h (by simp)
      · rename_i sect0 h2
        change (st.invalidated isBG).sectorAt sid0 = some sect0 at h2
        rw [hs] at h2
        split at h
        · exact absurd h (by simp)
        · rename_i sid h3
          change (st.invalidated isBG).getSectorID T (sect0.smear T x y rx ry).1
            (sect0.smear T x y rx ry).2 = some sid at h3
          rw [hg] at h3
          split at h
          · exact absurd h (by simp)
          · rename_i sect h4
            change (st.invalidated isBG).sectorAt (if sid ≥ 0 then sid else sid0) = some sect
              at h4
            rw [hs] at h4
            split at h
            · left
              simp only [Option.some.injEq, Prod.mk.injEq] at h
              exact ⟨h.1.symm, h.2.symm⟩
            · rename_i U V W h5
              right
              change sect.getUVW T (sect0.smear T x y rx ry).1 (sect0.smear T x y rx ry).2 =
                some (U, V, W) at h5
              refine ⟨sid0, sid, sect0, sect, U, V, W, h1, not_lt.mp hneg, h2, h3, h4, h5, ?_⟩
              split at h
              · rename_i hb
                simp only [Option.some.injEq, Prod.mk.injEq] at h
                rw [if_pos hb]
                refine ⟨h.1.symm, ?_⟩
                rw [← h.2]
                cases isBG
                · rfl
                · exact absurd hb (by decide)
              · rename_i hb
                simp only [Option.some.injEq, Prod.mk.injEq] at h
                rw [if_neg hb]
                refine ⟨h.1.symm, ?_⟩
                rw [← h.2]
                cases isBG
                · exact absurd rfl hb
                · rfl

/-- The body of `AddCluster` in terms of `invalidated` (its first statements) and `smear`
(its smeared point). -/
theorem KMCMSStation.AddCluster_eq [FloorRing K] (T : TMath K) (st : KMCMSStation K)
    (x y z : K) (id : Int) (isBG : Bool) (rx ry : K) :
    st.AddCluster T x y z id isBG rx ry =
      (match (st.invalidated isBG).getSectorID T x y with
      | none => none
      | some sid0 =>
        if sid0 < 0 then some (false, st.invalidated isBG)
        else
          match (st.invalidated isBG).sectorAt sid0 with
          | none => none
          | some sect0 =>
            match (st.invalidated isBG).getSectorID T (sect0.smear T x y rx ry).1
                (sect0.smear T x y rx ry).2 with
            | none => none
            | some sid =>
              match (st.invalidated isBG).sectorAt (if sid ≥ 0 then sid else sid0) with
              | none => none
              | some sect =>
                match sect.getUVW T (sect0.smear T x y rx ry).1 (sect0.smear T x y rx ry).2 with
                | none => some (false, st.invalidated isBG)
                | some (U, V, W) =>
                  if !isBG then
                    some (true, { st.invalidated isBG with
                      signalU := U, signalV := V, signalW := W, signalSectorID := sid,
                      fClMC := { x := (sect0.smear T x y rx ry).1,
                                 y := (sect0.smear T x y rx ry).2,
                                 z := z, id := id, killed := false } })
                  else
                    some (true, { st.invalidated isBG with
                      sectors := (st.invalidated isBG).sectors.set
                        (if sid ≥ 0 then sid else sid0).toNat (sect.pushHits U V W id),
                      fClBg := (st.invalidated isBG).fClBg ++
                        [{ x := (sect0.smear T x y rx ry).1,
                           y := (sect0.smear T x y rx ry).2, z := z, id := id }] })) := rfl

/-- The call of `AddCluster` returns `true`, with the signal record or the background hit
of the smeared point, when the point has a sector and the smeared point projects in the
sector used for the projection. -/
theorem KMCMSStation.AddCluster_inside [FloorRing K] (T : TMath K) (st : KMCMSStation K)
    (x y z : K) (id : Int) (isBG : Bool) (rx ry : K) (sid0 sid : Int)
    (sect0 sect : KMCMSSector K) (U V W : K)
    (h1 : st.getSectorID T x y = some sid0) (h1n : 0 ≤ sid0)
    (h2 : st.sectorAt sid0 = some sect0)
    (h3 : st.getSectorID T (sect0.smear T x y rx ry).1 (sect0.smear T x y rx ry).2 = some sid)
    (h4 : st.sectorAt (if sid ≥ 0 then sid else sid0) = some sect)
    (h5 : sect.getUVW T (sect0.smear T x y rx ry).1 (sect0.smear T x y rx ry).2 =
      some (U, V, W)) :
    st.AddCluster T x y z id isBG rx ry = some (true,
      if !isBG then
          { st.invalidated isBG with
            signalU := U, signalV := V, signalW := W, signalSectorID := sid,
            fClMC := { x := (sect0.smear T x y rx ry).1, y := (sect0.smear T x y rx ry).2,
                       z := z, id := id, killed := false } }
        else
          { st.invalidated isBG with
            sectors := st.sectors.set (if sid ≥ 0 then sid else sid0).toNat
              (sect.pushHits U V W id),
            fClBg := st.fClBg ++ [{ x := (sect0.smear T x y rx ry).1,
                                    y := (sect0.smear T x y rx ry).2, z := z, id := id }] }) := by
  have e1 : (st.invalidated isBG).getSectorID T x y = some sid0 := by
    rw [KMCMSStation.getSectorID_invalidated, h1]
  have e2 : (st.invalidated isBG).sectorAt sid0 = some sect0 := by
    rw [KMCMSStation.sectorAt_invalidated, h2]
  have e3 : (st.invalidated isBG).getSectorID T (sect0.smear T x y rx ry).1
      (sect0.smear T x y rx ry).2 = some sid := by
    rw [KMCMSStation.getSectorID_invalidated, h3]
  have e4 : (st.invalidated isBG).sectorAt (if sid ≥ 0 then sid else sid0) = some sect := by
    rw [KMCMSStation.sectorAt_invalidated, h4]
  rw [KMCMSStation.AddCluster_eq]
  simp only [e1, e2, e3, e4, h5, not_lt.mpr h1n, if_false]
  cases isBG <;> rfl

/-- The element `sectors[id]` read by `sectorAt` is at the index `id.toNat` of the list. -/
theorem KMCMSStation.sectorAt_some (st : KMCMSStation K) (id : Int) (s : KMCMSSector K)
    (h : st.sectorAt id = some s) : 0 ≤ id ∧ st.sectors[id.toNat]? = some s := by
  unfold KMCMSStation.sectorAt at h
  split at h
  · rename_i h0
    exact ⟨h0, h⟩
  · exact absurd h (by simp)

/-- The body of the inner loop of `init` reads inside the vectors, and returns, when `ir`
is the index of a radial segment. -/
theorem initSegment_total (T : TMath K) (phiSect dPhi : K) (r pa pb pc pd pe pf : List K)
    (ir : Nat) (hr : ir + 1 < r.length) (ha : ir < pa.length) (hb : ir < pb.length)
    (hc : ir < pc.length) (hd : ir < pd.length) (he : ir < pe.length) (hf : ir < pf.length) :
    initSegment T phiSect dPhi r pa pb pc pd pe pf ir =
      some (KMCMSSector.ctor T phiSect (0.5 * dPhi) (r.get ⟨ir, by omega⟩) (r.get ⟨ir + 1, hr⟩)
        (pa.get ⟨ir, ha⟩) (pb.get ⟨ir, hb⟩) (pc.get ⟨ir, hc⟩) (pd.get ⟨ir, hd⟩)
        (pe.get ⟨ir, he⟩) (pf.get ⟨ir, hf⟩)) := by
  unfold initSegment
  rw [List.getElem?_eq_getElem (by omega : ir < r.length), List.getElem?_eq_getElem hr,
    List.getElem?_eq_getElem ha, List.getElem?_eq_getElem hb, List.getElem?_eq_getElem hc,
    List.getElem?_eq_getElem hd, List.getElem?_eq_getElem he, List.getElem?_eq_getElem hf]
  rfl

/-- The inner loop of `init` returns when all its iterations read inside the vectors. -/
theorem initRadial_total (T : TMath K) (phiSect dPhi : K) (r pa pb pc pd pe pf : List K) :
    ∀ (n ir0 : Nat), ir0 + n + 1 ≤ r.length ∨ n = 0 → ir0 + n ≤ pa.length ∨ n = 0 →
      ir0 + n ≤ pb.length ∨ n = 0 → ir0 + n ≤ pc.length ∨ n = 0 →
      ir0 + n ≤ pd.length ∨ n = 0 → ir0 + n ≤ pe.length ∨ n = 0 →
      ir0 + n ≤ pf.length ∨ n = 0 →
      ∃ ring, initRadial T phiSect dPhi r pa pb pc pd pe pf n ir0 = some ring := by
  intro n
  induction n with
  | zero => intro ir0 _ _ _ _ _ _ _; exact ⟨[], rfl⟩
  | succ n ih =>
    intro ir0 hr ha hb hc hd he hf
    have hseg := initSegment_total T phiSect dPhi r pa pb pc pd pe pf ir0 (by omega) (by omega)
      (by omega) (by omega) (by omega) (by omega) (by omega)
    obtain ⟨rest, hrest⟩ := ih (ir0 + 1) (by omega) (by omega) (by omega) (by omega)
      (by omega) (by omega) (by omega)
    unfold initRadial
    rw [hseg, hrest]
    exact ⟨_, rfl⟩

/-- The outer loop of `init` returns when the inner loop does for every angular sector. -/
theorem initAngular_total (T : TMath K) (dPhi : K) (nRad : Nat) (r pa pb pc pd pe pf : List K)
    (hrad : ∀ phiSect : K, ∃ ring,
      initRadial T phiSect dPhi r pa pb pc pd pe pf nRad 0 = some ring) :
    ∀ (n ip0 : Nat), ∃ secs, initAngular T dPhi nRad r pa pb pc pd pe pf n ip0 = some secs := by
  intro n
  induction n with
  | zero => intro ip0; exact ⟨[], rfl⟩
  | succ n ih =>
    intro ip0
    obtain ⟨ring, hring⟩ := hrad (((ip0 : K) + 0.5) * dPhi)
    obtain ⟨rest, hrest⟩ := ih (ip0 + 1)
    unfold initAngular
    rw [hring, hrest]
    exact ⟨_, rfl⟩

/-- The call of `init` returns when `r` has at least one element and each parameter vector
has at least one element per radial segment. -/
theorem KMCMSStation.init_total (T : TMath K) (st0 : KMCMSStation K) (nsect : Int)
    (r pa pb pc pd pe pf : List K) (hlen : 1 ≤ r.length)
    (ha : r.length - 1 ≤ pa.length) (hb : r.length - 1 ≤ pb.length)
    (hc : r.length - 1 ≤ pc.length) (hd : r.length - 1 ≤ pd.length)
    (he : r.length - 1 ≤ pe.length) (hf : r.length - 1 ≤ pf.length) :
    ∃ st, st0.init T nsect r pa pb pc pd pe pf = some st := by
  have hnr : ((r.length : Int) - 1).toNat = r.length - 1 := by omega
  obtain ⟨secs, hsecs⟩ := initAngular_total T (T.Pi * 2 / (nsect : K)) (r.length - 1) r pa pb pc
    pd pe pf
    (fun phiSect => initRadial_total T phiSect _ r pa pb pc pd pe pf (r.length - 1) 0
      (by omega) (by omega) (by omega) (by omega) (by omega) (by omega) (by omega))
    nsect.toNat 0
  unfold KMCMSStation.init
  simp only [hnr, hsecs]
  exact ⟨_, rfl⟩

/-- On a grid built by `init`, for a point whose angular index `ia` is in range, with `xl`
its local radial coordinate: `getSectorID` returns `-1` with `xl` below the first radius
or not below any upper radius, or it returns `ia·nRadSegments + j` for the first `j` whose
upper radius exceeds `xl`. -/
theorem KMCMSStation.getSectorID_grid_cases [FloorRing K] (T : TMath K)
    (st0 st : KMCMSStation K) (nsect : Int) (r pa pb pc pd pe pf : List K)
    (h0 : st0.sectors = []) (h : st0.init T nsect r pa pb pc pd pe pf = some st) (x y : K)
    (ia : Nat) (hia : (ia : Int) < nsect) (hrad : 0 < st.nRadSegments)
    (hidx : st.angularIndex T x y = ia) :
    (st.getSectorID T x y = some (-1) ∧
      ((∃ r0, r[0]? = some r0 ∧
          x * T.Cos (((ia : K) + 0.5) * st.dPhi) + y * T.Sin (((ia : K) + 0.5) * st.dPhi) < r0) ∨
        ∀ (i : Nat) (v : K), (i : Int) < st.nRadSegments → r[i + 1]? = some v →
          v ≤ x * T.Cos (((ia : K) + 0.5) * st.dPhi) + y * T.Sin (((ia : K) + 0.5) * st.dPhi))) ∨
    (∃ j : Nat, (j : Int) < st.nRadSegments ∧
      st.getSectorID T x y = some ((ia : Int) * st.nRadSegments + j) ∧
      (∀ (i : Nat) (v : K), i ≤ j → r[i]? = some v →
        v ≤ x * T.Cos (((ia : K) + 0.5) * st.dPhi) + y * T.Sin (((ia : K) + 0.5) * st.dPhi)) ∧
      (∃ v : K, r[j + 1]? = some v ∧
        x * T.Cos (((ia : K) + 0.5) * st.dPhi) + y * T.Sin (((ia : K) + 0.5) * st.dPhi) < v)) := by
  obtain ⟨r0, hr0, hget⟩ := KMCMSStation.getSectorID_unfold T st0 st nsect r pa pb pc pd pe pf
    h0 h x y ia hia hrad hidx
  by_cases hlow0 : x * T.Cos (((ia : K) + 0.5) * st.dPhi) +
      y * T.Sin (((ia : K) + 0.5) * st.dPhi) < r0
  · left
    rw [hget, if_pos hlow0]
    exact ⟨rfl, Or.inl ⟨r0, hr0, hlow0⟩⟩
  · by_cases hP : ∃ j : Nat, (j : Int) < st.nRadSegments ∧ ∃ v : K, r[j + 1]? = some v ∧
        x * T.Cos (((ia : K) + 0.5) * st.dPhi) + y * T.Sin (((ia : K) + 0.5) * st.dPhi) < v
    · right
      classical
      have hj := Nat.find_spec hP
      have hmin := fun i (hi : i < Nat.find hP) => Nat.find_min hP hi
      obtain ⟨hjr, v, hv, hxv⟩ := hj
      have hlow : ∀ (i : Nat) (w : K), i ≤ Nat.find hP → r[i]? = some w →
          w ≤ x * T.Cos (((ia : K) + 0.5) * st.dPhi) +
            y * T.Sin (((ia : K) + 0.5) * st.dPhi) := by
        intro i w hi hw
        cases i with
        | zero =>
          rw [hr0] at hw
          rw [← Option.some.inj hw]
          exact not_lt.mp hlow0
        | succ i =>
          by_contra hc
          exact hmin i (by omega) ⟨by omega, w, hw, not_le.mp hc⟩
      refine ⟨Nat.find hP, hjr, ?_, hlow, v, hv, hxv⟩
      apply KMCMSStation.getSectorID_grid_first T st0 st nsect r pa pb pc pd pe pf h0 h x y ia
        hia hidx (Nat.find hP) hjr hlow
      intro w hw
      rw [hv] at hw
      rw [← Option.some.inj hw]
      exact hxv
    · left
      have hall : ∀ (i : Nat) (v : K), (i : Int) < st.nRadSegments → r[i + 1]? = some v →
          v ≤ x * T.Cos (((ia : K) + 0.5) * st.dPhi) +
            y * T.Sin (((ia : K) + 0.5) * st.dPhi) := by
        intro i v hi hv
        by_contra hc
        exact hP ⟨i, hi, v, hv, not_le.mp hc⟩
      exact ⟨KMCMSStation.getSectorID_grid_above T st0 st nsect r pa pb pc pd pe pf h0 h x y
        ia hia hrad hidx hall, Or.inr hall⟩

/-- A linear function of a point of the wedge `rMin ≤ x ≤ rMax`, `|y| ≤ x·t` is not below
its minimum over the four corners `(rMin, ±rMin·t)`, `(rMax, ±rMax·t)`. -/
theorem wedge_min_corner (a b t rmin rmax x y : K) (h1 : rmin ≤ x) (h2 : x ≤ rmax)
    (h3 : |y| ≤ x * t) :
    min (min (min (rmin * a + rmin * t * b) (rmin * a + -rmin * t * b))
      (rmax * a + rmax * t * b)) (rmax * a + -rmax * t * b) ≤ x * a + y * b := by
  obtain ⟨hy1, hy2⟩ := abs_le.mp h3
  simp only [min_le_iff]
  rcases le_total 0 b with hb | hb
  · have hyb : (-(x * t)) * b ≤ y * b := mul_le_mul_of_nonneg_right hy1 hb
    rcases le_total 0 (a - t * b) with hc | hc
    · have := mul_le_mul_of_nonneg_right h1 hc
      left; left; right
      nlinarith
    · have := mul_le_mul_of_nonpos_right h2 hc
      right
      nlinarith
  · have hyb : (x * t) * b ≤ y * b := mul_le_mul_of_nonpos_right hy2 hb
    rcases le_total 0 (a + t * b) with hc | hc
    · have := mul_le_mul_of_nonneg_right h1 hc
      left; left; left
      nlinarith
    · have := mul_le_mul_of_nonpos_right h2 hc
      left; right
      nlinarith

/-- The wedge of a sector is convex: the midpoint of two points inside is inside. -/
theorem Sector.isInside_midpoint (T : TMath K) (s : Sector K) (x1 y1 x2 y2 : K)
    (h1 : s.isInside T x1 y1 = true) (h2 : s.isInside T x2 y2 = true) :
    s.isInside T (0.5 * (x1 + x2)) (0.5 * (y1 + y2)) = true := by
  simp only [Sector.isInside, Bool.and_eq_true, decide_eq_true_eq] at h1 h2 ⊢
  obtain ⟨⟨a1, b1⟩, c1⟩ := h1
  obtain ⟨⟨a2, b2⟩, c2⟩ := h2
  have hhalf : (0.5 : K) = 1 / 2 := by norm_num
  rw [hhalf]
  refine ⟨⟨by linarith, by linarith⟩, ?_⟩
  rw [abs_le] at c1 c2 ⊢
  constructor <;> linarith [c1.1, c1.2, c2.1, c2.2]

/-! ### Evaluation of the example station -/

/-- The station `exampleStation` is what `init` builds from `emptyStation`. -/
theorem exampleStation_init (T : TMath K) (phiUV : K) :
    (emptyStation K).init T 4 [1 / 2, 5] [phiUV] [1] [0] [1] [3 / 5] [3 / 5] =
      some (exampleStation T phiUV) := by
  simp [KMCMSStation.init, initAngular, initRadial, initSegment, emptyStation, exampleStation,
    exampleSector]

/-- The cosine of the stereo angle `arccos (3/5)` of the examples. -/
theorem cos_arccos_three_fifths : Real.cos (Real.arccos (3 / 5)) = 3 / 5 :=
  Real.cos_arccos (by norm_num) (by norm_num)

/-- The sine of the stereo angle `arccos (3/5)` of the examples. -/
theorem sin_arccos_three_fifths : Real.sin (Real.arccos (3 / 5)) = 4 / 5 := by
  rw [Real.sin_arccos]
  rw [show (1 : ℝ) - (3 / 5) ^ 2 = (4 / 5) ^ 2 by norm_num]
  exact Real.sqrt_sq (by norm_num)

/-- The half-width `0.5·(2π/4)` of the sectors of `exampleStation` is `π/4`. -/
theorem half_quarter_turn : (0.5 : ℝ) * (Real.pi * 2 / 4) = Real.pi / 4 := by
  norm_num; ring

/-- The crossings do not depend on the hit lists of the sector. -/
theorem KMCMSSector.pushHits_crossUW (T : TMath K) (s : KMCMSSector K) (U V W : K) (id : Int)
    (hitU hitW : Hit K) :
    (s.pushHits U V W id).crossUW T hitU hitW = s.crossUW T hitU hitW := rfl

/-- The body of the `iv` loop does not depend on the hit lists of the sector. -/
theorem KMCMSSector.pushHits_stepV (T : TMath K) (s : KMCMSSector K) (U V W : K) (id : Int)
    (hitU hitW : Hit K) (pUW : K × K) :
    (s.pushHits U V W id).stepV T hitU hitW pUW = s.stepV T hitU hitW pUW := rfl

/-- The frame of a sector does not depend on its hit lists. -/
theorem KMCMSSector.pushHits_toSector (s : KMCMSSector K) (U V W : K) (id : Int) :
    (s.pushHits U V W id).toSector = s.toSector := rfl

/-- The U hit list after the three `emplace_back`. -/
theorem KMCMSSector.pushHits_hitsU (s : KMCMSSector K) (U V W : K) (id : Int) :
    (s.pushHits U V W id).stripPlaneU.hits = s.stripPlaneU.hits ++ [⟨U, id⟩] := rfl

/-- The V hit list after the three `emplace_back`. -/
theorem KMCMSSector.pushHits_hitsV (s : KMCMSSector K) (U V W : K) (id : Int) :
    (s.pushHits U V W id).stripPlaneV.hits = s.stripPlaneV.hits ++ [⟨V, id⟩] := rfl

/-- The W hit list after the three `emplace_back`. -/
theorem KMCMSSector.pushHits_hitsW (s : KMCMSSector K) (U V W : K) (id : Int) :
    (s.pushHits U V W id).wirePlaneW.hits = s.wirePlaneW.hits ++ [⟨W, id⟩] := rfl

/-- The sectors built by the constructor have an empty U hit list. -/
theorem exampleSector_hitsU (T : TMath K) (phiUV : K) (ip : Nat) :
    (exampleSector T phiUV ip).stripPlaneU.hits = [] := rfl

/-- The sectors built by the constructor have an empty V hit list. -/
theorem exampleSector_hitsV (T : TMath K) (phiUV : K) (ip : Nat) :
    (exampleSector T phiUV ip).stripPlaneV.hits = [] := rfl

/-- The sectors built by the constructor have an empty W hit list. -/
theorem exampleSector_hitsW (T : TMath K) (phiUV : K) (ip : Nat) :
    (exampleSector T phiUV ip).wirePlaneW.hits = [] := rfl

/-- Without a signal record `PrepareForTracking` resets the background collection, scans
the sectors and sorts the collection. -/
theorem KMCMSStation.PrepareForTracking_no_signal (T : TMath K)
    (sortBG : List (BgCluster K) → List (BgCluster K)) (st : KMCMSStation K)
    (h : st.signalSectorID < 0) :
    st.PrepareForTracking T sortBG =
      some { st with
        toKMCLayerFwd := KMCLayerFwd.SortBGClusters sortBG
          (st.sectors.foldl (KMCMSSector.scan T) st.toKMCLayerFwd.ResetBgClusters) } := by
  unfold KMCMSStation.PrepareForTracking KMCMSStation.signalHits
  simp [not_le.mpr h]

/-- The channels of a sector-local point in sector 0 of `exampleStation` with
`phiUV = arccos (3/5)`: the offsets of the planes are `-1`, `-1` and `1/2`. -/
theorem exampleSector_channels (x y : ℝ) :
    (exampleSector (⟨Real.cos, Real.sin, Real.tan, fun y x => Complex.arg ⟨x, y⟩, Real.sqrt, Real.pi, fun v => v⟩ :
        TMath ℝ)
      (Real.arccos (3 / 5)) 0).stripPlaneU.get1DMeasurement
      (⟨Real.cos, Real.sin, Real.tan, fun y x => Complex.arg ⟨x, y⟩, Real.sqrt, Real.pi, fun v => v⟩ :
        TMath ℝ) x y = (3 * x + 4 * y) / 5 + 1 ∧
    (exampleSector (⟨Real.cos, Real.sin, Real.tan, fun y x => Complex.arg ⟨x, y⟩, Real.sqrt, Real.pi, fun v => v⟩ :
        TMath ℝ)
      (Real.arccos (3 / 5)) 0).stripPlaneV.get1DMeasurement
      (⟨Real.cos, Real.sin, Real.tan, fun y x => Complex.arg ⟨x, y⟩, Real.sqrt, Real.pi, fun v => v⟩ :
        TMath ℝ) x y = (3 * x - 4 * y) / 5 + 1 ∧
    (exampleSector (⟨Real.cos, Real.sin, Real.tan, fun y x => Complex.arg ⟨x, y⟩, Real.sqrt, Real.pi, fun v => v⟩ :
        TMath ℝ)
      (Real.arccos (3 / 5)) 0).wirePlaneW.get1DMeasurement
      (⟨Real.cos, Real.sin, Real.tan, fun y x => Complex.arg ⟨x, y⟩, Real.sqrt, Real.pi, fun v => v⟩ :
        TMath ℝ) x y = x - 1 / 2 := by
  refine ⟨?_, ?_, ?_⟩
  · simp only [exampleSector, KMCMSSector.ctor, MeasPlane1D.ctor,
      MeasPlane1D.get1DMeasurement, half_quarter_turn, cos_arccos_three_fifths,
      sin_arccos_three_fifths, Real.tan_pi_div_four]
    norm_num
    ring
  · simp only [exampleSector, KMCMSSector.ctor, MeasPlane1D.ctor,
      MeasPlane1D.get1DMeasurement, half_quarter_turn, cos_arccos_three_fifths,
      sin_arccos_three_fifths, Real.tan_pi_div_four, Real.cos_neg, Real.sin_neg]
    norm_num
    ring
  · simp only [exampleSector, KMCMSSector.ctor, MeasPlane1D.ctor,
      MeasPlane1D.get1DMeasurement, half_quarter_turn, Real.tan_pi_div_four, Real.cos_zero,
      Real.sin_zero]
    norm_num

/-- The U-W crossing computed in sector 0 of `exampleStation` with `phiUV = arccos (3/5)`,
in terms of the channels of the two hits. -/
theorem exampleSector_crossUW (hitU hitW : Hit ℝ) :
    (exampleSector (⟨Real.cos, Real.sin, Real.tan, fun y x => Complex.arg ⟨x, y⟩, Real.sqrt, Real.pi, fun v => v⟩ :
        TMath ℝ)
      (Real.arccos (3 / 5)) 0).crossUW
      (⟨Real.cos, Real.sin, Real.tan, fun y x => Complex.arg ⟨x, y⟩, Real.sqrt, Real.pi, fun v => v⟩ :
        TMath ℝ) hitU hitW =
      ((6 * (hitU.channel - 1) - 5 * (hitW.channel + 1 / 2)) / 5,
       (7 * (hitU.channel - 1) + 15 * (hitW.channel + 1 / 2)) / 20) := by
  simp only [exampleSector, KMCMSSector.ctor, MeasPlane1D.ctor, MeasPlane1D.get1DMeasurement,
    KMCMSSector.crossUW, MeasPlane1D.local2sector, half_quarter_turn,
    cos_arccos_three_fifths, sin_arccos_three_fifths, Real.tan_pi_div_four, sub_zero,
    Real.cos_zero, Real.sin_zero, Real.cos_neg, Real.sin_neg, Prod.mk.injEq]
  norm_num
  constructor <;> ring

/-- The V-W crossing computed in sector 0 of `exampleStation` with `phiUV = arccos (3/5)`,
in terms of the channels of the two hits. -/
theorem exampleSector_crossVW (hitV hitW : Hit ℝ) :
    (exampleSector (⟨Real.cos, Real.sin, Real.tan, fun y x => Complex.arg ⟨x, y⟩, Real.sqrt, Real.pi, fun v => v⟩ :
        TMath ℝ)
      (Real.arccos (3 / 5)) 0).crossVW
      (⟨Real.cos, Real.sin, Real.tan, fun y x => Complex.arg ⟨x, y⟩, Real.sqrt, Real.pi, fun v => v⟩ :
        TMath ℝ) hitV hitW =
      ((6 * (hitV.channel - 1) - 5 * (hitW.channel + 1 / 2)) / 5,
       -((7 * (hitV.channel - 1) + 15 * (hitW.channel + 1 / 2)) / 20)) := by
  simp only [exampleSector, KMCMSSector.ctor, MeasPlane1D.ctor, MeasPlane1D.get1DMeasurement,
    KMCMSSector.crossVW, MeasPlane1D.local2sector, half_quarter_turn,
    cos_arccos_three_fifths, sin_arccos_three_fifths, Real.tan_pi_div_four, sub_zero,
    Real.cos_zero, Real.sin_zero, Real.cos_neg, Real.sin_neg, Prod.mk.injEq]
  norm_num
  constructor <;> ring

/-- The membership test of sector 0 of `exampleStation`: `1/2 ≤ xl ≤ 5` and
`|yl| ≤ xl` (the tangent of the half-width `π/4` is `1`). -/
theorem exampleSector_isInside (phiUV x y : ℝ) :
    (exampleSector (⟨Real.cos, Real.sin, Real.tan, fun y x => Complex.arg ⟨x, y⟩, Real.sqrt, Real.pi, fun v => v⟩ :
        TMath ℝ)
      phiUV 0).toSector.isInside
      (⟨Real.cos, Real.sin, Real.tan, fun y x => Complex.arg ⟨x, y⟩, Real.sqrt, Real.pi, fun v => v⟩ :
        TMath ℝ) x y =
      (decide (1 / 2 ≤ x) && decide (x ≤ 5) && decide (|y| ≤ x)) := by
  simp only [exampleSector, KMCMSSector.ctor, Sector.isInside, half_quarter_turn,
    Real.tan_pi_div_four, mul_one]

/-- The quantity `chi2` in the sectors of `exampleStation`. -/
theorem exampleSector_chi2 (T : TMath ℝ) (phiUV dx dy : ℝ) (ip : Nat) :
    (exampleSector T phiUV ip).chi2 dx dy = (dx * dx / (3 / 5) + dy * dy / (3 / 5)) / 2 :=
  rfl

/-- Polar form of the lab point `(xl·√2/2, xl·√2/2)`, on the bisector of the first
quadrant at the distance `xl > 0` from the origin. -/
theorem diag_polar (xl : ℝ) (hxl : 0 < xl) :
    Real.sqrt (xl * (Real.sqrt 2 / 2) * (xl * (Real.sqrt 2 / 2)) +
      xl * (Real.sqrt 2 / 2) * (xl * (Real.sqrt 2 / 2))) = xl ∧
    Real.cos (Complex.arg ⟨xl * (Real.sqrt 2 / 2), xl * (Real.sqrt 2 / 2)⟩) = Real.sqrt 2 / 2 ∧
    Real.sin (Complex.arg ⟨xl * (Real.sqrt 2 / 2), xl * (Real.sqrt 2 / 2)⟩) = Real.sqrt 2 / 2 := by
  have hs2 : Real.sqrt 2 * Real.sqrt 2 = 2 := Real.mul_self_sqrt (by norm_num)
  have hsq : Real.sqrt (xl * (Real.sqrt 2 / 2) * (xl * (Real.sqrt 2 / 2)) +
      xl * (Real.sqrt 2 / 2) * (xl * (Real.sqrt 2 / 2))) = xl := by
    rw [show xl * (Real.sqrt 2 / 2) * (xl * (Real.sqrt 2 / 2)) +
      xl * (Real.sqrt 2 / 2) * (xl * (Real.sqrt 2 / 2)) =
        xl * xl * (Real.sqrt 2 * Real.sqrt 2) / 2 by ring, hs2]
    rw [show xl * xl * 2 / 2 = xl * xl by ring]
    exact Real.sqrt_mul_self hxl.le
  have habs : Complex.abs ⟨xl * (Real.sqrt 2 / 2), xl * (Real.sqrt 2 / 2)⟩ = xl := by
    rw [Complex.abs_apply, Complex.normSq_mk]
    exact hsq
  have hc := Complex.abs_mul_cos_arg
    (⟨xl * (Real.sqrt 2 / 2), xl * (Real.sqrt 2 / 2)⟩ : ℂ)
  have hs := Complex.abs_mul_sin_arg
    (⟨xl * (Real.sqrt 2 / 2), xl * (Real.sqrt 2 / 2)⟩ : ℂ)
  rw [habs] at hc hs
  exact ⟨hsq, mul_left_cancel₀ hxl.ne' hc, mul_left_cancel₀ hxl.ne' hs⟩

/-- The smeared point of `AddCluster` for the lab point `(xl·√2/2, xl·√2/2)`, `xl > 0`, and
the samples `rx = 0`, `ry`: the point at the distance `xl + ry·sigR` on the same
bisector. -/
theorem smear_diag (sect : KMCMSSector ℝ) (xl ry : ℝ) (hxl : 0 < xl) :
    sect.smear (⟨Real.cos, Real.sin, Real.tan, fun y x => Complex.arg ⟨x, y⟩, Real.sqrt, Real.pi, fun v => v⟩ :
        TMath ℝ) (xl * (Real.sqrt 2 / 2)) (xl * (Real.sqrt 2 / 2)) 0 ry =
      ((xl + ry * sect.sigR) * (Real.sqrt 2 / 2), (xl + ry * sect.sigR) * (Real.sqrt 2 / 2)) := by
  obtain ⟨h1, h2, h3⟩ := diag_polar xl hxl
  simp only [KMCMSSector.smear, h1, h2, h3, zero_mul, sub_zero, add_zero]

/-- The coordinates of the lab point `(d·√2/2, d·√2/2)` in the frame of sector 0 of
`exampleStation` are `(d, 0)`. -/
theorem exampleSector_rotate_diag (phiUV d : ℝ) :
    (exampleSector (⟨Real.cos, Real.sin, Real.tan, fun y x => Complex.arg ⟨x, y⟩, Real.sqrt, Real.pi, fun v => v⟩ :
        TMath ℝ) phiUV 0).toSector.rotate (⟨Real.cos, Real.sin, Real.tan, fun y x => Complex.arg ⟨x, y⟩, Real.sqrt, Real.pi, fun v => v⟩ :
        TMath ℝ) (d * (Real.sqrt 2 / 2))
      (d * (Real.sqrt 2 / 2)) = (d, 0) := by
  have hs2 : Real.sqrt 2 * Real.sqrt 2 = 2 := Real.mul_self_sqrt (by norm_num)
  simp only [exampleSector, KMCMSSector.ctor, Sector.rotate, half_quarter_turn,
    Real.cos_pi_div_four, Real.sin_pi_div_four, Nat.cast_zero, zero_add, Prod.mk.injEq]
  constructor
  · linear_combination (d / 2) * hs2
  · ring

/-- The sector of the lab point `(d·√2/2, d·√2/2)`, `d > 0`, on `exampleStation`: sector 0
when `1/2 ≤ d < 5`, none otherwise. -/
theorem exampleStation_getSectorID_diag (phiUV d : ℝ) (hd : 0 < d) :
    (exampleStation (⟨Real.cos, Real.sin, Real.tan, fun y x => Complex.arg ⟨x, y⟩, Real.sqrt, Real.pi, fun v => v⟩ :
        TMath ℝ) phiUV).getSectorID (⟨Real.cos, Real.sin, Real.tan, fun y x => Complex.arg ⟨x, y⟩, Real.sqrt, Real.pi, fun v => v⟩ :
        TMath ℝ) (d * (Real.sqrt 2 / 2)) (d * (Real.sqrt 2 / 2)) =
      if d < 1 / 2 then some (-1) else if d < 5 then some 0 else some (-1) := by
  have hs2 : Real.sqrt 2 * Real.sqrt 2 = 2 := Real.mul_self_sqrt (by norm_num)
  have hrot := exampleSector_rotate_diag phiUV d
  have hidx : (exampleStation (⟨Real.cos, Real.sin, Real.tan, fun y x => Complex.arg ⟨x, y⟩, Real.sqrt, Real.pi, fun v => v⟩ :
        TMath ℝ) phiUV).angularIndex (⟨Real.cos, Real.sin, Real.tan, fun y x => Complex.arg ⟨x, y⟩, Real.sqrt, Real.pi, fun v => v⟩ :
        TMath ℝ) (d * (Real.sqrt 2 / 2))
      (d * (Real.sqrt 2 / 2)) = ((0 : Nat) : Int) := by
    apply KMCMSStation.angularIndex_of_wedge _
      ⟨rfl, rfl, rfl, fun _ _ => rfl, rfl, rfl, fun _ _ h => h, rfl, rfl⟩ (fun _ => rfl) _ 4 0
      (by norm_num) (by simp [exampleStation]) (by simp [exampleStation])
    simp only [exampleStation, emptyStation, half_quarter_turn, Real.cos_pi_div_four,
      Real.sin_pi_div_four, Nat.cast_zero, zero_add]
    rw [show Real.pi * 2 / 4 / 2 = Real.pi / 4 by ring, Real.tan_pi_div_four,
      show -(d * (Real.sqrt 2 / 2)) * (Real.sqrt 2 / 2) +
        d * (Real.sqrt 2 / 2) * (Real.sqrt 2 / 2) = 0 by ring, abs_zero]
    nlinarith [Real.sqrt_nonneg 2]
  unfold KMCMSStation.getSectorID
  rw [hidx]
  have hs : (exampleStation (⟨Real.cos, Real.sin, Real.tan, fun y x => Complex.arg ⟨x, y⟩, Real.sqrt, Real.pi, fun v => v⟩ :
        TMath ℝ) phiUV).sectorAt (((0 : Nat) : Int) *
      (exampleStation (⟨Real.cos, Real.sin, Real.tan, fun y x => Complex.arg ⟨x, y⟩, Real.sqrt, Real.pi, fun v => v⟩ :
        TMath ℝ) phiUV).nRadSegments) = some (exampleSector (⟨Real.cos, Real.sin, Real.tan, fun y x => Complex.arg ⟨x, y⟩, Real.sqrt, Real.pi, fun v => v⟩ :
        TMath ℝ) phiUV 0) := by
    simp [exampleStation, KMCMSStation.sectorAt, emptyStation]
  simp only [hs, Sector.rotateToSector, hrot]
  have hmin : (exampleSector (⟨Real.cos, Real.sin, Real.tan, fun y x => Complex.arg ⟨x, y⟩, Real.sqrt, Real.pi, fun v => v⟩ :
        TMath ℝ) phiUV 0).rMin = 1 / 2 := rfl
  have hn : (exampleStation (⟨Real.cos, Real.sin, Real.tan, fun y x => Complex.arg ⟨x, y⟩, Real.sqrt, Real.pi, fun v => v⟩ :
        TMath ℝ) phiUV).nRadSegments.toNat = 1 := rfl
  rw [hmin, hn]
  by_cases h1 : d < 1 / 2
  · rw [if_pos h1, if_pos h1]
  · rw [if_neg h1, if_neg h1]
    have hmax : (exampleSector (⟨Real.cos, Real.sin, Real.tan, fun y x => Complex.arg ⟨x, y⟩, Real.sqrt, Real.pi, fun v => v⟩ :
        TMath ℝ) phiUV 0).rMax = 5 := rfl
    simp only [KMCMSStation.radialScan, hs, hmax]
    by_cases h2 : d < 5
    · rw [if_pos h2, if_pos h2]
      simp [exampleStation]
    · rw [if_neg h2, if_neg h2]

/-- The projection of the lab point `(d·√2/2, d·√2/2)` by sector 0 of `exampleStation` with
`phiUV = arccos (3/5)`, for `1/2 ≤ d ≤ 5` (the closed radial range of the sector). -/
theorem exampleSector_getUVW_diag (d : ℝ) (h1 : 1 / 2 ≤ d) (h2 : d ≤ 5) :
    (exampleSector (⟨Real.cos, Real.sin, Real.tan, fun y x => Complex.arg ⟨x, y⟩, Real.sqrt, Real.pi, fun v => v⟩ :
        TMath ℝ)
      (Real.arccos (3 / 5)) 0).getUVW (⟨Real.cos, Real.sin, Real.tan, fun y x => Complex.arg ⟨x, y⟩, Real.sqrt, Real.pi, fun v => v⟩ :
        TMath ℝ) (d * (Real.sqrt 2 / 2)) (d * (Real.sqrt 2 / 2)) =
      some (3 * d / 5 + 1, 3 * d / 5 + 1, d - 1 / 2) := by
  have hd0 : (0 : ℝ) ≤ d := by linarith
  unfold KMCMSSector.getUVW
  simp only [Sector.rotateToSector, exampleSector_rotate_diag, exampleSector_isInside,
    abs_zero, decide_eq_true h1, decide_eq_true h2, decide_eq_true hd0, Bool.and_self,
    Bool.not_true, Bool.false_eq_true, if_false]
  rw [(exampleSector_channels d 0).1, (exampleSector_channels d 0).2.1,
    (exampleSector_channels d 0).2.2]
  norm_num

/-- On a station `st` with the grid of `exampleStation` with `phiUV = arccos (3/5)` (any
signal record and truth sink): the call of `AddCluster` at the lab point at the distance
`xl` on the bisector of sector 0, with the samples `rx = 0` and `ry`, when the point is in
sector 0 (`1/2 ≤ xl < 5`) and the smeared point, at the distance `xl + ry·3/5`, is in the
closed radial range `[1/2, 5]` of sector 0. -/
theorem exampleStation_AddCluster_diag (st : KMCMSStation ℝ) (hd : st.dPhi = (exampleStation (⟨Real.cos, Real.sin, Real.tan, fun y x => Complex.arg ⟨x, y⟩, Real.sqrt, Real.pi, fun v => v⟩ :
        TMath ℝ)
      (Real.arccos (3 / 5))).dPhi)
    (hN : st.nSectors = (exampleStation (⟨Real.cos, Real.sin, Real.tan, fun y x => Complex.arg ⟨x, y⟩, Real.sqrt, Real.pi, fun v => v⟩ :
        TMath ℝ)
      (Real.arccos (3 / 5))).nSectors) (hR : st.nRadSegments = (exampleStation (⟨Real.cos, Real.sin, Real.tan, fun y x => Complex.arg ⟨x, y⟩, Real.sqrt, Real.pi, fun v => v⟩ :
        TMath ℝ)
      (Real.arccos (3 / 5))).nRadSegments)
    (hS : st.sectors = (exampleStation (⟨Real.cos, Real.sin, Real.tan, fun y x => Complex.arg ⟨x, y⟩, Real.sqrt, Real.pi, fun v => v⟩ :
        TMath ℝ)
      (Real.arccos (3 / 5))).sectors) (xl ry z : ℝ) (id : Int) (isBG : Bool)
    (h1 : 1 / 2 ≤ xl) (h2 : xl < 5) (h3 : 1 / 2 ≤ xl + ry * (3 / 5))
    (h4 : xl + ry * (3 / 5) ≤ 5) :
    ∃ st1, st.AddCluster (⟨Real.cos, Real.sin, Real.tan, fun y x => Complex.arg ⟨x, y⟩, Real.sqrt, Real.pi, fun v => v⟩ :
        TMath ℝ) (xl * (Real.sqrt 2 / 2)) (xl * (Real.sqrt 2 / 2)) z id isBG 0
        ry = some (true, st1) ∧
      (exampleSector (⟨Real.cos, Real.sin, Real.tan, fun y x => Complex.arg ⟨x, y⟩, Real.sqrt, Real.pi, fun v => v⟩ :
        TMath ℝ)
      (Real.arccos (3 / 5)) 0).smear (⟨Real.cos, Real.sin, Real.tan, fun y x => Complex.arg ⟨x, y⟩, Real.sqrt, Real.pi, fun v => v⟩ :
        TMath ℝ) (xl * (Real.sqrt 2 / 2)) (xl * (Real.sqrt 2 / 2)) 0 ry =
        ((xl + ry * (3 / 5)) * (Real.sqrt 2 / 2), (xl + ry * (3 / 5)) * (Real.sqrt 2 / 2)) ∧
      st.getSectorID (⟨Real.cos, Real.sin, Real.tan, fun y x => Complex.arg ⟨x, y⟩, Real.sqrt, Real.pi, fun v => v⟩ :
        TMath ℝ) ((xl + ry * (3 / 5)) * (Real.sqrt 2 / 2))
        ((xl + ry * (3 / 5)) * (Real.sqrt 2 / 2)) =
        some (if xl + ry * (3 / 5) < 5 then 0 else -1) ∧
      (isBG = false →
        st1.signalSectorID = (if xl + ry * (3 / 5) < 5 then 0 else -1) ∧
        (st1.signalU, st1.signalV, st1.signalW) =
          (3 * (xl + ry * (3 / 5)) / 5 + 1, 3 * (xl + ry * (3 / 5)) / 5 + 1,
            xl + ry * (3 / 5) - 1 / 2) ∧
        st1.fClMC.killed = false ∧ st1.sectors = st.sectors) ∧
      (isBG = true →
        st1.signalSectorID = -1 ∧
        st1.sectors = st.sectors.set 0
          ((exampleSector (⟨Real.cos, Real.sin, Real.tan, fun y x => Complex.arg ⟨x, y⟩, Real.sqrt, Real.pi, fun v => v⟩ :
        TMath ℝ)
      (Real.arccos (3 / 5)) 0).pushHits (3 * (xl + ry * (3 / 5)) / 5 + 1) (3 * (xl + ry * (3 / 5)) / 5 + 1)
            (xl + ry * (3 / 5) - 1 / 2) id)) := by
  have hxl : 0 < xl := by linarith
  have hd0 : 0 < xl + ry * (3 / 5) := by linarith
  have hsm := smear_diag (exampleSector (⟨Real.cos, Real.sin, Real.tan, fun y x => Complex.arg ⟨x, y⟩, Real.sqrt, Real.pi, fun v => v⟩ :
        TMath ℝ)
      (Real.arccos (3 / 5)) 0) xl ry hxl
  have hsig : (exampleSector (⟨Real.cos, Real.sin, Real.tan, fun y x => Complex.arg ⟨x, y⟩, Real.sqrt, Real.pi, fun v => v⟩ :
        TMath ℝ)
      (Real.arccos (3 / 5)) 0).sigR = 3 / 5 := rfl
  rw [hsig] at hsm
  have hsec : st.sectorAt 0 = some (exampleSector (⟨Real.cos, Real.sin, Real.tan, fun y x => Complex.arg ⟨x, y⟩, Real.sqrt, Real.pi, fun v => v⟩ :
        TMath ℝ)
      (Real.arccos (3 / 5)) 0) := by
    simp [hS, exampleStation, KMCMSStation.sectorAt, emptyStation]
  have hcongr := KMCMSStation.getSectorID_congr (⟨Real.cos, Real.sin, Real.tan, fun y x => Complex.arg ⟨x, y⟩, Real.sqrt, Real.pi, fun v => v⟩ :
        TMath ℝ) st (exampleStation (⟨Real.cos, Real.sin, Real.tan, fun y x => Complex.arg ⟨x, y⟩, Real.sqrt, Real.pi, fun v => v⟩ :
        TMath ℝ)
      (Real.arccos (3 / 5))) hd hN hR hS
  have g1 : st.getSectorID (⟨Real.cos, Real.sin, Real.tan, fun y x => Complex.arg ⟨x, y⟩, Real.sqrt, Real.pi, fun v => v⟩ :
        TMath ℝ) (xl * (Real.sqrt 2 / 2)) (xl * (Real.sqrt 2 / 2)) = some 0 := by
    rw [hcongr, exampleStation_getSectorID_diag _ xl hxl, if_neg (not_lt.mpr h1), if_pos h2]
  have g2 : st.getSectorID (⟨Real.cos, Real.sin, Real.tan, fun y x => Complex.arg ⟨x, y⟩, Real.sqrt, Real.pi, fun v => v⟩ :
        TMath ℝ)
      ((exampleSector (⟨Real.cos, Real.sin, Real.tan, fun y x => Complex.arg ⟨x, y⟩, Real.sqrt, Real.pi, fun v => v⟩ :
        TMath ℝ)
      (Real.arccos (3 / 5)) 0).smear (⟨Real.cos, Real.sin, Real.tan, fun y x => Complex.arg ⟨x, y⟩, Real.sqrt, Real.pi, fun v => v⟩ :
        TMath ℝ) (xl * (Real.sqrt 2 / 2)) (xl * (Real.sqrt 2 / 2)) 0 ry).1
      ((exampleSector (⟨Real.cos, Real.sin, Real.tan, fun y x => Complex.arg ⟨x, y⟩, Real.sqrt, Real.pi, fun v => v⟩ :
        TMath ℝ)
      (Real.arccos (3 / 5)) 0).smear (⟨Real.cos, Real.sin, Real.tan, fun y x => Complex.arg ⟨x, y⟩, Real.sqrt, Real.pi, fun v => v⟩ :
        TMath ℝ) (xl * (Real.sqrt 2 / 2)) (xl * (Real.sqrt 2 / 2)) 0 ry).2 =
      some (if xl + ry * (3 / 5) < 5 then 0 else -1) := by
    rw [hsm, hcongr, exampleStation_getSectorID_diag _ _ hd0, if_neg (not_lt.mpr h3)]
    split <;> rfl
  have g3 : st.sectorAt (if (if xl + ry * (3 / 5) < 5 then (0 : Int) else -1) ≥ 0
      then (if xl + ry * (3 / 5) < 5 then (0 : Int) else -1) else 0) = some (exampleSector (⟨Real.cos, Real.sin, Real.tan, fun y x => Complex.arg ⟨x, y⟩, Real.sqrt, Real.pi, fun v => v⟩ :
        TMath ℝ)
      (Real.arccos (3 / 5)) 0) := by
    split <;> exact hsec
  have g4 : (if (if xl + ry * (3 / 5) < 5 then (0 : Int) else -1) ≥ 0
      then (if xl + ry * (3 / 5) < 5 then (0 : Int) else -1) else 0).toNat = 0 := by
    split
    · split <;> simp_all
    · rfl
  have g5 : (exampleSector (⟨Real.cos, Real.sin, Real.tan, fun y x => Complex.arg ⟨x, y⟩, Real.sqrt, Real.pi, fun v => v⟩ :
        TMath ℝ)
      (Real.arccos (3 / 5)) 0).getUVW (⟨Real.cos, Real.sin, Real.tan, fun y x => Complex.arg ⟨x, y⟩, Real.sqrt, Real.pi, fun v => v⟩ :
        TMath ℝ)
      ((exampleSector (⟨Real.cos, Real.sin, Real.tan, fun y x => Complex.arg ⟨x, y⟩, Real.sqrt, Real.pi, fun v => v⟩ :
        TMath ℝ)
      (Real.arccos (3 / 5)) 0).smear (⟨Real.cos, Real.sin, Real.tan, fun y x => Complex.arg ⟨x, y⟩, Real.sqrt, Real.pi, fun v => v⟩ :
        TMath ℝ) (xl * (Real.sqrt 2 / 2)) (xl * (Real.sqrt 2 / 2)) 0 ry).1
      ((exampleSector (⟨Real.cos, Real.sin, Real.tan, fun y x => Complex.arg ⟨x, y⟩, Real.sqrt, Real.pi, fun v => v⟩ :
        TMath ℝ)
      (Real.arccos (3 / 5)) 0).smear (⟨Real.cos, Real.sin, Real.tan, fun y x => Complex.arg ⟨x, y⟩, Real.sqrt, Real.pi, fun v => v⟩ :
        TMath ℝ) (xl * (Real.sqrt 2 / 2)) (xl * (Real.sqrt 2 / 2)) 0 ry).2 =
      some (3 * (xl + ry * (3 / 5)) / 5 + 1, 3 * (xl + ry * (3 / 5)) / 5 + 1,
        xl + ry * (3 / 5) - 1 / 2) := by
    rw [hsm]
    exact exampleSector_getUVW_diag _ h3 h4
  have g2b := g2
  rw [hsm] at g2b
  refine ⟨_, KMCMSStation.AddCluster_inside (⟨Real.cos, Real.sin, Real.tan, fun y x => Complex.arg ⟨x, y⟩, Real.sqrt, Real.pi, fun v => v⟩ :
        TMath ℝ) st _ _ z id isBG 0 ry 0 _ (exampleSector (⟨Real.cos, Real.sin, Real.tan, fun y x => Complex.arg ⟨x, y⟩, Real.sqrt, Real.pi, fun v => v⟩ :
        TMath ℝ)
      (Real.arccos (3 / 5)) 0) (exampleSector (⟨Real.cos, Real.sin, Real.tan, fun y x => Complex.arg ⟨x, y⟩, Real.sqrt, Real.pi, fun v => v⟩ :
        TMath ℝ)
      (Real.arccos (3 / 5)) 0) _ _ _ g1
    le_rfl hsec g2 g3 g5, hsm, g2b, ?_, ?_⟩
  · intro hb
    subst hb
    exact ⟨rfl, rfl, rfl, rfl⟩
  · intro hb
    subst hb
    refine ⟨rfl, ?_⟩
    simp only [Bool.not_true, Bool.false_eq_true, if_false, g4]

/-! ### The azimuth in single precision -/

/-- C1 (single-truth reconstruction), evaluation of the code at a failing input.  Station:
`init` with 4 angular sectors, radii `[1/2, 5]`, `phiUV = arccos (3/5)`, `phiW = 0`,
pitches `1`, resolutions `3/5`.  The point `p = (2, 1)` (sector-local) is inside sector 0,
its channels are `U = 3`, `V = 7/5`, `W = 3/2`, and the sines `sUW = 4/5`, `sVW = -4/5`
are non-zero.  With exactly these three hits, all of label `7`, and no signal record, the
U-W crossing computed by `PrepareForTracking` is `(2/5, 11/5)`, outside the sector; the
call returns and has registered no coincidence at all: the background collection is empty
and the truth cluster is untouched. -/
theorem c1_single_truth_failing_input :
    ((exampleSector (⟨Real.cos, Real.sin, Real.tan, fun y x => Complex.arg ⟨x, y⟩, Real.sqrt, Real.pi, fun v => v⟩ :
        TMath ℝ)
      (Real.arccos (3 / 5)) 0).toSector.isInside
      (⟨Real.cos, Real.sin, Real.tan, fun y x => Complex.arg ⟨x, y⟩, Real.sqrt, Real.pi, fun v => v⟩ :
        TMath ℝ) 2 1 = true) ∧
    ((exampleSector (⟨Real.cos, Real.sin, Real.tan, fun y x => Complex.arg ⟨x, y⟩, Real.sqrt, Real.pi, fun v => v⟩ :
        TMath ℝ)
      (Real.arccos (3 / 5)) 0).stripPlaneU.get1DMeasurement
      (⟨Real.cos, Real.sin, Real.tan, fun y x => Complex.arg ⟨x, y⟩, Real.sqrt, Real.pi, fun v => v⟩ :
        TMath ℝ) 2 1,
     (exampleSector (⟨Real.cos, Real.sin, Real.tan, fun y x => Complex.arg ⟨x, y⟩, Real.sqrt, Real.pi, fun v => v⟩ :
        TMath ℝ)
      (Real.arccos (3 / 5)) 0).stripPlaneV.get1DMeasurement
      (⟨Real.cos, Real.sin, Real.tan, fun y x => Complex.arg ⟨x, y⟩, Real.sqrt, Real.pi, fun v => v⟩ :
        TMath ℝ) 2 1,
     (exampleSector (⟨Real.cos, Real.sin, Real.tan, fun y x => Complex.arg ⟨x, y⟩, Real.sqrt, Real.pi, fun v => v⟩ :
        TMath ℝ)
      (Real.arccos (3 / 5)) 0).wirePlaneW.get1DMeasurement
      (⟨Real.cos, Real.sin, Real.tan, fun y x => Complex.arg ⟨x, y⟩, Real.sqrt, Real.pi, fun v => v⟩ :
        TMath ℝ) 2 1) = (3, 7 / 5, 3 / 2) ∧
    ((exampleSector (⟨Real.cos, Real.sin, Real.tan, fun y x => Complex.arg ⟨x, y⟩, Real.sqrt, Real.pi, fun v => v⟩ :
        TMath ℝ)
      (Real.arccos (3 / 5)) 0).sUW,
     (exampleSector (⟨Real.cos, Real.sin, Real.tan, fun y x => Complex.arg ⟨x, y⟩, Real.sqrt, Real.pi, fun v => v⟩ :
        TMath ℝ)
      (Real.arccos (3 / 5)) 0).sVW) = (4 / 5, -(4 / 5)) ∧
    (exampleSector (⟨Real.cos, Real.sin, Real.tan, fun y x => Complex.arg ⟨x, y⟩, Real.sqrt, Real.pi, fun v => v⟩ :
        TMath ℝ)
      (Real.arccos (3 / 5)) 0).crossUW
      (⟨Real.cos, Real.sin, Real.tan, fun y x => Complex.arg ⟨x, y⟩, Real.sqrt, Real.pi, fun v => v⟩ :
        TMath ℝ) ⟨3, 7⟩ ⟨3 / 2, 7⟩ = (2 / 5, 11 / 5) ∧
    (((exampleStation (⟨Real.cos, Real.sin, Real.tan, fun y x => Complex.arg ⟨x, y⟩, Real.sqrt, Real.pi, fun v => v⟩ :
        TMath ℝ)
      (Real.arccos (3 / 5))).addHits 0 3 (7 / 5) (3 / 2) 7).PrepareForTracking
      (⟨Real.cos, Real.sin, Real.tan, fun y x => Complex.arg ⟨x, y⟩, Real.sqrt, Real.pi, fun v => v⟩ :
        TMath ℝ) id).map
        (fun st => (st.fClBg.length, st.fClMC.x, st.fClMC.y)) = some (0, 0, 0) := by
  refine ⟨?_, ?_, ?_, ?_, ?_⟩
  · rw [exampleSector_isInside]
    norm_num
  · rw [(exampleSector_channels 2 1).1, (exampleSector_channels 2 1).2.1,
      (exampleSector_channels 2 1).2.2]
    norm_num
  · simp only [exampleSector, KMCMSSector.ctor, sub_zero, Real.sin_neg,
      sin_arccos_three_fifths]
  · rw [exampleSector_crossUW]
    norm_num
  · rw [KMCMSStation.PrepareForTracking_no_signal _ _ _ (by decide)]
    simp only [exampleStation, emptyStation, KMCMSStation.addHits, List.map_cons,
      List.map_nil, List.modify_zero_cons, List.foldl_cons, List.foldl_nil,
      KMCMSSector.scan, KMCMSSector.stepU, KMCMSSector.stepW, KMCMSSector.pushHits_hitsU,
      KMCMSSector.pushHits_hitsV, KMCMSSector.pushHits_hitsW, exampleSector_hitsU,
      exampleSector_hitsV, exampleSector_hitsW, List.nil_append, List.cons_append,
      KMCMSSector.pushHits_crossUW, KMCMSSector.pushHits_stepV,
      KMCMSSector.pushHits_toSector, KMCMSSector.stepV, exampleSector_crossUW,
      exampleSector_crossVW, exampleSector_isInside, exampleSector_chi2, resolveLabel,
      wrapInt32,
      KMCLayerFwd.registerCoincidence, KMCLayerFwd.AddBgCluster,
      KMCLayerFwd.ResetBgClusters, KMCLayerFwd.SortBGClusters, Option.map_some', id]
    norm_num [abs_le]

/-- C2 (line intersection), evaluation of the code at a failing input.  In sector 0 of the
station `exampleStation` with `phiUV = arccos (3/5)`, `phiW = 0` (`sUW = 4/5`, pitches
`1`), for the U channel `3` and the W channel `3/2` (the channels of the point `(2, 1)`),
the U-W crossing computed by `PrepareForTracking` is the point `(2/5, 11/5)`: its U
channel is `3`, but its W channel is `-1/10`, not `3/2`.  The point is on the U line and
not on the W line. -/
theorem c2_crossing_failing_input :
    (exampleSector (⟨Real.cos, Real.sin, Real.tan, fun y x => Complex.arg ⟨x, y⟩, Real.sqrt, Real.pi, fun v => v⟩ :
        TMath ℝ)
      (Real.arccos (3 / 5)) 0).crossUW
      (⟨Real.cos, Real.sin, Real.tan, fun y x => Complex.arg ⟨x, y⟩, Real.sqrt, Real.pi, fun v => v⟩ :
        TMath ℝ) ⟨3, 7⟩ ⟨3 / 2, 7⟩ = (2 / 5, 11 / 5) ∧
    (exampleSector (⟨Real.cos, Real.sin, Real.tan, fun y x => Complex.arg ⟨x, y⟩, Real.sqrt, Real.pi, fun v => v⟩ :
        TMath ℝ)
      (Real.arccos (3 / 5)) 0).stripPlaneU.get1DMeasurement
      (⟨Real.cos, Real.sin, Real.tan, fun y x => Complex.arg ⟨x, y⟩, Real.sqrt, Real.pi, fun v => v⟩ :
        TMath ℝ) (2 / 5) (11 / 5) = 3 ∧
    (exampleSector (⟨Real.cos, Real.sin, Real.tan, fun y x => Complex.arg ⟨x, y⟩, Real.sqrt, Real.pi, fun v => v⟩ :
        TMath ℝ)
      (Real.arccos (3 / 5)) 0).wirePlaneW.get1DMeasurement
      (⟨Real.cos, Real.sin, Real.tan, fun y x => Complex.arg ⟨x, y⟩, Real.sqrt, Real.pi, fun v => v⟩ :
        TMath ℝ) (2 / 5) (11 / 5) = -(1 / 10) ∧
    ((exampleSector (⟨Real.cos, Real.sin, Real.tan, fun y x => Complex.arg ⟨x, y⟩, Real.sqrt, Real.pi, fun v => v⟩ :
        TMath ℝ)
      (Real.arccos (3 / 5)) 0).sUW,
     (exampleSector (⟨Real.cos, Real.sin, Real.tan, fun y x => Complex.arg ⟨x, y⟩, Real.sqrt, Real.pi, fun v => v⟩ :
        TMath ℝ)
      (Real.arccos (3 / 5)) 0).stripPlaneU.pitch,
     (exampleSector (⟨Real.cos, Real.sin, Real.tan, fun y x => Complex.arg ⟨x, y⟩, Real.sqrt, Real.pi, fun v => v⟩ :
        TMath ℝ)
      (Real.arccos (3 / 5)) 0).wirePlaneW.pitch) = (4 / 5, 1, 1) := by
  refine ⟨?_, ?_, ?_, ?_⟩
  · rw [exampleSector_crossUW]
    norm_num
  · rw [(exampleSector_channels (2 / 5) (11 / 5)).1]
    norm_num
  · rw [(exampleSector_channels (2 / 5) (11 / 5)).2.2]
    norm_num
  · simp only [exampleSector, KMCMSSector.ctor, MeasPlane1D.ctor, sub_zero,
      sin_arccos_three_fifths]

/-- C3 (coincidence gate), evaluation of the code at a failing input.  Station: `init` with
4 angular sectors, radii `[1/2, 5]`, `phiUV = arccos (3/5)`, `phiW = 0`, pitches `1`,
`sigR = sigRPhi = 3/5`; sector 0 holds the hits of the two sector-local points `(4, 0)`
(label 1: `U = 17/5`, `V = 17/5`, `W = 7/2`) and `(1, 0)` (label 2: `U = 8/5`,
`V = 8/5`, `W = 1/2`).  For the U and V hit of label 1 and the W hit of label 2 the
crossings are `(47/25, 159/100)` and `(47/25, -159/100)`, both inside the sector, so
`dx = 0`, `dy = 159/50`.  The code's `chi2` is `8427/1000 ≤ 9`: the combination is
accepted and registered (label `100001`), and it is the one coincidence registered by
`PrepareForTracking`; the gate normalised by the squared resolutions gives
`2809/200 > 9` for it. -/
theorem c3_gate_failing_input :
    ((exampleSector (⟨Real.cos, Real.sin, Real.tan, fun y x => Complex.arg ⟨x, y⟩, Real.sqrt, Real.pi, fun v => v⟩ :
        TMath ℝ)
      (Real.arccos (3 / 5)) 0).stripPlaneU.get1DMeasurement
      (⟨Real.cos, Real.sin, Real.tan, fun y x => Complex.arg ⟨x, y⟩, Real.sqrt, Real.pi, fun v => v⟩ :
        TMath ℝ) 4 0,
     (exampleSector (⟨Real.cos, Real.sin, Real.tan, fun y x => Complex.arg ⟨x, y⟩, Real.sqrt, Real.pi, fun v => v⟩ :
        TMath ℝ)
      (Real.arccos (3 / 5)) 0).stripPlaneV.get1DMeasurement
      (⟨Real.cos, Real.sin, Real.tan, fun y x => Complex.arg ⟨x, y⟩, Real.sqrt, Real.pi, fun v => v⟩ :
        TMath ℝ) 4 0,
     (exampleSector (⟨Real.cos, Real.sin, Real.tan, fun y x => Complex.arg ⟨x, y⟩, Real.sqrt, Real.pi, fun v => v⟩ :
        TMath ℝ)
      (Real.arccos (3 / 5)) 0).wirePlaneW.get1DMeasurement
      (⟨Real.cos, Real.sin, Real.tan, fun y x => Complex.arg ⟨x, y⟩, Real.sqrt, Real.pi, fun v => v⟩ :
        TMath ℝ) 4 0) = (17 / 5, 17 / 5, 7 / 2) ∧
    ((exampleSector (⟨Real.cos, Real.sin, Real.tan, fun y x => Complex.arg ⟨x, y⟩, Real.sqrt, Real.pi, fun v => v⟩ :
        TMath ℝ)
      (Real.arccos (3 / 5)) 0).stripPlaneU.get1DMeasurement
      (⟨Real.cos, Real.sin, Real.tan, fun y x => Complex.arg ⟨x, y⟩, Real.sqrt, Real.pi, fun v => v⟩ :
        TMath ℝ) 1 0,
     (exampleSector (⟨Real.cos, Real.sin, Real.tan, fun y x => Complex.arg ⟨x, y⟩, Real.sqrt, Real.pi, fun v => v⟩ :
        TMath ℝ)
      (Real.arccos (3 / 5)) 0).stripPlaneV.get1DMeasurement
      (⟨Real.cos, Real.sin, Real.tan, fun y x => Complex.arg ⟨x, y⟩, Real.sqrt, Real.pi, fun v => v⟩ :
        TMath ℝ) 1 0,
     (exampleSector (⟨Real.cos, Real.sin, Real.tan, fun y x => Complex.arg ⟨x, y⟩, Real.sqrt, Real.pi, fun v => v⟩ :
        TMath ℝ)
      (Real.arccos (3 / 5)) 0).wirePlaneW.get1DMeasurement
      (⟨Real.cos, Real.sin, Real.tan, fun y x => Complex.arg ⟨x, y⟩, Real.sqrt, Real.pi, fun v => v⟩ :
        TMath ℝ) 1 0) = (8 / 5, 8 / 5, 1 / 2) ∧
    (exampleSector (⟨Real.cos, Real.sin, Real.tan, fun y x => Complex.arg ⟨x, y⟩, Real.sqrt, Real.pi, fun v => v⟩ :
        TMath ℝ)
      (Real.arccos (3 / 5)) 0).crossUW
      (⟨Real.cos, Real.sin, Real.tan, fun y x => Complex.arg ⟨x, y⟩, Real.sqrt, Real.pi, fun v => v⟩ :
        TMath ℝ) ⟨17 / 5, 1⟩ ⟨1 / 2, 2⟩ = (47 / 25, 159 / 100) ∧
    (exampleSector (⟨Real.cos, Real.sin, Real.tan, fun y x => Complex.arg ⟨x, y⟩, Real.sqrt, Real.pi, fun v => v⟩ :
        TMath ℝ)
      (Real.arccos (3 / 5)) 0).crossVW
      (⟨Real.cos, Real.sin, Real.tan, fun y x => Complex.arg ⟨x, y⟩, Real.sqrt, Real.pi, fun v => v⟩ :
        TMath ℝ) ⟨17 / 5, 1⟩ ⟨1 / 2, 2⟩ = (47 / 25, -(159 / 100)) ∧
    ((exampleSector (⟨Real.cos, Real.sin, Real.tan, fun y x => Complex.arg ⟨x, y⟩, Real.sqrt, Real.pi, fun v => v⟩ :
        TMath ℝ)
      (Real.arccos (3 / 5)) 0).toSector.isInside
      (⟨Real.cos, Real.sin, Real.tan, fun y x => Complex.arg ⟨x, y⟩, Real.sqrt, Real.pi, fun v => v⟩ :
        TMath ℝ) (47 / 25) (159 / 100),
     (exampleSector (⟨Real.cos, Real.sin, Real.tan, fun y x => Complex.arg ⟨x, y⟩, Real.sqrt, Real.pi, fun v => v⟩ :
        TMath ℝ)
      (Real.arccos (3 / 5)) 0).toSector.isInside
      (⟨Real.cos, Real.sin, Real.tan, fun y x => Complex.arg ⟨x, y⟩, Real.sqrt, Real.pi, fun v => v⟩ :
        TMath ℝ) (47 / 25) (-(159 / 100))) = (true, true) ∧
    (exampleSector (⟨Real.cos, Real.sin, Real.tan, fun y x => Complex.arg ⟨x, y⟩, Real.sqrt, Real.pi, fun v => v⟩ :
        TMath ℝ)
      (Real.arccos (3 / 5)) 0).chi2 (47 / 25 - 47 / 25) (159 / 100 - -(159 / 100)) = 8427 / 1000 ∧
    (((47 / 25 - 47 / 25 : ℝ) ^ 2 /
        (exampleSector (⟨Real.cos, Real.sin, Real.tan, fun y x => Complex.arg ⟨x, y⟩, Real.sqrt, Real.pi, fun v => v⟩ :
        TMath ℝ)
      (Real.arccos (3 / 5)) 0).sigR ^ 2 +
      (159 / 100 - -(159 / 100) : ℝ) ^ 2 /
        (exampleSector (⟨Real.cos, Real.sin, Real.tan, fun y x => Complex.arg ⟨x, y⟩, Real.sqrt, Real.pi, fun v => v⟩ :
        TMath ℝ)
      (Real.arccos (3 / 5)) 0).sigRPhi ^ 2) / 2 = 2809 / 200) ∧
    (((exampleSector (⟨Real.cos, Real.sin, Real.tan, fun y x => Complex.arg ⟨x, y⟩, Real.sqrt, Real.pi, fun v => v⟩ :
        TMath ℝ)
      (Real.arccos (3 / 5)) 0).stepV
      (⟨Real.cos, Real.sin, Real.tan, fun y x => Complex.arg ⟨x, y⟩, Real.sqrt, Real.pi, fun v => v⟩ :
        TMath ℝ) ⟨17 / 5, 1⟩ ⟨1 / 2, 2⟩ (47 / 25, 159 / 100)
      (emptyStation ℝ).toKMCLayerFwd ⟨17 / 5, 1⟩).fClBg.map (fun c => c.id) = [100001]) ∧
    ((((exampleStation (⟨Real.cos, Real.sin, Real.tan, fun y x => Complex.arg ⟨x, y⟩, Real.sqrt, Real.pi, fun v => v⟩ :
        TMath ℝ)
      (Real.arccos (3 / 5))).addHits 0 (17 / 5) (17 / 5) (7 / 2) 1).addHits 0 (8 / 5) (8 / 5)
        (1 / 2) 2).PrepareForTracking
      (⟨Real.cos, Real.sin, Real.tan, fun y x => Complex.arg ⟨x, y⟩, Real.sqrt, Real.pi, fun v => v⟩ :
        TMath ℝ) id).map
        (fun st => st.fClBg.map (fun c => c.id)) = some [100001] := by
  refine ⟨?_, ?_, ?_, ?_, ?_, ?_, ?_, ?_, ?_⟩
  · rw [(exampleSector_channels 4 0).1, (exampleSector_channels 4 0).2.1,
      (exampleSector_channels 4 0).2.2]
    norm_num
  · rw [(exampleSector_channels 1 0).1, (exampleSector_channels 1 0).2.1,
      (exampleSector_channels 1 0).2.2]
    norm_num
  · rw [exampleSector_crossUW]
    norm_num
  · rw [exampleSector_crossVW]
    norm_num
  · rw [exampleSector_isInside, exampleSector_isInside]
    norm_num [abs_le]
  · rw [exampleSector_chi2]
    norm_num
  · simp only [exampleSector, KMCMSSector.ctor]
    norm_num
  · simp only [KMCMSSector.stepV, exampleSector_crossVW, exampleSector_isInside,
      exampleSector_chi2, resolveLabel, wrapInt32, KMCLayerFwd.registerCoincidence,
      KMCLayerFwd.AddBgCluster, emptyStation]
    norm_num [abs_le]
  · rw [KMCMSStation.PrepareForTracking_no_signal _ _ _ (by decide)]
    simp only [exampleStation, emptyStation, KMCMSStation.addHits, List.map_cons,
      List.map_nil, List.modify_zero_cons, List.foldl_cons, List.foldl_nil,
      KMCMSSector.scan, KMCMSSector.stepU, KMCMSSector.stepW, KMCMSSector.pushHits_hitsU,
      KMCMSSector.pushHits_hitsV, KMCMSSector.pushHits_hitsW, exampleSector_hitsU,
      exampleSector_hitsV, exampleSector_hitsW, List.nil_append, List.cons_append,
      KMCMSSector.pushHits_crossUW, KMCMSSector.pushHits_stepV,
      KMCMSSector.pushHits_toSector, KMCMSSector.stepV, exampleSector_crossUW,
      exampleSector_crossVW, exampleSector_isInside, exampleSector_chi2, resolveLabel,
      wrapInt32,
      KMCLayerFwd.registerCoincidence, KMCLayerFwd.AddBgCluster,
      KMCLayerFwd.ResetBgClusters, KMCLayerFwd.SortBGClusters, Option.map_some', id]
    norm_num [abs_le]

/-- C4 (label resolution): for every accepted combination of a U, V and W hit (V-W
crossing inside the sector, `chi2 ≤ 9`) whose U label `lu` is a 32-bit `int` with
`100000 + lu` representable (`lu ≤ 2147383647`, no signed overflow), the coincidence is
registered with the label `lu` when the three labels are pairwise equal and `100000 + lu`
otherwise (the offset is applied to the label of the U hit); the test `lu = lv ∧ lu = lw`
of the code is equivalent to pairwise equality. -/
theorem c4_label_resolution (T : TMath K) (sect : KMCMSSector K)
    (hitU hitW hitV : Hit K) (pUW : K × K) (l : KMCLayerFwd K)
    (hin : sect.toSector.isInside T (sect.crossVW T hitV hitW).1
      (sect.crossVW T hitV hitW).2 = true)
    (hchi : sect.chi2 (pUW.1 - (sect.crossVW T hitV hitW).1)
      (pUW.2 - (sect.crossVW T hitV hitW).2) ≤ 9)
    (hmin : -2147483648 ≤ hitU.label) (hmax : hitU.label ≤ 2147383647) :
    sect.stepV T hitU hitW pUW l hitV =
      l.registerCoincidence
        (sect.toSector.sector2Lab T (0.5 * (pUW.1 + (sect.crossVW T hitV hitW).1))
          (0.5 * (pUW.2 + (sect.crossVW T hitV hitW).2))).1
        (sect.toSector.sector2Lab T (0.5 * (pUW.1 + (sect.crossVW T hitV hitW).1))
          (0.5 * (pUW.2 + (sect.crossVW T hitV hitW).2))).2
        (if hitU.label = hitV.label ∧ hitV.label = hitW.label ∧ hitU.label = hitW.label
          then hitU.label else 100000 + hitU.label) ∧
    ((hitU.label = hitV.label ∧ hitU.label = hitW.label) ↔
      (hitU.label = hitV.label ∧ hitV.label = hitW.label ∧ hitU.label = hitW.label)) := by
  have hiff : (hitU.label = hitV.label ∧ hitU.label = hitW.label) ↔
      (hitU.label = hitV.label ∧ hitV.label = hitW.label ∧ hitU.label = hitW.label) := by
    constructor
    · rintro ⟨h1, h2⟩
      exact ⟨h1, h1.symm.trans h2, h2⟩
    · rintro ⟨h1, _, h3⟩
      exact ⟨h1, h3⟩
  refine ⟨?_, hiff⟩
  rw [KMCMSSector.stepV_accepted T sect hitU hitW hitV pUW l hin hchi]
  congr 1
  unfold resolveLabel
  by_cases h : hitU.label = hitV.label ∧ hitU.label = hitW.label
  · rw [if_pos h, if_pos (hiff.mp h)]
  · rw [if_neg h, if_neg (fun h2 => h (hiff.mpr h2)),
      wrapInt32_of_range _ (by omega) (by omega)]

/-- Witness of C4: in sector 0 of the station `exampleStation` with
`phiUV = arccos (3/5)`, the U hit `(17/5, label 1)`, the W hit `(1/2, label 2)` and the V
hit `(17/5, label 1)` are accepted, and the registered label is `100000 + 1`. -/
theorem c4_label_resolution_witness :
    ((exampleSector (⟨Real.cos, Real.sin, Real.tan, fun y x => Complex.arg ⟨x, y⟩, Real.sqrt, Real.pi, fun v => v⟩ :
        TMath ℝ)
      (Real.arccos (3 / 5)) 0).stepV
      (⟨Real.cos, Real.sin, Real.tan, fun y x => Complex.arg ⟨x, y⟩, Real.sqrt, Real.pi, fun v => v⟩ :
        TMath ℝ) ⟨17 / 5, 1⟩ ⟨1 / 2, 2⟩ (47 / 25, 159 / 100)
      (emptyStation ℝ).toKMCLayerFwd ⟨17 / 5, 1⟩).fClBg.map (fun c => c.id) = [100001] := by
  rw [(c4_label_resolution
      (⟨Real.cos, Real.sin, Real.tan, fun y x => Complex.arg ⟨x, y⟩, Real.sqrt, Real.pi, fun v => v⟩ :
        TMath ℝ)
      (exampleSector (⟨Real.cos, Real.sin, Real.tan, fun y x => Complex.arg ⟨x, y⟩, Real.sqrt, Real.pi, fun v => v⟩ :
        TMath ℝ)
      (Real.arccos (3 / 5)) 0)
      ⟨17 / 5, 1⟩ ⟨1 / 2, 2⟩ ⟨17 / 5, 1⟩ (47 / 25, 159 / 100) (emptyStation ℝ).toKMCLayerFwd
      (by
        rw [exampleSector_crossVW, exampleSector_isInside]
        norm_num [abs_le])
      (by
        rw [exampleSector_crossVW, exampleSector_chi2]
        norm_num)
      (by decide) (by decide)).1]
  simp [KMCLayerFwd.registerCoincidence, KMCLayerFwd.AddBgCluster, emptyStation]

/-- C5, counterexample: on the station `exampleStation` with `phiUV = arccos (3/5)`,
sector 0 holding one background hit on each plane (`U = 3`, `V = 7/5`, `W = 3/2`,
label 7), `PrepareForTracking` returns and the U, V and W hit lists of sector 0 still have
size 1. -/
theorem c5_hits_not_cleared :
    (((exampleStation (⟨Real.cos, Real.sin, Real.tan, fun y x => Complex.arg ⟨x, y⟩, Real.sqrt, Real.pi, fun v => v⟩ :
        TMath ℝ)
      (Real.arccos (3 / 5))).addHits 0 3 (7 / 5) (3 / 2) 7).PrepareForTracking
      (⟨Real.cos, Real.sin, Real.tan, fun y x => Complex.arg ⟨x, y⟩, Real.sqrt, Real.pi, fun v => v⟩ :
        TMath ℝ) id).map
        (fun st => st.sectors.map KMCMSSector.hitSizes) =
      some [(1, 1, 1), (0, 0, 0), (0, 0, 0), (0, 0, 0)] := by
  obtain ⟨st1, h1, h2⟩ := KMCMSStation.PrepareForTracking_sectors
    (⟨Real.cos, Real.sin, Real.tan, fun y x => Complex.arg ⟨x, y⟩, Real.sqrt, Real.pi, fun v => v⟩ :
        TMath ℝ) id
    ((exampleStation (⟨Real.cos, Real.sin, Real.tan, fun y x => Complex.arg ⟨x, y⟩, Real.sqrt, Real.pi, fun v => v⟩ :
        TMath ℝ)
      (Real.arccos (3 / 5))).addHits 0 3 (7 / 5) (3 / 2) 7)
    (by simp [exampleStation, emptyStation, KMCMSStation.addHits])
  rw [h1, Option.map_some', h2]
  simp only [exampleStation, KMCMSStation.addHits, List.map_cons, List.map_nil,
    List.modify_zero_cons, KMCMSSector.hitSizes, KMCMSSector.pushHits_hitsU,
    KMCMSSector.pushHits_hitsV, KMCMSSector.pushHits_hitsW, exampleSector_hitsU,
    exampleSector_hitsV, exampleSector_hitsW, List.nil_append, List.length_cons,
    List.length_nil]

/-- C5, amended: when `signalSectorID` is negative or an index of `sectors`,
`PrepareForTracking` returns and every plane's hit list in every sector has the size it
had before the call (it is `0` where it was `0` before); the three hit lists of a sector
have size `0` after `KMCMSSector::clear`. -/
theorem c5_hit_sizes_kept (T : TMath K) (sortBG : List (BgCluster K) → List (BgCluster K))
    (st : KMCMSStation K) (h : st.signalSectorID < st.sectors.length) :
    (∃ st1, st.PrepareForTracking T sortBG = some st1 ∧
      st1.sectors.map KMCMSSector.hitSizes = st.sectors.map KMCMSSector.hitSizes) ∧
    (∀ s : KMCMSSector K, s.clear.hitSizes = (0, 0, 0)) := by
  constructor
  · obtain ⟨st1, h1, h2⟩ := KMCMSStation.PrepareForTracking_sectors T sortBG st h
    exact ⟨st1, h1, by rw [h2]⟩
  · intro s
    simp [KMCMSSector.clear, MeasPlane1D.clear, KMCMSSector.hitSizes]

/-- Witness of C5 (amended): the station `exampleSignalStation` has its signal record in
sector 0, one of its 4 sectors. -/
theorem c5_hit_sizes_kept_witness :
    (exampleSignalStation (⟨Real.cos, Real.sin, Real.tan, fun y x => Complex.arg ⟨x, y⟩, Real.sqrt, Real.pi, fun v => v⟩ :
        TMath ℝ)
      (Real.arccos (3 / 5))).signalSectorID <
      ((exampleSignalStation (⟨Real.cos, Real.sin, Real.tan, fun y x => Complex.arg ⟨x, y⟩, Real.sqrt, Real.pi, fun v => v⟩ :
        TMath ℝ)
      (Real.arccos (3 / 5))).sectors.length : Int) ∧
    ((∃ st1, (exampleSignalStation (⟨Real.cos, Real.sin, Real.tan, fun y x => Complex.arg ⟨x, y⟩, Real.sqrt, Real.pi, fun v => v⟩ :
        TMath ℝ)
      (Real.arccos (3 / 5))).PrepareForTracking
        (⟨Real.cos, Real.sin, Real.tan, fun y x => Complex.arg ⟨x, y⟩, Real.sqrt, Real.pi, fun v => v⟩ :
        TMath ℝ) id = some st1 ∧
      st1.sectors.map KMCMSSector.hitSizes =
        (exampleSignalStation (⟨Real.cos, Real.sin, Real.tan, fun y x => Complex.arg ⟨x, y⟩, Real.sqrt, Real.pi, fun v => v⟩ :
        TMath ℝ)
      (Real.arccos (3 / 5))).sectors.map KMCMSSector.hitSizes) ∧
    (∀ s : KMCMSSector ℝ, s.clear.hitSizes = (0, 0, 0))) :=
  ⟨by simp [exampleSignalStation, exampleStation, emptyStation],
   c5_hit_sizes_kept _ id _ (by simp [exampleSignalStation, exampleStation, emptyStation])⟩

/-- C6, counterexample: on the station `exampleStation` (4 angular sectors, radii
`[1/2, 5]`) the lab point `(5, 1)` has radius `√26 > 5`, beyond the outermost radius, but
`getSectorID` returns sector 0 and a background `AddCluster` (no smearing) returns
`true`. -/
theorem c6_radius_counterexample :
    5 < Real.sqrt (5 * 5 + 1 * 1) ∧
    (exampleStation (⟨Real.cos, Real.sin, Real.tan, fun y x => Complex.arg ⟨x, y⟩, Real.sqrt, Real.pi, fun v => v⟩ :
        TMath ℝ)
      (Real.arccos (3 / 5))).getSectorID
      (⟨Real.cos, Real.sin, Real.tan, fun y x => Complex.arg ⟨x, y⟩, Real.sqrt, Real.pi, fun v => v⟩ :
        TMath ℝ) 5 1 = some 0 ∧
    ((exampleStation (⟨Real.cos, Real.sin, Real.tan, fun y x => Complex.arg ⟨x, y⟩, Real.sqrt, Real.pi, fun v => v⟩ :
        TMath ℝ)
      (Real.arccos (3 / 5))).AddCluster
      (⟨Real.cos, Real.sin, Real.tan, fun y x => Complex.arg ⟨x, y⟩, Real.sqrt, Real.pi, fun v => v⟩ :
        TMath ℝ) 5 1 0 5 true 0 0).map Prod.fst = some true := by
  have hs2 : Real.sqrt 2 * Real.sqrt 2 = 2 := Real.mul_self_sqrt (by norm_num)
  have hs0 : 0 ≤ Real.sqrt 2 := Real.sqrt_nonneg 2
  have hidx : (exampleStation (⟨Real.cos, Real.sin, Real.tan, fun y x => Complex.arg ⟨x, y⟩, Real.sqrt, Real.pi, fun v => v⟩ :
        TMath ℝ)
      (Real.arccos (3 / 5))).angularIndex
      (⟨Real.cos, Real.sin, Real.tan, fun y x => Complex.arg ⟨x, y⟩, Real.sqrt, Real.pi, fun v => v⟩ :
        TMath ℝ) 5 1 = ((0 : Nat) : Int) := by
    apply KMCMSStation.angularIndex_of_wedge _
      ⟨rfl, rfl, rfl, fun _ _ => rfl, rfl, rfl, fun _ _ h => h, rfl, rfl⟩ (fun _ => rfl) _ 4 0
      (by norm_num) (by simp [exampleStation]) (by simp [exampleStation])
    simp only [exampleStation, emptyStation, half_quarter_turn, Real.cos_pi_div_four,
      Real.sin_pi_div_four, Nat.cast_zero, zero_add]
    rw [show Real.pi * 2 / 4 / 2 = Real.pi / 4 by ring, Real.tan_pi_div_four, abs_lt]
    constructor <;> nlinarith
  have hget : (exampleStation (⟨Real.cos, Real.sin, Real.tan, fun y x => Complex.arg ⟨x, y⟩, Real.sqrt, Real.pi, fun v => v⟩ :
        TMath ℝ)
      (Real.arccos (3 / 5))).getSectorID
      (⟨Real.cos, Real.sin, Real.tan, fun y x => Complex.arg ⟨x, y⟩, Real.sqrt, Real.pi, fun v => v⟩ :
        TMath ℝ) 5 1 = some 0 := by
    have h := KMCMSStation.getSectorID_grid_first _ (emptyStation ℝ) _ 4 [1 / 2, 5]
      [Real.arccos (3 / 5)] [1] [0] [1] [3 / 5] [3 / 5] rfl
      (exampleStation_init _ (Real.arccos (3 / 5))) 5 1 0
      (by norm_num) hidx 0 (by simp [exampleStation])
      (by
        intro i v hi hv
        have hi0 : i = 0 := by omega
        subst hi0
        simp at hv
        subst hv
        simp only [exampleStation, emptyStation, half_quarter_turn, Real.cos_pi_div_four,
          Real.sin_pi_div_four, Nat.cast_zero, zero_add]
        nlinarith)
      (by
        intro v hv
        simp at hv
        subst hv
        simp only [exampleStation, emptyStation, half_quarter_turn, Real.cos_pi_div_four,
          Real.sin_pi_div_four, Nat.cast_zero, zero_add]
        nlinarith)
    simpa [exampleStation, emptyStation] using h
  have e1 : (exampleSector (⟨Real.cos, Real.sin, Real.tan, fun y x => Complex.arg ⟨x, y⟩, Real.sqrt, Real.pi, fun v => v⟩ :
        TMath ℝ)
      (Real.arccos (3 / 5)) 0).sigR = 3 / 5 := rfl
  have e2 : (exampleSector (⟨Real.cos, Real.sin, Real.tan, fun y x => Complex.arg ⟨x, y⟩, Real.sqrt, Real.pi, fun v => v⟩ :
        TMath ℝ)
      (Real.arccos (3 / 5)) 0).sigRPhi = 3 / 5 := rfl
  refine ⟨?_, hget, ?_⟩
  · rw [Real.lt_sqrt (by norm_num)]
    norm_num
  · obtain ⟨hx, hy⟩ := unsmeared_point 5 1 (3 / 5) (3 / 5)
    obtain ⟨st1, h1⟩ := KMCMSStation.AddCluster_bg_inside
      (⟨Real.cos, Real.sin, Real.tan, fun y x => Complex.arg ⟨x, y⟩, Real.sqrt, Real.pi, fun v => v⟩ :
        TMath ℝ)
      (exampleStation (⟨Real.cos, Real.sin, Real.tan, fun y x => Complex.arg ⟨x, y⟩, Real.sqrt, Real.pi, fun v => v⟩ :
        TMath ℝ)
      (Real.arccos (3 / 5))) 5 1 0 5 0 0 0 0
      (exampleSector (⟨Real.cos, Real.sin, Real.tan, fun y x => Complex.arg ⟨x, y⟩, Real.sqrt, Real.pi, fun v => v⟩ :
        TMath ℝ)
      (Real.arccos (3 / 5)) 0)
      (exampleSector (⟨Real.cos, Real.sin, Real.tan, fun y x => Complex.arg ⟨x, y⟩, Real.sqrt, Real.pi, fun v => v⟩ :
        TMath ℝ)
      (Real.arccos (3 / 5)) 0)
      _ hget (by norm_num)
      (by simp [exampleStation, KMCMSStation.sectorAt, emptyStation])
      (by
        simp only [e1, e2, hx, hy]
        exact hget)
      (by simp [exampleStation, KMCMSStation.sectorAt, emptyStation])
      (by
        simp only [e1, e2, hx, hy]
        unfold KMCMSSector.getUVW
        have hin : ((exampleSector (⟨Real.cos, Real.sin, Real.tan, fun y x => Complex.arg ⟨x, y⟩, Real.sqrt, Real.pi, fun v => v⟩ :
        TMath ℝ)
      (Real.arccos (3 / 5)) 0).toSector.rotateToSector
            (⟨Real.cos, Real.sin, Real.tan, fun y x => Complex.arg ⟨x, y⟩, Real.sqrt, Real.pi, fun v => v⟩ :
        TMath ℝ) 5 1).1 = true := by
          simp only [Sector.rotateToSector, exampleSector_isInside]
          simp only [exampleSector, KMCMSSector.ctor, Sector.rotate, half_quarter_turn,
            Real.cos_pi_div_four, Real.sin_pi_div_four, Nat.cast_zero, zero_add,
            Bool.and_eq_true, decide_eq_true_eq]
          refine ⟨⟨?_, ?_⟩, ?_⟩
          · nlinarith
          · nlinarith
          · rw [abs_le]; constructor <;> nlinarith
        simp only [hin, Bool.not_true, Bool.false_eq_true, if_false]
        rfl)
    rw [h1]
    rfl

/-- C6, amended: on a station built by `init` (from a station without sectors) with at
least one angular sector and ascending radii (at least two), every lab point has a lowest
sector `s0` of its angular sector, and when the local radial coordinate `xl` of the point
in the frame of `s0` is at least the outermost radius, `getSectorID` returns `-1` and
`AddCluster` returns `false`. -/
theorem c6_beyond_outer_radius (T : TMath ℝ) (hT : T.IsReal) (st0 st : KMCMSStation ℝ)
    (nsect : Int) (r phiUV pitchUV phiW pitchW sigR sigRPhi : List ℝ) (h0 : st0.sectors = [])
    (hinit : st0.init T nsect r phiUV pitchUV phiW pitchW sigR sigRPhi = some st)
    (hn : 1 ≤ nsect) (hlen : 2 ≤ r.length) (hr : r.Sorted (· ≤ ·)) (rOut : ℝ)
    (hout : r.getLast? = some rOut) (x y : ℝ) :
    ∃ s0, st.sectorAt (st.angularIndex T x y * st.nRadSegments) = some s0 ∧
      (rOut ≤ (s0.toSector.rotate T x y).1 →
        st.getSectorID T x y = some (-1) ∧
        ∀ (z : ℝ) (id : Int) (isBG : Bool) (rx ry : ℝ),
          ∃ st1, st.AddCluster T x y z id isBG rx ry = some (false, st1)) := by
  obtain ⟨hd, hN, _, hR, _, _, _⟩ := KMCMSStation.init_spec T st0 st nsect r phiUV pitchUV phiW
    pitchW sigR sigRPhi h0 hinit
  have hnn : nsect = (nsect.toNat : Int) := (Int.toNat_of_nonneg (by omega)).symm
  have hcast : (nsect : ℝ) = (nsect.toNat : ℝ) := by
    conv_lhs => rw [hnn]
    exact Int.cast_natCast _
  obtain ⟨hi0, hi1⟩ := KMCMSStation.angularIndex_range T hT st nsect.toNat (by omega)
    (by rw [hd, hcast]) (by rw [hN]; exact hnn) x y
  have hia : st.angularIndex T x y = ((st.angularIndex T x y).toNat : Int) :=
    (Int.toNat_of_nonneg hi0).symm
  have hrad : 0 < st.nRadSegments := by omega
  obtain ⟨s, r0, r1, hs, _, _, hphi, _, _, _⟩ := KMCMSStation.grid_sector T st0 st nsect r
    phiUV pitchUV phiW pitchW sigR sigRPhi h0 hinit (st.angularIndex T x y).toNat 0
    (by omega) (by simpa using hrad)
  simp only [Nat.cast_zero, add_zero] at hs
  rw [← hia] at hs
  refine ⟨s, hs, ?_⟩
  intro hx
  simp only [Sector.rotate, hphi] at hx
  have hget : st.getSectorID T x y = some (-1) := by
    apply KMCMSStation.getSectorID_grid_above T st0 st nsect r phiUV pitchUV phiW pitchW sigR
      sigRPhi h0 hinit x y (st.angularIndex T x y).toNat (by omega) hrad hia
    intro i v hi hv
    have hlast : r[r.length - 1]? = some rOut := by
      rw [← List.getLast?_eq_getElem?]; exact hout
    have hil : i + 1 < r.length := (List.getElem?_eq_some.mp hv).1
    have := sorted_le_of_getElem_some r hr (i + 1) (r.length - 1) (by omega) v rOut hv hlast
    linarith
  refine ⟨hget, ?_⟩
  intro z id isBG rx ry
  exact KMCMSStation.AddCluster_outside T st x y z id isBG rx ry (-1) hget (by norm_num)

/-- Witness of C6 (amended): on `exampleStation` (4 angular sectors, radii `[1/2, 5]`) the
lab point `(5, 5)` has the local radial coordinate `5√2 ≥ 5` in its angular sector;
`getSectorID` returns `-1`. -/
theorem c6_beyond_outer_radius_witness :
    (exampleStation (⟨Real.cos, Real.sin, Real.tan, fun y x => Complex.arg ⟨x, y⟩, Real.sqrt, Real.pi, fun v => v⟩ :
        TMath ℝ)
      (Real.arccos (3 / 5))).getSectorID
      (⟨Real.cos, Real.sin, Real.tan, fun y x => Complex.arg ⟨x, y⟩, Real.sqrt, Real.pi, fun v => v⟩ :
        TMath ℝ) 5 5 = some (-1) := by
  have hs2 : Real.sqrt 2 * Real.sqrt 2 = 2 := Real.mul_self_sqrt (by norm_num)
  have hs0 : 0 ≤ Real.sqrt 2 := Real.sqrt_nonneg 2
  have hidx : (exampleStation (⟨Real.cos, Real.sin, Real.tan, fun y x => Complex.arg ⟨x, y⟩, Real.sqrt, Real.pi, fun v => v⟩ :
        TMath ℝ)
      (Real.arccos (3 / 5))).angularIndex
      (⟨Real.cos, Real.sin, Real.tan, fun y x => Complex.arg ⟨x, y⟩, Real.sqrt, Real.pi, fun v => v⟩ :
        TMath ℝ) 5 5 = ((0 : Nat) : Int) := by
    apply KMCMSStation.angularIndex_of_wedge _
      ⟨rfl, rfl, rfl, fun _ _ => rfl, rfl, rfl, fun _ _ h => h, rfl, rfl⟩ (fun _ => rfl) _ 4 0
      (by norm_num) (by simp [exampleStation]) (by simp [exampleStation])
    simp only [exampleStation, emptyStation, half_quarter_turn, Real.cos_pi_div_four,
      Real.sin_pi_div_four, Nat.cast_zero, zero_add]
    rw [show Real.pi * 2 / 4 / 2 = Real.pi / 4 by ring, Real.tan_pi_div_four, abs_lt]
    constructor <;> nlinarith
  obtain ⟨s0, hs, himp⟩ := c6_beyond_outer_radius
    (⟨Real.cos, Real.sin, Real.tan, fun y x => Complex.arg ⟨x, y⟩, Real.sqrt, Real.pi, fun v => v⟩ :
        TMath ℝ)
    ⟨rfl, rfl, rfl, fun _ _ => rfl, rfl, rfl, fun _ _ h => h, rfl, rfl⟩ (emptyStation ℝ) _ 4 [1 / 2, 5]
    [Real.arccos (3 / 5)] [1] [0] [1] [3 / 5] [3 / 5] rfl
    (exampleStation_init _ (Real.arccos (3 / 5))) (by norm_num) (by simp)
    (by simp; norm_num) 5 (by simp) 5 5
  rw [hidx] at hs
  have h1 : KMCMSStation.sectorAt (exampleStation (⟨Real.cos, Real.sin, Real.tan, fun y x => Complex.arg ⟨x, y⟩, Real.sqrt, Real.pi, fun v => v⟩ :
        TMath ℝ)
      (Real.arccos (3 / 5))) ((0 : Nat) : Int) = some (exampleSector (⟨Real.cos, Real.sin, Real.tan, fun y x => Complex.arg ⟨x, y⟩, Real.sqrt, Real.pi, fun v => v⟩ :
        TMath ℝ)
      (Real.arccos (3 / 5)) 0) := by
    simp [exampleStation, KMCMSStation.sectorAt, emptyStation]
  have h2 := hs.symm.trans h1
  have hs0' : s0 = (exampleSector (⟨Real.cos, Real.sin, Real.tan, fun y x => Complex.arg ⟨x, y⟩, Real.sqrt, Real.pi, fun v => v⟩ :
        TMath ℝ)
      (Real.arccos (3 / 5)) 0) := Option.some.inj h2
  subst hs0'
  exact (himp (by
    simp only [exampleSector, KMCMSSector.ctor, Sector.rotate, half_quarter_turn,
      Real.cos_pi_div_four, Real.sin_pi_div_four, Nat.cast_zero, zero_add]
    nlinarith)).1

/-- C8 (offset calibration): for a plane built by the constructor with a non-zero pitch,
the minimum of `get1DMeasurement` (with the final offset) over the four corners
`(rMin, ±rMin·tan dphiH)`, `(rMax, ±rMax·tan dphiH)` of its wedge is `0`. -/
theorem c8_offset_calibration (T : TMath K) (phiSector dphih rmin rmax phiMeas ptc : K)
    (hp : ptc ≠ 0) :
    min (min (min
      ((MeasPlane1D.ctor T phiSector dphih rmin rmax phiMeas ptc).get1DMeasurement T
        rmin (rmin * T.Tan dphih))
      ((MeasPlane1D.ctor T phiSector dphih rmin rmax phiMeas ptc).get1DMeasurement T
        rmin (-rmin * T.Tan dphih)))
      ((MeasPlane1D.ctor T phiSector dphih rmin rmax phiMeas ptc).get1DMeasurement T
        rmax (rmax * T.Tan dphih)))
      ((MeasPlane1D.ctor T phiSector dphih rmin rmax phiMeas ptc).get1DMeasurement T
        rmax (-rmax * T.Tan dphih)) = 0 := by
  have _ := hp
  simp only [MeasPlane1D.ctor, MeasPlane1D.get1DMeasurement, sub_zero]
  rw [min_sub_sub_right, min_sub_sub_right, min_sub_sub_right, sub_self]

/-- Witness of C8: the U plane of sector 0 of `exampleStation` with
`phiUV = arccos (3/5)` (pitch `1`, wedge of half-width `π/4` between the radii `1/2` and
`5`). -/
theorem c8_offset_calibration_witness :
    (1 : ℝ) ≠ 0 ∧
    min (min (min
      ((MeasPlane1D.ctor (⟨Real.cos, Real.sin, Real.tan, fun y x => Complex.arg ⟨x, y⟩,
        Real.sqrt, Real.pi, fun v => v⟩ : TMath ℝ) (Real.pi / 4) (Real.pi / 4) (1 / 2) 5
        (Real.arccos (3 / 5)) 1).get1DMeasurement
        (⟨Real.cos, Real.sin, Real.tan, fun y x => Complex.arg ⟨x, y⟩,
        Real.sqrt, Real.pi, fun v => v⟩ : TMath ℝ) (1 / 2) (1 / 2 * Real.tan (Real.pi / 4)))
      ((MeasPlane1D.ctor (⟨Real.cos, Real.sin, Real.tan, fun y x => Complex.arg ⟨x, y⟩,
        Real.sqrt, Real.pi, fun v => v⟩ : TMath ℝ) (Real.pi / 4) (Real.pi / 4) (1 / 2) 5
        (Real.arccos (3 / 5)) 1).get1DMeasurement
        (⟨Real.cos, Real.sin, Real.tan, fun y x => Complex.arg ⟨x, y⟩,
        Real.sqrt, Real.pi, fun v => v⟩ : TMath ℝ) (1 / 2) (-(1 / 2) * Real.tan (Real.pi / 4))))
      ((MeasPlane1D.ctor (⟨Real.cos, Real.sin, Real.tan, fun y x => Complex.arg ⟨x, y⟩,
        Real.sqrt, Real.pi, fun v => v⟩ : TMath ℝ) (Real.pi / 4) (Real.pi / 4) (1 / 2) 5
        (Real.arccos (3 / 5)) 1).get1DMeasurement
        (⟨Real.cos, Real.sin, Real.tan, fun y x => Complex.arg ⟨x, y⟩,
        Real.sqrt, Real.pi, fun v => v⟩ : TMath ℝ) 5 (5 * Real.tan (Real.pi / 4))))
      ((MeasPlane1D.ctor (⟨Real.cos, Real.sin, Real.tan, fun y x => Complex.arg ⟨x, y⟩,
        Real.sqrt, Real.pi, fun v => v⟩ : TMath ℝ) (Real.pi / 4) (Real.pi / 4) (1 / 2) 5
        (Real.arccos (3 / 5)) 1).get1DMeasurement
        (⟨Real.cos, Real.sin, Real.tan, fun y x => Complex.arg ⟨x, y⟩,
        Real.sqrt, Real.pi, fun v => v⟩ : TMath ℝ) 5 (-5 * Real.tan (Real.pi / 4))) = 0 :=
  ⟨one_ne_zero, c8_offset_calibration
    (⟨Real.cos, Real.sin, Real.tan, fun y x => Complex.arg ⟨x, y⟩,
        Real.sqrt, Real.pi, fun v => v⟩ : TMath ℝ) (Real.pi / 4) (Real.pi / 4) (1 / 2) 5 (Real.arccos (3 / 5)) 1 one_ne_zero⟩

/-- C9 (hit lists restored): when `signalSectorID` is negative or an index of `sectors`,
`PrepareForTracking` returns and the sectors, hence each plane's hit list in every sector,
are equal to what they were before the call; the three `pop_back` at the end undo exactly
the three `emplace_back` of the signal hit at the beginning. -/
theorem c9_hit_lists_restored (T : TMath K)
    (sortBG : List (BgCluster K) → List (BgCluster K)) (st : KMCMSStation K)
    (h : st.signalSectorID < st.sectors.length) :
    (∃ st1, st.PrepareForTracking T sortBG = some st1 ∧ st1.sectors = st.sectors ∧
      st1.sectors.map (fun s => (s.stripPlaneU.hits, s.stripPlaneV.hits, s.wirePlaneW.hits)) =
        st.sectors.map (fun s => (s.stripPlaneU.hits, s.stripPlaneV.hits, s.wirePlaneW.hits))) ∧
    (∃ secs, st.signalHits true = some secs ∧
      KMCMSStation.signalHits { st with sectors := secs } false = some st.sectors) := by
  constructor
  · obtain ⟨st1, h1, h2⟩ := KMCMSStation.PrepareForTracking_sectors T sortBG st h
    exact ⟨st1, h1, h2, by rw [h2]⟩
  · unfold KMCMSStation.signalHits
    by_cases h0 : st.signalSectorID ≥ 0
    · have hlt : st.signalSectorID.toNat < st.sectors.length := by omega
      simp only [h0, if_true, KMCMSStation.sectorAt, ge_iff_le]
      simp [List.getElem?_eq_getElem hlt, List.getElem?_set_self hlt,
        KMCMSSector.popHits_pushHits, List.set_set]
      exact set_eq_self_of_getElem_some _ _ _ (List.getElem?_eq_getElem hlt)
    · simp [h0]

/-- Witness of C9: on `exampleSignalStation` (signal record in sector 0) the call returns
and the U hit list of sector 0, empty before, is empty again. -/
theorem c9_hit_lists_restored_witness :
    ((exampleSignalStation (⟨Real.cos, Real.sin, Real.tan, fun y x => Complex.arg ⟨x, y⟩, Real.sqrt, Real.pi, fun v => v⟩ :
        TMath ℝ)
      (Real.arccos (3 / 5))).PrepareForTracking
      (⟨Real.cos, Real.sin, Real.tan, fun y x => Complex.arg ⟨x, y⟩, Real.sqrt, Real.pi, fun v => v⟩ :
        TMath ℝ) id).map
        (fun st => st.sectors.map (fun s => s.stripPlaneU.hits.length)) =
      some [0, 0, 0, 0] := by
  obtain ⟨⟨st1, h1, h2, _⟩, _⟩ := c9_hit_lists_restored
    (⟨Real.cos, Real.sin, Real.tan, fun y x => Complex.arg ⟨x, y⟩, Real.sqrt, Real.pi, fun v => v⟩ :
        TMath ℝ) id
    (exampleSignalStation (⟨Real.cos, Real.sin, Real.tan, fun y x => Complex.arg ⟨x, y⟩, Real.sqrt, Real.pi, fun v => v⟩ :
        TMath ℝ)
      (Real.arccos (3 / 5)))
    (by simp [exampleSignalStation, exampleStation, emptyStation])
  rw [h1, Option.map_some', h2]
  simp only [exampleSignalStation, exampleStation, List.map_cons, List.map_nil,
    exampleSector_hitsU, List.length_nil]

/-- C10 (signal routing): for every accepted combination (V-W crossing inside the sector,
`chi2 ≤ 9`), with `lbl` the resolved label and `(xlab, ylab)` the sector-to-lab image of
the midpoint of the two crossings: if `lbl = -1` the iteration sets the `x`, `y` of the
truth cluster to `(xlab, ylab)` and registers no background cluster; otherwise it appends
exactly one background cluster `(xlab, ylab, z of the station, lbl)` and leaves the truth
cluster as it was. -/
theorem c10_signal_routing (T : TMath K) (sect : KMCMSSector K)
    (hitU hitW hitV : Hit K) (pUW : K × K) (l : KMCLayerFwd K)
    (hin : sect.toSector.isInside T (sect.crossVW T hitV hitW).1
      (sect.crossVW T hitV hitW).2 = true)
    (hchi : sect.chi2 (pUW.1 - (sect.crossVW T hitV hitW).1)
      (pUW.2 - (sect.crossVW T hitV hitW).2) ≤ 9) :
    (resolveLabel hitU.label hitV.label hitW.label = -1 →
      (sect.stepV T hitU hitW pUW l hitV).fClMC =
        { l.fClMC with
          x := (sect.toSector.sector2Lab T (0.5 * (pUW.1 + (sect.crossVW T hitV hitW).1))
            (0.5 * (pUW.2 + (sect.crossVW T hitV hitW).2))).1,
          y := (sect.toSector.sector2Lab T (0.5 * (pUW.1 + (sect.crossVW T hitV hitW).1))
            (0.5 * (pUW.2 + (sect.crossVW T hitV hitW).2))).2 } ∧
      (sect.stepV T hitU hitW pUW l hitV).fClBg = l.fClBg) ∧
    (resolveLabel hitU.label hitV.label hitW.label ≠ -1 →
      (sect.stepV T hitU hitW pUW l hitV).fClBg = l.fClBg ++
        [{ x := (sect.toSector.sector2Lab T (0.5 * (pUW.1 + (sect.crossVW T hitV hitW).1))
              (0.5 * (pUW.2 + (sect.crossVW T hitV hitW).2))).1,
           y := (sect.toSector.sector2Lab T (0.5 * (pUW.1 + (sect.crossVW T hitV hitW).1))
              (0.5 * (pUW.2 + (sect.crossVW T hitV hitW).2))).2,
           z := l.fZ,
           id := resolveLabel hitU.label hitV.label hitW.label }] ∧
      (sect.stepV T hitU hitW pUW l hitV).fClMC = l.fClMC) := by
  rw [KMCMSSector.stepV_accepted T sect hitU hitW hitV pUW l hin hchi]
  constructor
  · intro h
    simp [KMCLayerFwd.registerCoincidence, h]
  · intro h
    simp [KMCLayerFwd.registerCoincidence, h, KMCLayerFwd.AddBgCluster, KMCLayerFwd.GetZ]

/-- Witness of C10: in sector 0 of the station `exampleStation` with
`phiUV = arccos (3/5)`, the combination of the hits `U = 17/5`, `W = 1/2`, `V = 17/5`,
all of label `-1`, is accepted with label `-1`; no background cluster is registered for
it. -/
theorem c10_signal_routing_witness :
    ((exampleSector (⟨Real.cos, Real.sin, Real.tan, fun y x => Complex.arg ⟨x, y⟩, Real.sqrt, Real.pi, fun v => v⟩ :
        TMath ℝ)
      (Real.arccos (3 / 5)) 0).stepV
      (⟨Real.cos, Real.sin, Real.tan, fun y x => Complex.arg ⟨x, y⟩, Real.sqrt, Real.pi, fun v => v⟩ :
        TMath ℝ) ⟨17 / 5, -1⟩ ⟨1 / 2, -1⟩ (47 / 25, 159 / 100)
      (emptyStation ℝ).toKMCLayerFwd ⟨17 / 5, -1⟩).fClBg = [] :=
  ((c10_signal_routing
      (⟨Real.cos, Real.sin, Real.tan, fun y x => Complex.arg ⟨x, y⟩, Real.sqrt, Real.pi, fun v => v⟩ :
        TMath ℝ)
      (exampleSector (⟨Real.cos, Real.sin, Real.tan, fun y x => Complex.arg ⟨x, y⟩, Real.sqrt, Real.pi, fun v => v⟩ :
        TMath ℝ)
      (Real.arccos (3 / 5)) 0)
      ⟨17 / 5, -1⟩ ⟨1 / 2, -1⟩ ⟨17 / 5, -1⟩ (47 / 25, 159 / 100)
      (emptyStation ℝ).toKMCLayerFwd
      (by
        rw [exampleSector_crossVW, exampleSector_isInside]
        norm_num [abs_le])
      (by
        rw [exampleSector_crossVW, exampleSector_chi2]
        norm_num)).1 (by decide)).2

/-- C11 (result of `getSectorID`): on a station built by `init` (from a station without
sectors) with at least one angular sector and ascending radii (at least two), for every
lab point `(x, y)`: the angular index `a` of the point is in `[0, nSectors)`; with `s0` the
lowest sector of the angular sector `a` and `xl` the local radial coordinate of the point
in its frame, `getSectorID` returns `-1` if `xl < r[0]` or `xl ≥` the outermost radius, and
otherwise returns `a·nRadSegments + ir` for the smallest radial index `ir` with
`xl < r[ir+1]`; every returned `id ≥ 0` lies in `[a·nRadSegments, (a+1)·nRadSegments)` and
is the index of a sector with `rMin ≤ xl < rMax`. -/
theorem c11_sector_id_characterisation (T : TMath ℝ) (hT : T.IsReal) (st0 st : KMCMSStation ℝ)
    (nsect : Int) (r phiUV pitchUV phiW pitchW sigR sigRPhi : List ℝ) (h0 : st0.sectors = [])
    (hinit : st0.init T nsect r phiUV pitchUV phiW pitchW sigR sigRPhi = some st)
    (hn : 1 ≤ nsect) (hlen : 2 ≤ r.length) (hr : r.Sorted (· ≤ ·)) (rIn rOut : ℝ)
    (hin : r[0]? = some rIn) (hout : r.getLast? = some rOut) (x y : ℝ) :
    ∃ (a : Nat) (s0 : KMCMSSector ℝ), st.angularIndex T x y = a ∧ (a : Int) < st.nSectors ∧
      st.sectorAt ((a : Int) * st.nRadSegments) = some s0 ∧
      (((s0.toSector.rotate T x y).1 < rIn ∨ rOut ≤ (s0.toSector.rotate T x y).1) →
        st.getSectorID T x y = some (-1)) ∧
      (¬ ((s0.toSector.rotate T x y).1 < rIn ∨ rOut ≤ (s0.toSector.rotate T x y).1) →
        ∃ ir : Nat, (ir : Int) < st.nRadSegments ∧
          (∃ v, r[ir + 1]? = some v ∧ (s0.toSector.rotate T x y).1 < v) ∧
          (∀ (i : Nat) (v : ℝ), i < ir → r[i + 1]? = some v →
            v ≤ (s0.toSector.rotate T x y).1) ∧
          st.getSectorID T x y = some ((a : Int) * st.nRadSegments + ir)) ∧
      (∀ id : Int, st.getSectorID T x y = some id → 0 ≤ id →
        (a : Int) * st.nRadSegments ≤ id ∧ id < ((a : Int) + 1) * st.nRadSegments ∧
        ∃ s, st.sectorAt id = some s ∧ s.rMin ≤ (s.toSector.rotate T x y).1 ∧
          (s.toSector.rotate T x y).1 < s.rMax) := by
  obtain ⟨hd, hN, _, hR, _, _, _⟩ := KMCMSStation.init_spec T st0 st nsect r phiUV pitchUV phiW
    pitchW sigR sigRPhi h0 hinit
  have hnn : nsect = (nsect.toNat : Int) := (Int.toNat_of_nonneg (by omega)).symm
  have hcast : (nsect : ℝ) = (nsect.toNat : ℝ) := by
    conv_lhs => rw [hnn]
    exact Int.cast_natCast _
  obtain ⟨hi0, hi1⟩ := KMCMSStation.angularIndex_range T hT st nsect.toNat (by omega)
    (by rw [hd, hcast]) (by rw [hN]; exact hnn) x y
  have hia : st.angularIndex T x y = ((st.angularIndex T x y).toNat : Int) :=
    (Int.toNat_of_nonneg hi0).symm
  have hrad : 0 < st.nRadSegments := by omega
  have halt : ((st.angularIndex T x y).toNat : Int) < nsect := by omega
  obtain ⟨s, r0, r1, hs, hr0, _, hphi, _, _, _⟩ := KMCMSStation.grid_sector T st0 st nsect r
    phiUV pitchUV phiW pitchW sigR sigRPhi h0 hinit (st.angularIndex T x y).toNat 0
    halt (by simpa using hrad)
  simp only [Nat.cast_zero, add_zero] at hs
  have hr0In : r0 = rIn := Option.some.inj (hr0.symm.trans hin)
  have hlast : r[r.length - 1]? = some rOut := by
    rw [← List.getLast?_eq_getElem?]; exact hout
  have hcases := KMCMSStation.getSectorID_grid_cases T st0 st nsect r phiUV pitchUV phiW pitchW
    sigR sigRPhi h0 hinit x y (st.angularIndex T x y).toNat halt hrad hia
  refine ⟨(st.angularIndex T x y).toNat, s, hia, by rw [hN]; exact halt, hs, ?_, ?_, ?_⟩
  · simp only [Sector.rotate, hphi]
    intro hout2
    rcases hcases with ⟨hm, _⟩ | ⟨j, hj, _, hlow, v, hv, hxv⟩
    · exact hm
    · exfalso
      rcases hout2 with hlt | hge
      · have := hlow 0 rIn (by omega) hin
        linarith
      · have hjl : j + 1 < r.length := (List.getElem?_eq_some.mp hv).1
        have := sorted_le_of_getElem_some r hr (j + 1) (r.length - 1) (by omega) v rOut hv hlast
        linarith
  · simp only [Sector.rotate, hphi]
    intro hnot
    rw [not_or, not_lt, not_le] at hnot
    rcases hcases with ⟨_, ⟨r0b, hr0b, hlt⟩ | hall⟩ | ⟨j, hj, hget, hlow, v, hv, hxv⟩
    · exfalso
      rw [hin] at hr0b
      rw [← Option.some.inj hr0b] at hlt
      linarith [hnot.1]
    · exfalso
      have := hall (r.length - 2) rOut (by omega)
        (by rw [show r.length - 2 + 1 = r.length - 1 by omega]; exact hlast)
      linarith [hnot.2]
    · refine ⟨j, hj, ⟨v, hv, hxv⟩, ?_, hget⟩
      intro i w hi hw
      exact hlow (i + 1) w (by omega) hw
  · intro id hid hid0
    rcases hcases with ⟨hm, _⟩ | ⟨j, hj, hget, hlow, v, hv, hxv⟩
    · rw [hm] at hid
      have := Option.some.inj hid
      omega
    · rw [hget] at hid
      have hidj := Option.some.inj hid
      obtain ⟨sj, q0, q1, hsj, hq0, hq1, hphij, _, hminj, hmaxj⟩ := KMCMSStation.grid_sector T
        st0 st nsect r phiUV pitchUV phiW pitchW sigR sigRPhi h0 hinit
        (st.angularIndex T x y).toNat j halt hj
      rw [hidj] at hsj
      refine ⟨by omega, by rw [← hidj]; linarith, sj, hsj, ?_, ?_⟩
      · simp only [Sector.rotate, hphij, hminj]
        exact hlow j q0 le_rfl hq0
      · simp only [Sector.rotate, hphij, hmaxj]
        rw [hv] at hq1
        rw [← Option.some.inj hq1]
        exact hxv

/-- Witness of C11: on `exampleStation` (4 angular sectors, radii `[1/2, 5]`), the lab
point `(3, 1)` has an angular index `a < 4` and the angular sector `a` has a lowest
sector. -/
theorem c11_sector_id_characterisation_witness :
    ∃ (a : Nat) (s0 : KMCMSSector ℝ), (exampleStation (⟨Real.cos, Real.sin, Real.tan, fun y x => Complex.arg ⟨x, y⟩, Real.sqrt, Real.pi, fun v => v⟩ :
        TMath ℝ)
      (Real.arccos (3 / 5))).angularIndex (⟨Real.cos, Real.sin, Real.tan, fun y x => Complex.arg ⟨x, y⟩, Real.sqrt, Real.pi, fun v => v⟩ :
        TMath ℝ) 3 1 = a ∧
      (a : Int) < (exampleStation (⟨Real.cos, Real.sin, Real.tan, fun y x => Complex.arg ⟨x, y⟩, Real.sqrt, Real.pi, fun v => v⟩ :
        TMath ℝ)
      (Real.arccos (3 / 5))).nSectors ∧
      (exampleStation (⟨Real.cos, Real.sin, Real.tan, fun y x => Complex.arg ⟨x, y⟩, Real.sqrt, Real.pi, fun v => v⟩ :
        TMath ℝ)
      (Real.arccos (3 / 5))).sectorAt ((a : Int) * (exampleStation (⟨Real.cos, Real.sin, Real.tan, fun y x => Complex.arg ⟨x, y⟩, Real.sqrt, Real.pi, fun v => v⟩ :
        TMath ℝ)
      (Real.arccos (3 / 5))).nRadSegments) = some s0 := by
  obtain ⟨a, s0, h1, h2, h3, _⟩ := c11_sector_id_characterisation (⟨Real.cos, Real.sin, Real.tan, fun y x => Complex.arg ⟨x, y⟩, Real.sqrt, Real.pi, fun v => v⟩ :
        TMath ℝ)
    ⟨rfl, rfl, rfl, fun _ _ => rfl, rfl, rfl, fun _ _ h => h, rfl, rfl⟩ (emptyStation ℝ) _ 4 [1 / 2, 5]
    [Real.arccos (3 / 5)] [1] [0] [1] [3 / 5] [3 / 5] rfl
    (exampleStation_init _ (Real.arccos (3 / 5))) (by norm_num) (by simp)
    (by simp; norm_num) (1 / 2) 5 (by simp) (by simp) 3 1
  exact ⟨a, s0, h1, h2, h3⟩

/-- C12 (a failed `AddCluster` records nothing): for every station state, every input
`(x, y, z, id, isBG)` and every pair of samples `rx`, `ry`, if `AddCluster` returns `false`
then the sectors, hence every plane's hit list in every sector, are those before the call,
and the collection of background clusters of the truth sink is the one before the call. -/
theorem c12_failed_digitize_records_nothing [FloorRing K] (T : TMath K) (st : KMCMSStation K)
    (x y z : K) (id : Int) (isBG : Bool) (rx ry : K) (st1 : KMCMSStation K)
    (h : st.AddCluster T x y z id isBG rx ry = some (false, st1)) :
    st1.sectors = st.sectors ∧
    st1.sectors.map (fun s => (s.stripPlaneU.hits, s.stripPlaneV.hits, s.wirePlaneW.hits)) =
      st.sectors.map (fun s => (s.stripPlaneU.hits, s.stripPlaneV.hits, s.wirePlaneW.hits)) ∧
    st1.fClBg = st.fClBg := by
  rcases KMCMSStation.AddCluster_result T st x y z id isBG rx ry false st1 h with
    ⟨_, hst⟩ | ⟨_, _, _, _, _, _, _, _, _, _, _, _, _, hres, _⟩
  · subst hst
    cases isBG <;> exact ⟨rfl, rfl, rfl⟩
  · exact absurd hres (by decide)

/-- Witness of C12: on `exampleSignalStation`, a background `AddCluster` at the lab point
at the distance `1/4` on the bisector of sector 0, below the inner radius `1/2`, returns
`false`; the sectors and the background collection are unchanged. -/
theorem c12_failed_digitize_records_nothing_witness :
    ∃ st1, (exampleSignalStation (⟨Real.cos, Real.sin, Real.tan, fun y x => Complex.arg ⟨x, y⟩, Real.sqrt, Real.pi, fun v => v⟩ :
        TMath ℝ)
      (Real.arccos (3 / 5))).AddCluster (⟨Real.cos, Real.sin, Real.tan, fun y x => Complex.arg ⟨x, y⟩, Real.sqrt, Real.pi, fun v => v⟩ :
        TMath ℝ) (1 / 4 * (Real.sqrt 2 / 2)) (1 / 4 * (Real.sqrt 2 / 2)) 0 8
        true 0 0 = some (false, st1) ∧
      st1.sectors = (exampleSignalStation (⟨Real.cos, Real.sin, Real.tan, fun y x => Complex.arg ⟨x, y⟩, Real.sqrt, Real.pi, fun v => v⟩ :
        TMath ℝ)
      (Real.arccos (3 / 5))).sectors ∧ st1.fClBg = (exampleSignalStation (⟨Real.cos, Real.sin, Real.tan, fun y x => Complex.arg ⟨x, y⟩, Real.sqrt, Real.pi, fun v => v⟩ :
        TMath ℝ)
      (Real.arccos (3 / 5))).fClBg := by
  have hget : (exampleSignalStation (⟨Real.cos, Real.sin, Real.tan, fun y x => Complex.arg ⟨x, y⟩, Real.sqrt, Real.pi, fun v => v⟩ :
        TMath ℝ)
      (Real.arccos (3 / 5))).getSectorID (⟨Real.cos, Real.sin, Real.tan, fun y x => Complex.arg ⟨x, y⟩, Real.sqrt, Real.pi, fun v => v⟩ :
        TMath ℝ) (1 / 4 * (Real.sqrt 2 / 2)) (1 / 4 * (Real.sqrt 2 / 2)) =
      some (-1) := by
    rw [KMCMSStation.getSectorID_congr (⟨Real.cos, Real.sin, Real.tan, fun y x => Complex.arg ⟨x, y⟩, Real.sqrt, Real.pi, fun v => v⟩ :
        TMath ℝ) (exampleSignalStation (⟨Real.cos, Real.sin, Real.tan, fun y x => Complex.arg ⟨x, y⟩, Real.sqrt, Real.pi, fun v => v⟩ :
        TMath ℝ)
      (Real.arccos (3 / 5))) (exampleStation (⟨Real.cos, Real.sin, Real.tan, fun y x => Complex.arg ⟨x, y⟩, Real.sqrt, Real.pi, fun v => v⟩ :
        TMath ℝ)
      (Real.arccos (3 / 5))) rfl rfl rfl rfl,
      exampleStation_getSectorID_diag _ (1 / 4) (by norm_num), if_pos (by norm_num)]
  obtain ⟨st1, h1⟩ := KMCMSStation.AddCluster_outside (⟨Real.cos, Real.sin, Real.tan, fun y x => Complex.arg ⟨x, y⟩, Real.sqrt, Real.pi, fun v => v⟩ :
        TMath ℝ) (exampleSignalStation (⟨Real.cos, Real.sin, Real.tan, fun y x => Complex.arg ⟨x, y⟩, Real.sqrt, Real.pi, fun v => v⟩ :
        TMath ℝ)
      (Real.arccos (3 / 5))) (1 / 4 * (Real.sqrt 2 / 2))
    (1 / 4 * (Real.sqrt 2 / 2)) 0 8 true 0 0 (-1) hget (by norm_num)
  have h := c12_failed_digitize_records_nothing (⟨Real.cos, Real.sin, Real.tan, fun y x => Complex.arg ⟨x, y⟩, Real.sqrt, Real.pi, fun v => v⟩ :
        TMath ℝ) _ _ _ 0 8 true 0 0 st1 h1
  exact ⟨st1, h1, h.1, h.2.2⟩

/-- C13 (successful background `AddCluster`): when `AddCluster` with `isBG = true` returns
`true`, there is one sector `sect`, at an index `i` of `sectors`, such that: the projection
`getUVW` of the smeared point by `sect` succeeds with channels `(U, V, W)`; after the call
the sector at index `i` is `sect` with the hit `(U, id)` appended to the end of its U hit
list, `(V, id)` to its V hit list and `(W, id)` to its W hit list; the sectors at all
other indices, and the number of sectors, are unchanged; and when `getSectorID` of the
smeared point is a sector (`≥ 0`), `i` is that sector. -/
theorem c13_background_digitize [FloorRing K] (T : TMath K) (st : KMCMSStation K)
    (x y z : K) (id : Int) (rx ry : K) (st1 : KMCMSStation K)
    (h : st.AddCluster T x y z id true rx ry = some (true, st1)) :
    ∃ (sid0 : Int) (sect0 : KMCMSSector K) (i : Nat) (sect : KMCMSSector K) (U V W : K),
      st.getSectorID T x y = some sid0 ∧ st.sectorAt sid0 = some sect0 ∧
      st.sectors[i]? = some sect ∧
      sect.getUVW T (sect0.smear T x y rx ry).1 (sect0.smear T x y rx ry).2 = some (U, V, W) ∧
      st1.sectors.length = st.sectors.length ∧
      st1.sectors[i]? = some (sect.pushHits U V W id) ∧
      (sect.pushHits U V W id).stripPlaneU.hits = sect.stripPlaneU.hits ++ [⟨U, id⟩] ∧
      (sect.pushHits U V W id).stripPlaneV.hits = sect.stripPlaneV.hits ++ [⟨V, id⟩] ∧
      (sect.pushHits U V W id).wirePlaneW.hits = sect.wirePlaneW.hits ++ [⟨W, id⟩] ∧
      (∀ j : Nat, j ≠ i → st1.sectors[j]? = st.sectors[j]?) ∧
      (∀ sid : Int,
        st.getSectorID T (sect0.smear T x y rx ry).1 (sect0.smear T x y rx ry).2 = some sid →
        0 ≤ sid → sid = i) := by
  rcases KMCMSStation.AddCluster_result T st x y z id true rx ry true st1 h with
    ⟨hres, _⟩ | ⟨sid0, sid, sect0, sect, U, V, W, h1, _, h2, h3, h4, h5, _, hst⟩
  · exact absurd hres (by decide)
  · obtain ⟨hi0, hi⟩ := KMCMSStation.sectorAt_some st _ sect h4
    have hlt := (List.getElem?_eq_some.mp hi).1
    simp only [Bool.not_true, Bool.false_eq_true, if_false] at hst
    have hsec : st1.sectors = st.sectors.set (if sid ≥ 0 then sid else sid0).toNat
        (sect.pushHits U V W id) := by rw [hst]
    refine ⟨sid0, sect0, (if sid ≥ 0 then sid else sid0).toNat, sect, U, V, W, h1, h2, hi, h5,
      ?_, ?_, rfl, rfl, rfl, ?_, ?_⟩
    · rw [hsec, List.length_set]
    · rw [hsec, List.getElem?_set_self hlt]
    · intro j hj
      rw [hsec, List.getElem?_set_ne (Ne.symm hj)]
    · intro sid2 hs2 hs0
      rw [h3] at hs2
      have := Option.some.inj hs2
      subst this
      rw [if_pos hs0]
      exact (Int.toNat_of_nonneg hs0).symm

/-- Witness of C13: on `exampleStation` with `phiUV = arccos (3/5)`, a background
`AddCluster` with label `8` at the lab point at the distance `2` on the bisector of
sector 0, with the samples `rx = 0`, `ry = 5/3` (smeared point at the distance `3`),
returns `true` and appends the hits `(14/5, 8)`, `(14/5, 8)`, `(5/2, 8)` to the U, V and W
hit lists of sector 0. -/
theorem c13_background_digitize_witness :
    ∃ st1, (exampleStation (⟨Real.cos, Real.sin, Real.tan, fun y x => Complex.arg ⟨x, y⟩, Real.sqrt, Real.pi, fun v => v⟩ :
        TMath ℝ)
      (Real.arccos (3 / 5))).AddCluster (⟨Real.cos, Real.sin, Real.tan, fun y x => Complex.arg ⟨x, y⟩, Real.sqrt, Real.pi, fun v => v⟩ :
        TMath ℝ) (2 * (Real.sqrt 2 / 2)) (2 * (Real.sqrt 2 / 2)) 0 8 true 0
        (5 / 3) = some (true, st1) ∧
      st1.sectors.length = (exampleStation (⟨Real.cos, Real.sin, Real.tan, fun y x => Complex.arg ⟨x, y⟩, Real.sqrt, Real.pi, fun v => v⟩ :
        TMath ℝ)
      (Real.arccos (3 / 5))).sectors.length ∧
      st1.sectors[0]? = some ((exampleSector (⟨Real.cos, Real.sin, Real.tan, fun y x => Complex.arg ⟨x, y⟩, Real.sqrt, Real.pi, fun v => v⟩ :
        TMath ℝ)
      (Real.arccos (3 / 5)) 0).pushHits (14 / 5) (14 / 5) (5 / 2) 8) := by
  obtain ⟨st1, h1, _, _, _, h2⟩ := exampleStation_AddCluster_diag (exampleStation (⟨Real.cos, Real.sin, Real.tan, fun y x => Complex.arg ⟨x, y⟩, Real.sqrt, Real.pi, fun v => v⟩ :
        TMath ℝ)
      (Real.arccos (3 / 5))) rfl rfl rfl rfl 2 (5 / 3)
    0 8 true (by norm_num) (by norm_num) (by norm_num) (by norm_num)
  obtain ⟨_, _, _, _, _, _, _, _, _, _, _, hlen, _⟩ := c13_background_digitize (⟨Real.cos, Real.sin, Real.tan, fun y x => Complex.arg ⟨x, y⟩, Real.sqrt, Real.pi, fun v => v⟩ :
        TMath ℝ) (exampleStation (⟨Real.cos, Real.sin, Real.tan, fun y x => Complex.arg ⟨x, y⟩, Real.sqrt, Real.pi, fun v => v⟩ :
        TMath ℝ)
      (Real.arccos (3 / 5))) _ _ 0 8 0
    (5 / 3) st1 h1
  refine ⟨st1, h1, hlen, ?_⟩
  rw [(h2 rfl).2]
  simp only [exampleStation, List.map_cons, List.set_cons_zero, List.getElem?_cons_zero]
  norm_num

/-- C14 (sector grid layout): for `nsect ≥ 1`, a list `r` of `n ≥ 1` radii and parameter
lists of length `n - 1`, the call of `init` on a station without sectors returns; the
station then holds exactly `nsect·(n - 1)` sectors, and for every angular index
`a < nsect` and radial index `ir < n - 1` the sector at index `a·(n - 1) + ir` is the one
constructed with centre azimuth `(a + 0.5)·2π/nsect`, half-width `π/nsect`,
`rMin = r[ir]`, `rMax = r[ir+1]` and the `ir`-th entries of `phiUV`, `pitchUV`, `phiW`,
`pitchW`, `sigR`, `sigRPhi`; its plane V has the angle `-phiUV[ir]`. -/
theorem c14_sector_grid_layout (T : TMath K) (st0 : KMCMSStation K) (nsect : Int)
    (r phiUV pitchUV phiW pitchW sigR sigRPhi : List K) (h0 : st0.sectors = [])
    (hn : 1 ≤ nsect) (hlen : 1 ≤ r.length)
    (h1 : phiUV.length = r.length - 1) (h2 : pitchUV.length = r.length - 1)
    (h3 : phiW.length = r.length - 1) (h4 : pitchW.length = r.length - 1)
    (h5 : sigR.length = r.length - 1) (h6 : sigRPhi.length = r.length - 1) :
    ∃ st, st0.init T nsect r phiUV pitchUV phiW pitchW sigR sigRPhi = some st ∧
      (st.sectors.length : Int) = nsect * ((r.length : Int) - 1) ∧
      ∀ a ir : Nat, (a : Int) < nsect → ir < r.length - 1 →
        ∃ (s : KMCMSSector K) (r0 r1 va vb vc vd ve vf : K),
          st.sectors[a * (r.length - 1) + ir]? = some s ∧
          r[ir]? = some r0 ∧ r[ir + 1]? = some r1 ∧ phiUV[ir]? = some va ∧
          pitchUV[ir]? = some vb ∧ phiW[ir]? = some vc ∧ pitchW[ir]? = some vd ∧
          sigR[ir]? = some ve ∧ sigRPhi[ir]? = some vf ∧
          s = KMCMSSector.ctor T (((a : K) + 0.5) * (T.Pi * 2 / (nsect : K)))
            (0.5 * (T.Pi * 2 / (nsect : K))) r0 r1 va vb vc vd ve vf ∧
          s.phi0 = ((a : K) + 0.5) * 2 * T.Pi / (nsect : K) ∧ s.dphiH = T.Pi / (nsect : K) ∧
          s.rMin = r0 ∧ s.rMax = r1 ∧
          s.stripPlaneU.measAngle = va ∧ s.stripPlaneV.measAngle = -va ∧
          s.wirePlaneW.measAngle = vc ∧
          s.stripPlaneU.pitch = vb ∧ s.stripPlaneV.pitch = vb ∧ s.wirePlaneW.pitch = vd ∧
          s.sigR = ve ∧ s.sigRPhi = vf := by
  have _ := hn
  obtain ⟨st, hst⟩ := KMCMSStation.init_total T st0 nsect r phiUV pitchUV phiW pitchW sigR
    sigRPhi hlen (by omega) (by omega) (by omega) (by omega) (by omega) (by omega)
  obtain ⟨hd, _, _, hR, _, hl, hgrid⟩ := KMCMSStation.init_spec T st0 st nsect r phiUV pitchUV
    phiW pitchW sigR sigRPhi h0 hst
  have hnr : st.nRadSegments.toNat = r.length - 1 := by rw [hR]; omega
  rw [hnr] at hl hgrid
  refine ⟨st, hst, ?_, ?_⟩
  · rw [hl]
    push_cast
    rw [Int.toNat_of_nonneg (by omega), Nat.cast_sub hlen]
    simp
  · intro a ir ha hir
    obtain ⟨s, hs, hseg⟩ := hgrid a ir (by omega) hir
    obtain ⟨r0, r1, va, vb, vc, vd, ve, vf, e0, e1, e2, e3, e4, e5, e6, e7, hctor⟩ :=
      initSegment_some T _ _ r phiUV pitchUV phiW pitchW sigR sigRPhi ir s hseg
    rw [hd] at hctor
    refine ⟨s, r0, r1, va, vb, vc, vd, ve, vf, hs, e0, e1, e2, e3, e4, e5, e6, e7, hctor,
      ?_, ?_, ?_, ?_, ?_, ?_, ?_, ?_, ?_, ?_, ?_, ?_⟩
    · rw [hctor]
      show ((a : K) + 0.5) * (T.Pi * 2 / (nsect : K)) = ((a : K) + 0.5) * 2 * T.Pi / (nsect : K)
      ring
    · rw [hctor]
      show 0.5 * (T.Pi * 2 / (nsect : K)) = T.Pi / (nsect : K)
      norm_num
      ring
    all_goals rw [hctor]; rfl

/-- Witness of C14: `init` with 4 angular sectors, the radii `[1/2, 5]` and one entry per
parameter list returns a station of `4·(2 - 1)` sectors. -/
theorem c14_sector_grid_layout_witness :
    ∃ st, (emptyStation ℝ).init (⟨Real.cos, Real.sin, Real.tan, fun y x => Complex.arg ⟨x, y⟩, Real.sqrt, Real.pi, fun v => v⟩ :
        TMath ℝ) 4 [1 / 2, 5] [Real.arccos (3 / 5)] [1] [0] [1] [3 / 5]
        [3 / 5] = some st ∧
      (st.sectors.length : Int) = 4 * (2 - 1) := by
  obtain ⟨st, h1, h2, _⟩ := c14_sector_grid_layout (⟨Real.cos, Real.sin, Real.tan, fun y x => Complex.arg ⟨x, y⟩, Real.sqrt, Real.pi, fun v => v⟩ :
        TMath ℝ) (emptyStation ℝ) 4 [1 / 2, 5]
    [Real.arccos (3 / 5)] [1] [0] [1] [3 / 5] [3 / 5] rfl (by norm_num) (by simp) rfl rfl rfl
    rfl rfl rfl
  exact ⟨st, h1, by simpa using h2⟩

/-- C15 (channels are non-negative inside the wedge): for a plane built by the constructor
with a pitch `> 0`, and every sector-local point `(xl, yl)` inside the frame of the plane
(`rMin ≤ xl ≤ rMax` and `|yl| ≤ xl·tan dphiH`), the channel
`(xl·cos θ + yl·sin θ)/pitch − offset` is `≥ 0`. -/
theorem c15_channel_nonneg_in_wedge (T : TMath K)
    (phiSector dphih rmin rmax phiMeas ptc : K) (hp : 0 < ptc) (xl yl : K)
    (hin : (MeasPlane1D.ctor T phiSector dphih rmin rmax phiMeas ptc).toSector.isInside T
      xl yl = true) :
    0 ≤ (MeasPlane1D.ctor T phiSector dphih rmin rmax phiMeas ptc).get1DMeasurement T xl yl := by
  have _ := hp
  simp only [MeasPlane1D.ctor, Sector.isInside, Bool.and_eq_true, decide_eq_true_eq] at hin
  obtain ⟨⟨h1, h2⟩, h3⟩ := hin
  have h := wedge_min_corner (T.Cos phiMeas / ptc) (T.Sin phiMeas / ptc) (T.Tan dphih) rmin rmax
    xl yl h1 h2 h3
  simp only [MeasPlane1D.ctor, MeasPlane1D.get1DMeasurement, sub_zero, sub_nonneg]
  have e : ∀ u v : K, (u * T.Cos phiMeas + v * T.Sin phiMeas) / ptc =
      u * (T.Cos phiMeas / ptc) + v * (T.Sin phiMeas / ptc) := by
    intro u v
    ring
  rw [e, e, e, e, e]
  exact h

/-- Witness of C15: the U plane of sector 0 of `exampleStation` with
`phiUV = arccos (3/5)` (pitch `1`) and the sector-local point `(2, 1)` of its wedge. -/
theorem c15_channel_nonneg_in_wedge_witness :
    0 ≤ (MeasPlane1D.ctor (⟨Real.cos, Real.sin, Real.tan, fun y x => Complex.arg ⟨x, y⟩, Real.sqrt, Real.pi, fun v => v⟩ :
        TMath ℝ) (Real.pi / 4) (Real.pi / 4) (1 / 2) 5 (Real.arccos (3 / 5))
      1).get1DMeasurement (⟨Real.cos, Real.sin, Real.tan, fun y x => Complex.arg ⟨x, y⟩, Real.sqrt, Real.pi, fun v => v⟩ :
        TMath ℝ) 2 1 :=
  c15_channel_nonneg_in_wedge (⟨Real.cos, Real.sin, Real.tan, fun y x => Complex.arg ⟨x, y⟩, Real.sqrt, Real.pi, fun v => v⟩ :
        TMath ℝ) (Real.pi / 4) (Real.pi / 4) (1 / 2) 5 (Real.arccos (3 / 5)) 1
    one_pos 2 1 (by
      simp only [MeasPlane1D.ctor, Sector.isInside, Real.tan_pi_div_four]
      norm_num [abs_le])

/-- C16 (reconstructed points stay in their sector): in `PrepareForTracking`, for a U, a W
and a V hit of a sector `sect`, the iteration registers nothing when the U-W crossing is
outside the sector, when the V-W crossing is outside the sector, or when `chi2 > 9`;
otherwise it registers the coincidence at the image by `sector2Lab` of the midpoint of the
two crossings, and this midpoint satisfies `isInside` of `sect`. -/
theorem c16_midpoint_inside (T : TMath K) (sect : KMCMSSector K) (hitU hitW hitV : Hit K)
    (l : KMCLayerFwd K) :
    (sect.toSector.isInside T (sect.crossUW T hitU hitW).1 (sect.crossUW T hitU hitW).2 = false →
      sect.stepW T hitU l hitW = l) ∧
    (sect.toSector.isInside T (sect.crossVW T hitV hitW).1 (sect.crossVW T hitV hitW).2 = false →
      sect.stepV T hitU hitW (sect.crossUW T hitU hitW) l hitV = l) ∧
    (9 < sect.chi2 ((sect.crossUW T hitU hitW).1 - (sect.crossVW T hitV hitW).1)
        ((sect.crossUW T hitU hitW).2 - (sect.crossVW T hitV hitW).2) →
      sect.stepV T hitU hitW (sect.crossUW T hitU hitW) l hitV = l) ∧
    (sect.toSector.isInside T (sect.crossUW T hitU hitW).1 (sect.crossUW T hitU hitW).2 = true →
      sect.toSector.isInside T (sect.crossVW T hitV hitW).1 (sect.crossVW T hitV hitW).2 = true →
      sect.chi2 ((sect.crossUW T hitU hitW).1 - (sect.crossVW T hitV hitW).1)
        ((sect.crossUW T hitU hitW).2 - (sect.crossVW T hitV hitW).2) ≤ 9 →
      sect.stepV T hitU hitW (sect.crossUW T hitU hitW) l hitV =
        l.registerCoincidence
          (sect.toSector.sector2Lab T
            (0.5 * ((sect.crossUW T hitU hitW).1 + (sect.crossVW T hitV hitW).1))
            (0.5 * ((sect.crossUW T hitU hitW).2 + (sect.crossVW T hitV hitW).2))).1
          (sect.toSector.sector2Lab T
            (0.5 * ((sect.crossUW T hitU hitW).1 + (sect.crossVW T hitV hitW).1))
            (0.5 * ((sect.crossUW T hitU hitW).2 + (sect.crossVW T hitV hitW).2))).2
          (resolveLabel hitU.label hitV.label hitW.label) ∧
      sect.toSector.isInside T
        (0.5 * ((sect.crossUW T hitU hitW).1 + (sect.crossVW T hitV hitW).1))
        (0.5 * ((sect.crossUW T hitU hitW).2 + (sect.crossVW T hitV hitW).2)) = true) := by
  refine ⟨?_, ?_, ?_, ?_⟩
  · intro h
    simp [KMCMSSector.stepW, h]
  · intro h
    simp [KMCMSSector.stepV, h]
  · intro h
    unfold KMCMSSector.stepV
    simp only [gt_iff_lt, h, if_true]
    split <;> rfl
  · intro hU hV hchi
    exact ⟨KMCMSSector.stepV_accepted T sect hitU hitW hitV _ l hV hchi,
      Sector.isInside_midpoint T sect.toSector _ _ _ _ hU hV⟩

/-- Witness of C16: in sector 0 of the station `exampleStation` with
`phiUV = arccos (3/5)`, the U hit `(17/5, 1)`, the W hit `(1/2, 2)` and the V hit
`(17/5, 1)` have their crossings `(47/25, ±159/100)` inside the sector and `chi2 ≤ 9`; the
midpoint of the crossings is inside the sector. -/
theorem c16_midpoint_inside_witness :
    (exampleSector (⟨Real.cos, Real.sin, Real.tan, fun y x => Complex.arg ⟨x, y⟩, Real.sqrt, Real.pi, fun v => v⟩ :
        TMath ℝ)
      (Real.arccos (3 / 5)) 0).toSector.isInside (⟨Real.cos, Real.sin, Real.tan, fun y x => Complex.arg ⟨x, y⟩, Real.sqrt, Real.pi, fun v => v⟩ :
        TMath ℝ)
      (0.5 * (((exampleSector (⟨Real.cos, Real.sin, Real.tan, fun y x => Complex.arg ⟨x, y⟩, Real.sqrt, Real.pi, fun v => v⟩ :
        TMath ℝ)
      (Real.arccos (3 / 5)) 0).crossUW (⟨Real.cos, Real.sin, Real.tan, fun y x => Complex.arg ⟨x, y⟩, Real.sqrt, Real.pi, fun v => v⟩ :
        TMath ℝ) ⟨17 / 5, 1⟩ ⟨1 / 2, 2⟩).1 +
        ((exampleSector (⟨Real.cos, Real.sin, Real.tan, fun y x => Complex.arg ⟨x, y⟩, Real.sqrt, Real.pi, fun v => v⟩ :
        TMath ℝ)
      (Real.arccos (3 / 5)) 0).crossVW (⟨Real.cos, Real.sin, Real.tan, fun y x => Complex.arg ⟨x, y⟩, Real.sqrt, Real.pi, fun v => v⟩ :
        TMath ℝ) ⟨17 / 5, 1⟩ ⟨1 / 2, 2⟩).1))
      (0.5 * (((exampleSector (⟨Real.cos, Real.sin, Real.tan, fun y x => Complex.arg ⟨x, y⟩, Real.sqrt, Real.pi, fun v => v⟩ :
        TMath ℝ)
      (Real.arccos (3 / 5)) 0).crossUW (⟨Real.cos, Real.sin, Real.tan, fun y x => Complex.arg ⟨x, y⟩, Real.sqrt, Real.pi, fun v => v⟩ :
        TMath ℝ) ⟨17 / 5, 1⟩ ⟨1 / 2, 2⟩).2 +
        ((exampleSector (⟨Real.cos, Real.sin, Real.tan, fun y x => Complex.arg ⟨x, y⟩, Real.sqrt, Real.pi, fun v => v⟩ :
        TMath ℝ)
      (Real.arccos (3 / 5)) 0).crossVW (⟨Real.cos, Real.sin, Real.tan, fun y x => Complex.arg ⟨x, y⟩, Real.sqrt, Real.pi, fun v => v⟩ :
        TMath ℝ) ⟨17 / 5, 1⟩ ⟨1 / 2, 2⟩).2)) = true :=
  ((c16_midpoint_inside (⟨Real.cos, Real.sin, Real.tan, fun y x => Complex.arg ⟨x, y⟩, Real.sqrt, Real.pi, fun v => v⟩ :
        TMath ℝ) (exampleSector (⟨Real.cos, Real.sin, Real.tan, fun y x => Complex.arg ⟨x, y⟩, Real.sqrt, Real.pi, fun v => v⟩ :
        TMath ℝ)
      (Real.arccos (3 / 5)) 0) ⟨17 / 5, 1⟩ ⟨1 / 2, 2⟩ ⟨17 / 5, 1⟩
      (emptyStation ℝ).toKMCLayerFwd).2.2.2
    (by
      rw [exampleSector_crossUW, exampleSector_isInside]
      norm_num [abs_le])
    (by
      rw [exampleSector_crossVW, exampleSector_isInside]
      norm_num [abs_le])
    (by
      rw [exampleSector_crossUW, exampleSector_crossVW, exampleSector_chi2]
      norm_num)).2

/-- C17 (lifetime of the signal record): the first statements of `AddCluster` invalidate
the signal record (`signalSectorID = -1`); after a call that is a background call or
returns `false`, whatever the station was before, the signal record is invalid and
`PrepareForTracking` injects no signal hit: it scans the sectors and their hit lists as
they are; and a valid signal record after the call (`signalSectorID ≠ -1`) means that the
call was a signal call that returned `true`. -/
theorem c17_signal_record_lifetime [FloorRing K] (T : TMath K) (st : KMCMSStation K)
    (x y z : K) (id : Int) (isBG : Bool) (rx ry : K) (res : Bool) (st1 : KMCMSStation K)
    (h : st.AddCluster T x y z id isBG rx ry = some (res, st1)) :
    (st.invalidated isBG).signalSectorID = -1 ∧
    ((isBG = true ∨ res = false) →
      st1.signalSectorID = -1 ∧ st1.signalHits true = some st1.sectors ∧
      ∀ sortBG : List (BgCluster K) → List (BgCluster K),
        st1.PrepareForTracking T sortBG =
          some { st1 with
            toKMCLayerFwd := KMCLayerFwd.SortBGClusters sortBG
              (st1.sectors.foldl (KMCMSSector.scan T) st1.toKMCLayerFwd.ResetBgClusters) }) ∧
    (st1.signalSectorID ≠ -1 → isBG = false ∧ res = true) := by
  have key : (isBG = true ∨ res = false) → st1.signalSectorID = -1 := by
    intro hor
    rcases KMCMSStation.AddCluster_result T st x y z id isBG rx ry res st1 h with
      ⟨_, hst⟩ | ⟨_, _, _, _, _, _, _, _, _, _, _, _, _, hres, hst⟩
    · rw [hst]
      rfl
    · rcases hor with hb | hf
      · subst hb
        rw [hst]
        rfl
      · rw [hres] at hf
        exact absurd hf (by decide)
  refine ⟨rfl, ?_, ?_⟩
  · intro hor
    have hs := key hor
    refine ⟨hs, ?_, ?_⟩
    · unfold KMCMSStation.signalHits
      rw [hs]
      rfl
    · intro sortBG
      exact KMCMSStation.PrepareForTracking_no_signal T sortBG st1 (by rw [hs]; decide)
  · intro hne
    by_contra hc
    apply hne
    apply key
    cases isBG
    · cases res
      · exact Or.inr rfl
      · exact absurd ⟨rfl, rfl⟩ hc
    · exact Or.inl rfl

/-- Witness of C17: on `exampleSignalStation`, which holds a signal record in sector 0, a
successful background `AddCluster` (lab point at the distance `2` on the bisector of
sector 0, samples `rx = 0`, `ry = 5/3`) leaves the station without a signal record. -/
theorem c17_signal_record_lifetime_witness :
    (exampleSignalStation (⟨Real.cos, Real.sin, Real.tan, fun y x => Complex.arg ⟨x, y⟩, Real.sqrt, Real.pi, fun v => v⟩ :
        TMath ℝ)
      (Real.arccos (3 / 5))).signalSectorID = 0 ∧
    ∃ st1, (exampleSignalStation (⟨Real.cos, Real.sin, Real.tan, fun y x => Complex.arg ⟨x, y⟩, Real.sqrt, Real.pi, fun v => v⟩ :
        TMath ℝ)
      (Real.arccos (3 / 5))).AddCluster (⟨Real.cos, Real.sin, Real.tan, fun y x => Complex.arg ⟨x, y⟩, Real.sqrt, Real.pi, fun v => v⟩ :
        TMath ℝ) (2 * (Real.sqrt 2 / 2)) (2 * (Real.sqrt 2 / 2)) 0 8 true 0
        (5 / 3) = some (true, st1) ∧
      st1.signalSectorID = -1 ∧ st1.signalHits true = some st1.sectors := by
  obtain ⟨st1, h1, _⟩ := exampleStation_AddCluster_diag (exampleSignalStation (⟨Real.cos, Real.sin, Real.tan, fun y x => Complex.arg ⟨x, y⟩, Real.sqrt, Real.pi, fun v => v⟩ :
        TMath ℝ)
      (Real.arccos (3 / 5))) rfl rfl rfl rfl 2 (5 / 3)
    0 8 true (by norm_num) (by norm_num) (by norm_num) (by norm_num)
  have h := (c17_signal_record_lifetime (⟨Real.cos, Real.sin, Real.tan, fun y x => Complex.arg ⟨x, y⟩, Real.sqrt, Real.pi, fun v => v⟩ :
        TMath ℝ) (exampleSignalStation (⟨Real.cos, Real.sin, Real.tan, fun y x => Complex.arg ⟨x, y⟩, Real.sqrt, Real.pi, fun v => v⟩ :
        TMath ℝ)
      (Real.arccos (3 / 5))) _ _ 0 8 true 0 (5 / 3) true st1 h1).2.1
    (Or.inl rfl)
  exact ⟨rfl, st1, h1, h.1, h.2.1⟩

/-- C18 (a recorded signal has a valid sector), evaluation of the code at a failing input.
On `exampleStation` with `phiUV = arccos (3/5)` (4 angular sectors, radii `[1/2, 5]`,
`sigR = 3/5`), the lab point at the distance `4` on the bisector of sector 0 is in
sector 0.  With the samples `rx = 0`, `ry = 5/3` the smeared point is at the distance
`4 + 5/3·3/5 = 5` on the same bisector: `getSectorID` of the smeared point is `-1` (the
test of the radial loop is `xl < rMax`), but the projection by the sector of the point
before smearing succeeds (`isInside` has `xl ≤ rMax`).  The signal call of `AddCluster`
returns `true`, revives the truth cluster and stores the channels `(4, 4, 9/2)` with
`signalSectorID = -1`: `PrepareForTracking` will inject no signal hit. -/
theorem c18_signal_without_sector_failing_input :
    (exampleStation (⟨Real.cos, Real.sin, Real.tan, fun y x => Complex.arg ⟨x, y⟩, Real.sqrt, Real.pi, fun v => v⟩ :
        TMath ℝ)
      (Real.arccos (3 / 5))).getSectorID (⟨Real.cos, Real.sin, Real.tan, fun y x => Complex.arg ⟨x, y⟩, Real.sqrt, Real.pi, fun v => v⟩ :
        TMath ℝ) (4 * (Real.sqrt 2 / 2)) (4 * (Real.sqrt 2 / 2)) = some 0 ∧
    (exampleSector (⟨Real.cos, Real.sin, Real.tan, fun y x => Complex.arg ⟨x, y⟩, Real.sqrt, Real.pi, fun v => v⟩ :
        TMath ℝ)
      (Real.arccos (3 / 5)) 0).smear (⟨Real.cos, Real.sin, Real.tan, fun y x => Complex.arg ⟨x, y⟩, Real.sqrt, Real.pi, fun v => v⟩ :
        TMath ℝ) (4 * (Real.sqrt 2 / 2)) (4 * (Real.sqrt 2 / 2)) 0 (5 / 3) =
      (5 * (Real.sqrt 2 / 2), 5 * (Real.sqrt 2 / 2)) ∧
    (exampleStation (⟨Real.cos, Real.sin, Real.tan, fun y x => Complex.arg ⟨x, y⟩, Real.sqrt, Real.pi, fun v => v⟩ :
        TMath ℝ)
      (Real.arccos (3 / 5))).getSectorID (⟨Real.cos, Real.sin, Real.tan, fun y x => Complex.arg ⟨x, y⟩, Real.sqrt, Real.pi, fun v => v⟩ :
        TMath ℝ) (5 * (Real.sqrt 2 / 2)) (5 * (Real.sqrt 2 / 2)) = some (-1) ∧
    (exampleSector (⟨Real.cos, Real.sin, Real.tan, fun y x => Complex.arg ⟨x, y⟩, Real.sqrt, Real.pi, fun v => v⟩ :
        TMath ℝ)
      (Real.arccos (3 / 5)) 0).getUVW (⟨Real.cos, Real.sin, Real.tan, fun y x => Complex.arg ⟨x, y⟩, Real.sqrt, Real.pi, fun v => v⟩ :
        TMath ℝ) (5 * (Real.sqrt 2 / 2)) (5 * (Real.sqrt 2 / 2)) = some (4, 4, 9 / 2) ∧
    ∃ st1, (exampleStation (⟨Real.cos, Real.sin, Real.tan, fun y x => Complex.arg ⟨x, y⟩, Real.sqrt, Real.pi, fun v => v⟩ :
        TMath ℝ)
      (Real.arccos (3 / 5))).AddCluster (⟨Real.cos, Real.sin, Real.tan, fun y x => Complex.arg ⟨x, y⟩, Real.sqrt, Real.pi, fun v => v⟩ :
        TMath ℝ) (4 * (Real.sqrt 2 / 2)) (4 * (Real.sqrt 2 / 2)) 0 7 false 0
        (5 / 3) = some (true, st1) ∧
      st1.signalSectorID = -1 ∧
      (st1.signalU, st1.signalV, st1.signalW) = (4, 4, 9 / 2) ∧
      st1.fClMC.killed = false ∧
      st1.signalHits true = some st1.sectors := by
  have e5 : (4 : ℝ) + 5 / 3 * (3 / 5) = 5 := by norm_num
  obtain ⟨st1, h1, hsm, hget, hsig, _⟩ := exampleStation_AddCluster_diag (exampleStation (⟨Real.cos, Real.sin, Real.tan, fun y x => Complex.arg ⟨x, y⟩, Real.sqrt, Real.pi, fun v => v⟩ :
        TMath ℝ)
      (Real.arccos (3 / 5))) rfl rfl rfl rfl 4
    (5 / 3) 0 7 false (by norm_num) (by norm_num) (by norm_num) (by norm_num)
  obtain ⟨hid, huvw, hk, _⟩ := hsig rfl
  rw [e5] at hsm hget hid huvw
  rw [if_neg (lt_irrefl 5)] at hget hid
  refine ⟨?_, hsm, hget, ?_, st1, h1, hid, ?_, hk, ?_⟩
  · rw [exampleStation_getSectorID_diag _ 4 (by norm_num), if_neg (by norm_num),
      if_pos (by norm_num)]
  · rw [exampleSector_getUVW_diag 5 (by norm_num) le_rfl]
    norm_num
  · rw [huvw]
    norm_num
  · unfold KMCMSStation.signalHits
    rw [hid]
    rfl

/-- C19 (only the pure signal triple moves the signal): for an accepted combination (V-W
crossing inside the sector, `chi2 ≤ 9`) of hits whose labels are `-1` (the injected signal
hit) or `≥ 0` (background hits), the label `lu` of the U hit being a 32-bit `int`
(`-1 ≤ lu ≤ 2147483647`; no condition on the V and W labels is needed): the resolved
label is `-1` if and only if the three hits have the label `-1`; a combination of the
signal U hit with a V or W hit of another label is registered as one background cluster of
label `99999`, the truth cluster unchanged; a combination with a U hit of label `L ≥ 0`
gets a label that is not `-1`, leaves the truth cluster unchanged, and its label is `L`
or `100000 + L` when `100000 + L` is representable (`L ≤ 2147383647`, no signed
overflow). -/
theorem c19_signal_label (T : TMath K) (sect : KMCMSSector K)
    (hitU hitW hitV : Hit K) (pUW : K × K) (l : KMCLayerFwd K)
    (hin : sect.toSector.isInside T (sect.crossVW T hitV hitW).1
      (sect.crossVW T hitV hitW).2 = true)
    (hchi : sect.chi2 (pUW.1 - (sect.crossVW T hitV hitW).1)
      (pUW.2 - (sect.crossVW T hitV hitW).2) ≤ 9)
    (hu : -1 ≤ hitU.label) (hmax : hitU.label ≤ 2147483647) :
    (resolveLabel hitU.label hitV.label hitW.label = -1 ↔
      hitU.label = -1 ∧ hitV.label = -1 ∧ hitW.label = -1) ∧
    (hitU.label = -1 → hitV.label ≠ -1 ∨ hitW.label ≠ -1 →
      resolveLabel hitU.label hitV.label hitW.label = 99999 ∧
      (sect.stepV T hitU hitW pUW l hitV).fClBg = l.fClBg ++
        [{ x := (sect.toSector.sector2Lab T (0.5 * (pUW.1 + (sect.crossVW T hitV hitW).1))
              (0.5 * (pUW.2 + (sect.crossVW T hitV hitW).2))).1,
           y := (sect.toSector.sector2Lab T (0.5 * (pUW.1 + (sect.crossVW T hitV hitW).1))
              (0.5 * (pUW.2 + (sect.crossVW T hitV hitW).2))).2,
           z := l.fZ,
           id := 99999 }] ∧
      (sect.stepV T hitU hitW pUW l hitV).fClMC = l.fClMC) ∧
    (0 ≤ hitU.label →
      (hitU.label ≤ 2147383647 →
        resolveLabel hitU.label hitV.label hitW.label = hitU.label ∨
        resolveLabel hitU.label hitV.label hitW.label = 100000 + hitU.label) ∧
      resolveLabel hitU.label hitV.label hitW.label ≠ -1 ∧
      (sect.stepV T hitU hitW pUW l hitV).fClMC = l.fClMC) := by
  rw [KMCMSSector.stepV_accepted T sect hitU hitW hitV pUW l hin hchi]
  refine ⟨?_, ?_, ?_⟩
  · unfold resolveLabel wrapInt32
    split
    · rename_i h
      constructor
      · intro h1
        exact ⟨h1, by omega, by omega⟩
      · intro h1
        exact h1.1
    · rename_i h
      constructor
      · intro h1
        omega
      · intro h1
        exact absurd ⟨by omega, by omega⟩ h
  · intro h1 h2
    have hl : resolveLabel hitU.label hitV.label hitW.label = 99999 := by
      unfold resolveLabel
      rw [if_neg (by omega), h1]
      rfl
    rw [hl]
    simp [KMCLayerFwd.registerCoincidence, KMCLayerFwd.AddBgCluster, KMCLayerFwd.GetZ]
  · intro h1
    have hor : hitU.label ≤ 2147383647 →
        resolveLabel hitU.label hitV.label hitW.label = hitU.label ∨
        resolveLabel hitU.label hitV.label hitW.label = 100000 + hitU.label := by
      intro hb
      unfold resolveLabel
      split
      · exact Or.inl rfl
      · exact Or.inr (wrapInt32_of_range _ (by omega) (by omega))
    have hne : resolveLabel hitU.label hitV.label hitW.label ≠ -1 := by
      unfold resolveLabel wrapInt32
      split <;> omega
    refine ⟨hor, hne, ?_⟩
    simp [KMCLayerFwd.registerCoincidence, hne, KMCLayerFwd.AddBgCluster]

/-- Witness of C19: in sector 0 of the station `exampleStation` with
`phiUV = arccos (3/5)`, the combination of the signal U hit `(17/5, -1)` and the signal V
hit `(17/5, -1)` with the background W hit `(1/2, 2)` is accepted; it is registered as a
background cluster of label `99999`. -/
theorem c19_signal_label_witness :
    ((exampleSector (⟨Real.cos, Real.sin, Real.tan, fun y x => Complex.arg ⟨x, y⟩, Real.sqrt, Real.pi, fun v => v⟩ :
        TMath ℝ)
      (Real.arccos (3 / 5)) 0).stepV (⟨Real.cos, Real.sin, Real.tan, fun y x => Complex.arg ⟨x, y⟩, Real.sqrt, Real.pi, fun v => v⟩ :
        TMath ℝ) ⟨17 / 5, -1⟩ ⟨1 / 2, 2⟩ (47 / 25, 159 / 100)
      (emptyStation ℝ).toKMCLayerFwd ⟨17 / 5, -1⟩).fClBg.map (fun c => c.id) = [99999] := by
  rw [((c19_signal_label (⟨Real.cos, Real.sin, Real.tan, fun y x => Complex.arg ⟨x, y⟩, Real.sqrt, Real.pi, fun v => v⟩ :
        TMath ℝ) (exampleSector (⟨Real.cos, Real.sin, Real.tan, fun y x => Complex.arg ⟨x, y⟩, Real.sqrt, Real.pi, fun v => v⟩ :
        TMath ℝ)
      (Real.arccos (3 / 5)) 0) ⟨17 / 5, -1⟩ ⟨1 / 2, 2⟩ ⟨17 / 5, -1⟩ (47 / 25, 159 / 100)
      (emptyStation ℝ).toKMCLayerFwd
      (by
        rw [exampleSector_crossVW, exampleSector_isInside]
        norm_num [abs_le])
      (by
        rw [exampleSector_crossVW, exampleSector_chi2]
        norm_num)
      (by decide) (by decide)).2.1 rfl (Or.inr (by decide))).2.1]
  simp [emptyStation]

end NA60
